import Mathlib

/-!
# Module lifecycle service (`services/modules.js`)

A shallow embedding of the module dependency-reconciliation and lifecycle
engine.  The registry (a document collection), the file system and the
package-manager command log are explicit state; collaborators whose sources
live outside the service (`utils/modules`, the JSON parser, `semver`, the
package manager) enter as parameters.

Conventions of the embedding:
* a JavaScript object keyed by strings is an association list in key
  insertion order (the order `Object.keys` / `Object.entries` enumerate
  non-index keys);
* a JavaScript `Set` of strings is a list in insertion order, `add` appends a
  value only when it is absent;
* text functions work on `List Char` by structural recursion.
-/

set_option autoImplicit false

namespace ModulesService

/-! ## Text primitives -/

/-- JavaScript `s.replace(pat, rep)` for a string pattern, on characters: only
the first occurrence of `pat` is replaced. -/
def replaceFirstChars (pat rep : List Char) : List Char → List Char
  | [] => if pat = [] then rep else []
  | c :: cs =>
    if pat.isPrefixOf (c :: cs) = true then rep ++ (c :: cs).drop pat.length
    else c :: replaceFirstChars pat rep cs

/-- JavaScript `s.replace(pat, rep)` where `pat` is a string. -/
def jsReplace (s pat rep : String) : String :=
  String.mk (replaceFirstChars pat.toList rep.toList s.toList)

/-- JavaScript `s.split(sep)` for a one-character separator, on characters. -/
def splitChars (sep : Char) : List Char → List (List Char)
  | [] => [[]]
  | c :: cs =>
    if c = sep then [] :: splitChars sep cs
    else
      match splitChars sep cs with
      | [] => [[c]]
      | p :: ps => (c :: p) :: ps

/-- JavaScript `value.split('@')`. -/
def jsSplitAt (value : String) : List String :=
  (splitChars '@' value.toList).map String.mk

/-- JavaScript `s.startsWith(p)`. -/
def jsStartsWith (s p : String) : Bool := p.toList.isPrefixOf s.toList

/-- JavaScript `s.endsWith(p)`. -/
def jsEndsWith (s p : String) : Bool := p.toList.reverse.isPrefixOf s.toList.reverse

/-- The package name the service derives from a dependency string:
`value.split('@')`, and when the first piece is empty it is dropped and `@` is
put back in front of the next piece (a missing next piece prints as
`undefined`). -/
def dependencyName (value : String) : String :=
  match jsSplitAt value with
  | [] => "undefined"
  | first :: rest =>
    if first = "" then
      match rest with
      | [] => "@undefined"
      | second :: _ => "@" ++ second
    else first

/-! ## JavaScript objects and sets -/

/-- Value stored under key `k` of an object (`obj[k]`). -/
def objGet {α : Type} (obj : List (String × α)) (k : String) : Option α :=
  match obj with
  | [] => none
  | (n, v) :: rest => if n = k then some v else objGet rest k

/-- Assignment `obj[k] = v`: an existing key keeps its position, a new key is
appended. -/
def objSet {α : Type} (obj : List (String × α)) (k : String) (v : α) : List (String × α) :=
  match obj with
  | [] => [(k, v)]
  | (n, w) :: rest => if n = k then (n, v) :: rest else (n, w) :: objSet rest k v

/-- `Object.keys(obj)`. -/
def objKeys {α : Type} (obj : List (String × α)) : List String := obj.map Prod.fst

/-- The names an object literal inherits from `Object.prototype`.  Read on an
object that has no own property of that name, each of them gives a function
(`__proto__` gives the prototype object): a truthy value that is not a
string. -/
def objectPrototypeNames : List String :=
  ["constructor", "__defineGetter__", "__defineSetter__", "hasOwnProperty", "__lookupGetter__",
    "__lookupSetter__", "isPrototypeOf", "propertyIsEnumerable", "toString", "valueOf",
    "__proto__", "toLocaleString"]

/-- Whether `obj[k]` is truthy, for an object literal whose own values are all
truthy (arrays, objects): `k` is an own key, or a name inherited from
`Object.prototype`. -/
def isTruthyAt {α : Type} (obj : List (String × α)) (k : String) : Bool :=
  (objGet obj k).isSome || decide (k ∈ objectPrototypeNames)

/-- `set.add(x)` on an insertion-ordered set. -/
def setAdd (s : List String) (x : String) : List String :=
  if x ∈ s then s else s ++ [x]

/-- `obj[k].add(x)` for an object whose values are sets. -/
def addToKey (obj : List (String × List String)) (k x : String) : List (String × List String) :=
  obj.map fun e => if e.1 = k then (e.1, setAdd e.2 x) else e

/-! ## Data model -/

/-- The `packageDependencies` field: per scope an optional list of
`name@range` strings. -/
structure PackageDependencies where
  api : Option (List String)
  theme : Option (List String)
  deriving DecidableEq, Repr

/-- A record of the `Modules` collection. -/
structure Module where
  _id : Nat
  name : String
  description : Option String
  version : Option String
  path : String
  url : Option String
  cronNames : List String
  mailTypeCode : List String
  loadApp : Bool
  loadTranslationBack : Bool
  loadTranslationFront : Bool
  packageDependencies : Option PackageDependencies
  moduleDependencies : List String
  component_template_front : Option String
  files : List String
  type : Option String
  versionAquila : Option String
  active : Bool
  deriving DecidableEq, Repr

/-- The two dependency scopes. -/
inductive Scope
  | api
  | theme
  deriving DecidableEq, Repr

/-- A value of `toBeChanged[scope][name]` in a plan: still the `Set` that
`compareDependencies` built, or the array it was spread into. -/
inductive DepValue
  | set (elems : List String)
  | array (elems : List String)
  deriving DecidableEq, Repr

/-- The strings a plan value holds, whichever container holds them. -/
def DepValue.elems : DepValue → List String
  | .set l => l
  | .array l => l

/-- Whether a plan value is an array. -/
def DepValue.isArray : DepValue → Bool
  | .set _ => false
  | .array _ => true

/-- The requirement map `compareDependencies(myModule, modulesActivated, true)`
returns: per scope, an object from package name to the set of requested
`name@range` strings. -/
structure RequirementMap where
  api : List (String × List String)
  theme : List (String × List String)
  deriving DecidableEq, Repr

/-- Requirement sets of one scope. -/
def RequirementMap.scope (r : RequirementMap) : Scope → List (String × List String)
  | .api => r.api
  | .theme => r.theme

/-- A per-scope pair of objects (`{api: ..., theme: ...}`). -/
structure Scoped (α : Type) where
  api : List (String × α)
  theme : List (String × α)
  deriving DecidableEq, Repr

/-- Object of one scope. -/
def Scoped.scope {α : Type} (r : Scoped α) : Scope → List (String × α)
  | .api => r.api
  | .theme => r.theme

/-- Result of `checkDependenciesAtInstallation`. -/
structure InstallationPlan where
  toBeChanged : Scoped DepValue
  alreadyInstalled : Scoped String
  needUpgrade : Bool
  deriving DecidableEq, Repr

/-! ## Thrown values -/

/-- What a `throw` (or a rejected promise) carries: one of the `NSErrors`
constants the service names, a JavaScript `TypeError`, the value `undefined`
(a `reject()` without argument), or a failure of an external collaborator. -/
inductive ErrorKind
  | InvalidFile
  | ModuleInfoNotFound
  | ModuleNameMissmatch
  | ModuleAquilaVersionNotSatisfied
  | ModuleMainFolder
  | ModuleNotFound
  | TypeError
  | undefinedValue
  | fsError (path : String)
  | external (msg : String)
  deriving DecidableEq, Repr

/-- A thrown value together with the module list a lifecycle operation attaches
to it as `err.datas.modules`. -/
structure Thrown where
  kind : ErrorKind
  datasModules : Option (List Module)
  deriving DecidableEq, Repr

deriving instance DecidableEq for Except

/-- A thrown value without attached data. -/
def raise (k : ErrorKind) : Thrown := ⟨k, none⟩

/-! ## Registry queries -/

/-- `Modules.findById(id)` / `Modules.findOne({_id: id})`. -/
def findById (modules : List Module) (id : Nat) : Option Module :=
  modules.find? fun m => m._id = id

/-- `Modules.findOne({name})`. -/
def findByName (modules : List Module) (name : String) : Option Module :=
  modules.find? fun m => m.name = name

/-- `Modules.find({_id: {$ne: id}, active: true})`. -/
def findOtherActive (modules : List Module) (id : Nat) : List Module :=
  modules.filter fun m => m._id ≠ id ∧ m.active = true

/-! ## Activation planning (`checkDependenciesAtInstallation`) -/

/-- What the planner reads from outside the service: the two helpers of
`utils/modules`, the package manager's listings and the pinned manifests.  A
probe that fails or is malformed is a thrown value. -/
structure PlannerEnv where
  cleanPackageVersion : List String → List String
  compareDependencies : Module → List Module → RequirementMap
  installedApi : Except Thrown (List (String × String))
  aquilaDependencies : Except Thrown (List String)
  installedTheme : Except Thrown (List (String × String))
  themeDependencies : Except Thrown (List String)

/-- Lines 217-222: the candidate's lists are replaced by their cleaned
versions. -/
def cleanCandidate (clean : List String → List String) (m : Module) (pd : PackageDependencies) :
    Module :=
  { m with packageDependencies := some { api := pd.api.map clean, theme := pd.theme.map clean } }

/-- Lines 223-230: each other active module has its `api` list cleaned when it
is present and, under the same test on `api`, its `theme` list cleaned;
spreading an absent list is a `TypeError`. -/
def cleanActivated (clean : List String → List String) :
    List Module → Except Thrown (List Module)
  | [] => .ok []
  | elem :: rest =>
    match elem.packageDependencies with
    | none => .error (raise .TypeError)
    | some pd =>
      match pd.api with
      | none =>
        match cleanActivated clean rest with
        | .error e => .error e
        | .ok r => .ok (elem :: r)
      | some a =>
        match pd.theme with
        | none => .error (raise .TypeError)
        | some t =>
          match cleanActivated clean rest with
          | .error e => .error e
          | .ok r =>
            .ok ({ elem with packageDependencies := some { api := some (clean a), theme := some (clean t) } } :: r)

/-- Lines 240-247 and 265-272: every installed package that is a key of the
requirement object is recorded in `alreadyInstalled` as `name@version` and the
same string is added to its requirement set. -/
def mergeInstalled :
    List (String × String) → List (String × String) → List (String × List String) →
      List (String × String) × List (String × List String)
  | [], already, changed => (already, changed)
  | (index, value) :: rest, already, changed =>
    if index ∈ objKeys changed then
      mergeInstalled rest (objSet already index (index ++ "@" ++ value))
        (addToKey changed index (index ++ "@" ++ value))
    else mergeInstalled rest already changed

/-- Lines 249-260 and 274-285: every entry of the pinned manifest whose package
name is a key of the requirement object is added to that key's set. -/
def mergeManifest : List String → List (String × List String) → List (String × List String)
  | [], changed => changed
  | value :: rest, changed => mergeManifest rest (addToKey changed (dependencyName value) value)

/-- Inner loop of lines 288-297 for one scope: each value is spread into an
array and tested; at the first package that is recorded as the empty string or
holds more than one string the loop stops, leaving the remaining values as they
are.  The flag tells whether the loop stopped that way. -/
def normalizeScope (already : List (String × String)) :
    List (String × List String) → List (String × DepValue) × Bool
  | [] => ([], false)
  | (name, values) :: rest =>
    if objGet already name = some "" ∨ values.length > 1 then
      ((name, DepValue.array values) :: rest.map (fun e => (e.1, DepValue.set e.2)), true)
    else
      ((name, DepValue.array values) :: (normalizeScope already rest).1,
        (normalizeScope already rest).2)

/-- Lines 288-297: the scopes are visited in the order `api`, `theme`; the
outer loop stops as soon as `needUpgrade` is set. -/
def normalizePlan (already : Scoped String) (changedApi changedTheme : List (String × List String)) :
    InstallationPlan :=
  let api := normalizeScope already.api changedApi
  if api.2 then
    { toBeChanged := ⟨api.1, changedTheme.map fun e => (e.1, DepValue.set e.2)⟩
      alreadyInstalled := already
      needUpgrade := true }
  else
    let theme := normalizeScope already.theme changedTheme
    { toBeChanged := ⟨api.1, theme.1⟩
      alreadyInstalled := already
      needUpgrade := theme.2 }

/-- The merge of one scope, lines 238-261 (`api`) and 263-286 (`theme`): it
runs only when the candidate declares the scope and needs both probes. -/
def mergeScope (declared : Option (List String))
    (installed : Except Thrown (List (String × String))) (pinned : Except Thrown (List String))
    (required : List (String × List String)) :
    Except Thrown (List (String × String) × List (String × List String)) :=
  match declared with
  | none => .ok ([], required)
  | some _ =>
    match installed with
    | .error e => .error e
    | .ok installedDependencies =>
      match pinned with
      | .error e => .error e
      | .ok dependencies =>
        .ok ((mergeInstalled installedDependencies [] required).1,
          mergeManifest dependencies (mergeInstalled installedDependencies [] required).2)

/-- Lines 231-303, from the map `compareDependencies` returned: the `api` merge,
the `theme` merge, then the normalisation of the plan. -/
def planInstallation (env : PlannerEnv) (pd : PackageDependencies) (req : RequirementMap) :
    Except Thrown InstallationPlan :=
  match mergeScope pd.api env.installedApi env.aquilaDependencies req.api with
  | .error e => .error e
  | .ok api =>
    match mergeScope pd.theme env.installedTheme env.themeDependencies req.theme with
    | .error e => .error e
    | .ok theme => .ok (normalizePlan ⟨api.1, theme.1⟩ api.2 theme.2)

/-- The plan returned when the candidate declares no dependencies (the guard
of line 215 is false). -/
def emptyPlan : InstallationPlan :=
  { toBeChanged := ⟨[], []⟩, alreadyInstalled := ⟨[], []⟩, needUpgrade := false }

/-- `checkDependenciesAtInstallation(idModule)` over the registry `modules`. -/
def checkDependenciesAtInstallation (env : PlannerEnv) (modules : List Module) (idModule : Nat) :
    Except Thrown InstallationPlan :=
  match findById modules idModule with
  | none => .error (raise .TypeError)
  | some myModule =>
    match myModule.packageDependencies with
    | none => .ok emptyPlan
    | some pd =>
      if pd.api.isSome ∨ pd.theme.isSome then
        match cleanActivated env.cleanPackageVersion (findOtherActive modules idModule) with
        | .error e => .error e
        | .ok modulesActivated =>
          let cleaned := cleanCandidate env.cleanPackageVersion myModule pd
          planInstallation env
            { api := pd.api.map env.cleanPackageVersion, theme := pd.theme.map env.cleanPackageVersion }
            (env.compareDependencies cleaned modulesActivated)
      else .ok emptyPlan

/-! ## Paths -/

/-- Characters of a path without its trailing separators (the root stays). -/
def stripSlashesChars (p : List Char) : List Char :=
  match (p.reverse.dropWhile fun c => c = '/').reverse with
  | [] => if p = [] then [] else ['/']
  | r => r

/-- One step of `path.resolve` over its arguments: an empty argument is
skipped, an absolute one replaces what precedes it, a relative one is appended
behind a separator. -/
def resolveStep (acc seg : String) : String :=
  if seg = "" then acc
  else if jsStartsWith seg "/" then seg
  else acc ++ "/" ++ seg

/-- The normalisation `path.resolve` applies to the segments of an absolute
path: empty segments and `.` are dropped, `..` removes the segment before it
(nothing is removed above the root).  The accumulator holds the segments kept
so far, the last one first. -/
def normalizeSegments : List (List Char) → List (List Char) → List (List Char)
  | acc, [] => acc
  | acc, seg :: rest =>
    if seg = [] ∨ seg = ['.'] then normalizeSegments acc rest
    else if seg = ['.', '.'] then normalizeSegments acc.tail rest
    else normalizeSegments (seg :: acc) rest

/-- Segments written behind one separator each. -/
def joinSegments : List (List Char) → List Char
  | [] => []
  | seg :: rest => '/' :: (seg ++ joinSegments rest)

/-- POSIX `path.resolve(cwd, ...segments)` for an absolute `cwd`: the arguments
are resolved from left to right against `cwd`, then the path is normalised:
doubled and trailing separators and `.` segments are dropped and each `..`
removes the segment before it.
The process works in the application root, so `cwd` is `global.appRoot`. -/
def pathResolve (cwd : String) (segments : List String) : String :=
  match normalizeSegments [] (splitChars '/' (segments.foldl resolveStep cwd).toList) with
  | [] => "/"
  | kept => String.mk (joinSegments kept.reverse)

/-- Regular expression `/\/$/` replaced by `rep`: a final separator is replaced,
any other path is unchanged. -/
def replaceFinalSlash (p rep : String) : String :=
  if jsEndsWith p "/" then String.mk (p.toList.dropLast ++ rep.toList) else p

/-- Last path segment once trailing separators are ignored. -/
def baseNameChars (p : List Char) : List Char :=
  ((stripSlashesChars p).reverse.takeWhile fun c => c ≠ '/').reverse

/-- Whether `path.extname(name)` is `.zip`: the last segment ends in `.zip` and
holds at least one character before that dot. -/
def hasZipExtension (name : String) : Bool :=
  let base := baseNameChars name.toList
  ".zip".toList.reverse.isPrefixOf base.reverse && decide (base.length > 4)

/-! ## State of the host -/

/-- An entry of an archive, with its data read as text. -/
structure ZipEntry where
  entryName : String
  data : String
  deriving DecidableEq, Repr

/-- What a path of the file system holds. -/
inductive FileData
  | dir
  | text (content : String)
  | archive (entries : List ZipEntry)
  deriving DecidableEq, Repr

/-- The state the lifecycle operations act on: the registry collection, the
file system (absolute path to content, plus the paths a write or a delete is
refused on) and the package-manager commands issued so far, each with its
working directory. -/
structure World where
  modules : List Module
  files : List (String × FileData)
  locked : List String
  commands : List (String × String)
  deriving DecidableEq, Repr

/-- An asynchronous operation of the service: from a state to a returned or
thrown value and the state it leaves. -/
def M (α : Type) : Type := World → Except Thrown α × World

/-- Normal return. -/
def M.pure {α : Type} (a : α) : M α := fun w => (.ok a, w)

/-- Sequencing (`await`): a thrown value skips what follows, the state
reached so far is kept. -/
def M.bind {α β : Type} (f : M α) (g : α → M β) : M β := fun w =>
  match f w with
  | (.ok a, w') => g a w'
  | (.error e, w') => (.error e, w')

instance : Monad M where
  pure := M.pure
  bind := M.bind

/-- `throw e`. -/
def throwM {α : Type} (e : Thrown) : M α := fun w => (.error e, w)

/-- `try { f } catch (err) { handler(err) }`. -/
def tryCatchM {α : Type} (f : M α) (handler : Thrown → M α) : M α := fun w =>
  match f w with
  | (.ok a, w') => (.ok a, w')
  | (.error e, w') => handler e w'

/-- `try { f } catch (err) { console.error(err) }`: a failure is logged and
dropped. -/
def logged (f : M Unit) : M Unit := tryCatchM f fun _ => M.pure ()

/-- A result computed without touching the state. -/
def liftExcept {α : Type} (r : Except Thrown α) : M α := fun w => (r, w)

/-- A value read by the JSON reader; where the reader throws (a `SyntaxError`,
or a `TypeError` on a missing object) the operation throws. -/
def parsed {α : Type} (r : Option α) : M α := fun w =>
  match r with
  | some a => (.ok a, w)
  | none => (.error (raise (.external "JSON")), w)

/-- Read the state. -/
def getWorld : M World := fun w => (.ok w, w)

/-- `for (const x of xs) { body(x) }`. -/
def forEachM {α : Type} (body : α → M Unit) : List α → M Unit
  | [] => M.pure ()
  | x :: xs => M.bind (body x) fun _ => forEachM body xs

/-- A loop that collects what each iteration returns. -/
def collectM {α β : Type} (body : α → M (List β)) : List α → M (List β)
  | [] => M.pure []
  | x :: xs => M.bind (body x) fun r => M.bind (collectM body xs) fun rs => M.pure (r ++ rs)

/-! ## File-system utility -/

/-- Whether `key` lies below the directory `dir`. -/
def isUnder (dir key : String) : Bool := jsStartsWith key (dir ++ "/")

/-- Content stored at exactly `key`. -/
def fileAt (files : List (String × FileData)) (key : String) : Option FileData :=
  objGet files key

/-- Whether `key` names something: an entry, or a directory implied by an entry
below it. -/
def pathExists (files : List (String × FileData)) (key : String) : Bool :=
  files.any fun e => e.1 = key || isUnder key e.1

/-- Whether `key` names a directory. -/
def isDirectory (files : List (String × FileData)) (key : String) : Bool :=
  files.any fun e => (e.1 = key && e.2 = FileData.dir) || isUnder key e.1

/-- The entries at `key` and below it. -/
def subtree (files : List (String × FileData)) (key : String) : List (String × FileData) :=
  files.filter fun e => e.1 = key || isUnder key e.1

/-- The entries neither at `key` nor below it. -/
def withoutSubtree (files : List (String × FileData)) (key : String) :
    List (String × FileData) :=
  files.filter fun e => !(e.1 = key || isUnder key e.1)

/-- First segment of `key` below `dir`. -/
def childName (dir key : String) : String :=
  String.mk ((key.toList.drop (dir.length + 1)).takeWhile fun c => c ≠ '/')

/-- Modelled from the spec: the file-system utility (`utils/fsp`) is a
collaborator outside the service; `existsSync` is its existence check.  The
utility's operations take the absolute path their argument resolves to. -/
def existsSync (key : String) : M Bool := fun w =>
  (.ok (pathExists w.files key), w)

/-- Modelled from the spec: `fs.access(p)` of the file-system utility, which
answers with a boolean instead of throwing. -/
def access (key : String) : M Bool := existsSync key

/-- Modelled from the spec: `fs.lstatSync(p).isDirectory()`. -/
def lstatIsDirectory (key : String) : M Bool := fun w =>
  (.ok (isDirectory w.files key), w)

/-- Modelled from the spec: `fs.mkdir(p)`, single-directory creation; it throws
when the path exists or is write-protected. -/
def mkdir (key : String) : M Unit := fun w =>
  if pathExists w.files key ∨ key ∈ w.locked then (.error (raise (.fsError key)), w)
  else (.ok (), { w with files := w.files ++ [(key, FileData.dir)] })

/-- Modelled from the spec: `fs.copyFile(src, dest)`, single-file copy; it
throws when the source is not a file or the destination is write-protected. -/
def copyFile (source target : String) : M Unit := fun w =>
  match fileAt w.files source with
  | none => (.error (raise (.fsError source)), w)
  | some FileData.dir => (.error (raise (.fsError source)), w)
  | some data =>
    if target ∈ w.locked then (.error (raise (.fsError target)), w)
    else (.ok (), { w with files := objSet w.files target data })

/-- Modelled from the spec: `fs.unlink(p)`, single-file delete; it throws when
the path is not a file or is write-protected. -/
def unlink (key : String) : M Unit := fun w =>
  match fileAt w.files key with
  | none => (.error (raise (.fsError key)), w)
  | some FileData.dir => (.error (raise (.fsError key)), w)
  | some _ =>
    if key ∈ w.locked then (.error (raise (.fsError key)), w)
    else (.ok (), { w with files := w.files.filter fun e => e.1 ≠ key })

/-- Modelled from the spec: `fs.readFile(p)` read as text; it throws when the
path does not hold a text file. -/
def readFile (key : String) : M String := fun w =>
  match fileAt w.files key with
  | some (FileData.text content) => (.ok content, w)
  | _ => (.error (raise (.fsError key)), w)

/-- Modelled from the spec: `fs.writeFile(p, content)`; it throws when the path
is write-protected or is a directory. -/
def writeFile (key content : String) : M Unit := fun w =>
  if key ∈ w.locked ∨ isDirectory w.files key then (.error (raise (.fsError key)), w)
  else (.ok (), { w with files := objSet w.files key (FileData.text content) })

/-- Modelled from the spec: `fs.readdir(p)`, directory listing: the names
directly below the directory, each once; it throws when the path is not a
directory. -/
def readdir (key : String) : M (List String) := fun w =>
  if isDirectory w.files key then
    (.ok (((w.files.filter fun e => isUnder key e.1).map fun e => childName key e.1).eraseDups), w)
  else (.error (raise (.fsError key)), w)

/-- Modelled from the spec: recursive delete (`fs.deleteRecursiveSync(p)`, and
`rimraf(p)` once its callback has run): the path and everything below it go; a
missing path is left alone; it throws, deleting nothing, when a path it would
delete is write-protected. -/
def deleteRecursive (key : String) : M Unit := fun w =>
  if (subtree w.files key).any (fun e => decide (e.1 ∈ w.locked)) then
    (.error (raise (.fsError key)), w)
  else (.ok (), { w with files := withoutSubtree w.files key })

/-- The entries of `src` and below re-rooted at `dest`. -/
def rerooted (files : List (String × FileData)) (src dest : String) : List (String × FileData) :=
  (subtree files src).map fun e => (dest ++ String.mk (e.1.toList.drop src.length), e.2)

/-- Modelled from the spec: recursive copy (`fs.copyRecursiveSync(src, dest,
true)`), overwriting; it throws, copying nothing, when the source is missing or
a destination path is write-protected. -/
def copyRecursive (source target : String) : M Unit := fun w =>
  if !pathExists w.files source then (.error (raise (.fsError source)), w)
  else if (rerooted w.files source target).any (fun e => decide (e.1 ∈ w.locked)) then
    (.error (raise (.fsError target)), w)
  else
    (.ok (), { w with files := (rerooted w.files source target).foldl (fun fs e => objSet fs e.1 e.2) w.files })

/-- Archive reader, `new AdmZip(p)`: it throws when the path does not hold an
archive. -/
def openZip (key : String) : M (List ZipEntry) := fun w =>
  match fileAt w.files key with
  | some (FileData.archive entries) => (.ok entries, w)
  | _ => (.error (raise (.external "AdmZip")), w)

/-- Whether an archive entry is named by a plain relative path: segments
separated by `/`, none of them empty, `.` or `..` and none holding a backslash;
a final separator, which marks a directory, is left aside.  Such a name is
extracted to the path of the same segments below the target. -/
def isPlainEntryName (name : String) : Bool :=
  let segments := splitChars '/' name.toList
  let named := if segments.getLast? = some [] then segments.dropLast else segments
  !named.isEmpty &&
    named.all fun seg =>
      decide (seg ≠ []) && decide (seg ≠ ['.']) && decide (seg ≠ ['.', '.']) &&
        !seg.contains (Char.ofNat 92)

/-- Archive reader, `zip.getEntry(name)`: the table of entries keeps the last
entry read under a name. -/
def getEntry (entries : List ZipEntry) (name : String) : Option ZipEntry :=
  entries.reverse.find? fun e => e.entryName = name

/-- Writes of `zip.extractAllToAsync(target, true, cb)`: entries are written in
order under `target`, overwriting; a name that ends with a separator is a
directory.  The first write-protected destination stops the extraction with an
error. -/
def extractEntries (cwd target : String) :
    List ZipEntry → List (String × FileData) → List String → Bool × List (String × FileData)
  | [], files, _ => (true, files)
  | e :: rest, files, locked =>
    let key := pathResolve cwd [target, e.entryName]
    if key ∈ locked then (false, files)
    else if jsEndsWith e.entryName "/" then
      extractEntries cwd target rest
        (if pathExists files key then files else files ++ [(key, FileData.dir)]) locked
    else extractEntries cwd target rest (objSet files key (FileData.text e.data)) locked

/-- Lines 124-132: the promise around `extractAllToAsync`; on an extraction
error the callback logs it and calls `reject()` without an argument, so the
value thrown is `undefined`. -/
def extractAll (cwd target : String) (entries : List ZipEntry) : M Unit := fun w =>
  match extractEntries cwd target entries w.files w.locked with
  | (true, files) => (.ok (), { w with files := files })
  | (false, files) => (.error (raise .undefinedValue), { w with files := files })

/-! ## More text primitives -/

/-- JavaScript `s.indexOf(pat)`, on characters; `none` stands for `-1`. -/
def indexOfChars (pat : List Char) : List Char → Option Nat
  | [] => if pat = [] then some 0 else none
  | c :: cs =>
    if pat.isPrefixOf (c :: cs) = true then some 0
    else (indexOfChars pat cs).map fun i => i + 1

/-- JavaScript `s.indexOf(pat)`. -/
def jsIndexOf (s pat : String) : Option Nat := indexOfChars pat.toList s.toList

/-- JavaScript `s.lastIndexOf(c)` for one character; `none` stands for `-1`. -/
def lastIndexOfChar (c : Char) : List Char → Option Nat
  | [] => none
  | d :: ds =>
    match lastIndexOfChar c ds with
    | some i => some (i + 1)
    | none => if d = c then some 0 else none

/-- Whether every character of a text is an ASCII character. -/
def isAsciiText (s : String) : Bool := s.toList.all fun c => decide (c.toNat < 128)

/-- JavaScript `s.toLowerCase()` for a text of ASCII characters: the letters
`A` to `Z` are lowered and every other character is kept.  (JavaScript also
lowers the capitals outside ASCII; the statements about lowered names are made
for ASCII names.) -/
def jsToLowerCase (s : String) : String := String.mk (s.toList.map Char.toLower)

/-- JavaScript `xs.join(sep)`. -/
def joinWith (sep : String) : List String → String
  | [] => ""
  | [x] => x
  | x :: y :: rest => x ++ sep ++ joinWith sep (y :: rest)

/-- The characters the class `.` of a regular expression leaves out. -/
def isLineTerminator (c : Char) : Bool :=
  c = '\n' || c = '\r' || c = Char.ofNat 0x2028 || c = Char.ofNat 0x2029

/-- The lazy run `(.*?)\]` read from just behind a `[`: the characters up to
the first `]`, when no line terminator comes before it. -/
def lazyToBracket : List Char → Option (List Char)
  | [] => none
  | c :: cs =>
    if c = ']' then some []
    else if isLineTerminator c = true then none
    else (lazyToBracket cs).map fun body => c :: body

/-- First match of the regular expression `/\[(.*?)\]/g`, brackets included. -/
def firstBracketMatch : List Char → Option (List Char)
  | [] => none
  | c :: cs =>
    if c = '[' then
      match lazyToBracket cs with
      | some body => some ('[' :: (body ++ [']']))
      | none => firstBracketMatch cs
    else firstBracketMatch cs

/-- The characters the class `\s` of a regular expression matches. -/
def isJsSpace (c : Char) : Bool :=
  c = ' ' || c = '\t' || c = '\n' || c = '\r' || c = Char.ofNat 0x0b || c = Char.ofNat 0x0c ||
  c = Char.ofNat 0xa0 || c = Char.ofNat 0x1680 || (0x2000 ≤ c.toNat && c.toNat ≤ 0x200a) ||
  c = Char.ofNat 0x2028 || c = Char.ofNat 0x2029 || c = Char.ofNat 0x202f ||
  c = Char.ofNat 0x205f || c = Char.ofNat 0x3000 || c = Char.ofNat 0xfeff

/-- JavaScript `s.replace(/\s+/g, '')`. -/
def removeSpaces (s : String) : String := String.mk (s.toList.filter fun c => !isJsSpace c)

/-- The replacement `/\.0+/g` by `.` on characters; the flag tells that the
zeros of a match are being skipped. -/
def replaceDotZerosChars : Bool → List Char → List Char
  | _, [] => []
  | skipping, c :: cs =>
    if skipping = true ∧ c = '0' then replaceDotZerosChars true cs
    else if c = '.' ∧ cs.head? = some '0' then '.' :: replaceDotZerosChars true cs
    else c :: replaceDotZerosChars false cs

/-- JavaScript `version.replace(/\.0+/g, '.')`. -/
def replaceDotZeros (version : String) : String :=
  String.mk (replaceDotZerosChars false version.toList)

/-! ## Collaborators of the lifecycle operations -/

/-- The `info` object of a module descriptor (`info.json`). -/
structure Info where
  name : Option String
  description : Option String
  version : Option String
  url : Option String
  cronNames : List String
  mailTypeCode : List String
  loadApp : Bool
  loadTranslationBack : Bool
  loadTranslationFront : Bool
  packageDependencies : Option PackageDependencies
  moduleDependencies : List String
  component_template_front : Option String
  files : Option (List String)
  type : Option String
  versionAquila : Option String
  aquilaVersion : Option String
  deriving DecidableEq, Repr

/-- A value of a plan as a caller hands it back to the orchestrator: a string
or an array of strings. -/
inductive PlanValue
  | str (s : String)
  | list (l : List String)
  deriving DecidableEq, Repr

/-- How the promise around a module's `uninit.js` hook settles. -/
inductive HookOutcome
  | resolved
  | moduleNotFound
  | rejected (e : Thrown)
  deriving DecidableEq, Repr

/-- What the lifecycle operations take from outside the service: the
configuration globals, the JSON reader applied to a descriptor
(`JSON.parse(text).info`) and to the host's `package.json`
(`JSON.parse(text).version`), with `none` where reading throws,
`semver.satisfies`, the outcome of a
package-manager command, the module-dependency checks and
`cleanAndToBeChanged` of `utils/modules`, the `uninit` hook of a module and the
theme builder. -/
structure Env where
  appRoot : String
  currentTheme : String
  production : Bool
  parseInfo : String → Option Info
  parseHostVersion : String → Option String
  satisfies : String → String → Bool
  commandResult : String → String → Except Thrown Unit
  checkModuleDepencendiesAtInstallation : List Module → Option Module → Except Thrown Unit
  checkModuleDepencendiesAtUninstallation : List Module → Module → Except Thrown Unit
  cleanAndToBeChanged : List String → List (String × PlanValue) → List String
  uninit : String → HookOutcome
  buildTheme : String → Except Thrown Unit

/-- The command executor `packageManager.execCmd(cmd, cwd)`: the command is
issued (recorded), and a failing command throws. -/
def execCmd (env : Env) (cmd cwd : String) : M Unit := fun w =>
  (env.commandResult cmd cwd, { w with commands := w.commands ++ [(cmd, cwd)] })

/-! ## Registry updates -/

/-- The first record that satisfies `p` is replaced by its image under `f`
(`updateOne`). -/
def updateFirst (p : Module → Bool) (f : Module → Module) : List Module → List Module
  | [] => []
  | m :: rest => if p m = true then f m :: rest else m :: updateFirst p f rest

/-- The first record that satisfies `p` is deleted (`deleteOne`). -/
def deleteFirst (p : Module → Bool) : List Module → List Module
  | [] => []
  | m :: rest => if p m = true then rest else m :: deleteFirst p rest

/-- An identifier no record of the collection carries. -/
def freshId (modules : List Module) : Nat := (modules.map fun m => m._id).foldl max 0 + 1

/-- `Modules.findOne(...)` and friends as operations. -/
def findByIdM (idModule : Nat) : M (Option Module) := fun w =>
  (.ok (findById w.modules idModule), w)

/-- `Modules.find({})`. -/
def findAllM : M (List Module) := fun w => (.ok w.modules, w)

/-- Replace the registry by its image under `f`. -/
def modifyModules (f : List Module → List Module) : M Unit := fun w =>
  (.ok (), { w with modules := f w.modules })

/-! ## `removeModule` -/

/-- `removeModule(idModule)`, lines 640-657: the record is read, deleted from
the registry, then the archive (`path` with its final separator replaced by
`.zip`) and the module directory are deleted; both deletions only log their
failures. -/
def removeModule (env : Env) (idModule : Nat) : M Bool :=
  M.bind (findByIdM idModule) fun module =>
    match module with
    | none => throwM (raise .TypeError)
    | some found =>
      M.bind (modifyModules (deleteFirst fun m => m._id = idModule)) fun _ =>
      M.bind (logged (unlink (pathResolve env.appRoot [replaceFinalSlash found.path ".zip"]))) fun _ =>
      M.bind (logged (deleteRecursive (pathResolve env.appRoot [found.path]))) fun _ =>
      M.pure true

/-! ## `initModule` -/

/-- The record `findOneAndUpdate` writes from a descriptor (lines 144-162). -/
def recordOf (info : Info) (name path : String) (active : Bool) (id : Nat) : Module :=
  { _id := id
    name := name
    description := info.description
    version := info.version
    path := path
    url := info.url
    cronNames := info.cronNames
    mailTypeCode := info.mailTypeCode
    loadApp := info.loadApp
    loadTranslationBack := info.loadTranslationBack
    loadTranslationFront := info.loadTranslationFront
    packageDependencies := some (info.packageDependencies.getD ⟨none, none⟩)
    moduleDependencies := info.moduleDependencies
    component_template_front := info.component_template_front
    files := info.files.getD []
    type := info.type
    versionAquila := info.versionAquila
    active := active }

/-- Lines 143-162: `findOne({name})` followed by `findOneAndUpdate({name}, ...,
{upsert: true, new: true})`; the `active` written is `!!(myModule &&
myModule.active)`.  Returns the record as written. -/
def upsertModule (info : Info) (name path : String) : M Module := fun w =>
  let active : Bool :=
    match findByName w.modules name with
    | some myModule => myModule.active
    | none => false
  match findByName w.modules name with
  | some existing =>
    (.ok (recordOf info name path active existing._id),
      { w with
        modules := updateFirst (fun m => m.name = name)
                     (fun m => recordOf info name path active m._id) w.modules })
  | none =>
    (.ok (recordOf info name path active (freshId w.modules)),
      { w with modules := w.modules ++ [recordOf info name path active (freshId w.modules)] })

/-- Lines 102-109: when the descriptor declares a host range, the host version
is read from `package.json` and both strings go through `replace(/\.0+/g,
'.')` before `semver.satisfies`. -/
def checkAquilaVersion (env : Env) (moduleAquilaVersion : Option String) : M Unit :=
  match moduleAquilaVersion with
  | none => M.pure ()
  | some range =>
    if range = "" then M.pure ()
    else
      M.bind (readFile (pathResolve env.appRoot ["package.json"])) fun packageAquila =>
      M.bind (parsed (env.parseHostVersion packageAquila)) fun aquilaVersion =>
      if env.satisfies (replaceDotZeros aquilaVersion) (replaceDotZeros range) = true then M.pure ()
      else throwM (raise .ModuleAquilaVersionNotSatisfied)

/-- Lines 110-122: the scan for an entry named, or below, the main folder. -/
def mainFolderFound (entries : List ZipEntry) (folder : String) : Bool :=
  entries.any fun zipEntry => zipEntry.entryName = folder || jsStartsWith zipEntry.entryName folder

/-- Lines 85-92: the modules folder is created when missing and the upload is
moved into it (copied, then deleted at its temporary location). -/
def moveUpload (env : Env) (originalname filepath : String) : M Unit :=
  M.bind (existsSync (pathResolve env.appRoot ["modules/"])) fun folderPresent =>
  M.bind (if folderPresent = true then M.pure ()
    else mkdir (pathResolve env.appRoot ["modules/"])) fun _ =>
  M.bind (copyFile (pathResolve env.appRoot [filepath])
    (pathResolve env.appRoot ["modules/" ++ originalname])) fun _ =>
  unlink (pathResolve env.appRoot [filepath])

/-- Lines 95-122, the validations made on the archive before it is extracted:
the descriptor entry, the declared name, the host version and the main folder.
The source reads the descriptor entry twice (lines 99 and 102); both readings
are of the same text.  Returns the entries of the archive. -/
def validateArchive (env : Env) (originalname zipFilePath : String) : M (List ZipEntry) :=
  M.bind (openZip (pathResolve env.appRoot [zipFilePath])) fun entries =>
    match getEntry entries (jsReplace originalname ".zip" "/" ++ "info.json") with
    | none => throwM (raise .ModuleInfoNotFound)
    | some infojson =>
      M.bind (parsed (env.parseInfo infojson.data)) fun declared =>
      if some (jsReplace originalname ".zip" "") ≠ declared.name then
        throwM (raise .ModuleNameMissmatch)
      else
        M.bind (checkAquilaVersion env declared.aquilaVersion) fun _ =>
        if mainFolderFound entries (jsReplace originalname ".zip" "/") = false then
          throwM (raise .ModuleMainFolder)
        else M.pure entries

/-- Lines 123-186: extraction, the descriptor read back from the extracted
folder, and the upsert of the record.  The four checks for `uninit.js`,
`init.js`, `initAfter.js` and `rgpd.js` only log.  A descriptor read back
without a name has no record to be upserted under and ends the operation with
a registry failure. -/
def extractAndRegister (env : Env) (entries : List ZipEntry) (extractZipFilePath : String) :
    M Module :=
  M.bind (extractAll env.appRoot "modules/" entries) fun _ =>
  M.bind (existsSync (pathResolve env.appRoot [extractZipFilePath, "info.json"]))
    fun infoPresent =>
  if infoPresent = false then throwM (raise .ModuleInfoNotFound)
  else
    M.bind (readFile (pathResolve env.appRoot [extractZipFilePath, "info.json"]))
      fun infoFile =>
    M.bind (parsed (env.parseInfo infoFile)) fun info =>
    match info.name with
    | none => throwM (raise (.external "registry"))
    | some name => upsertModule info name extractZipFilePath

/-- Lines 187-201, the `catch` block: the copied archive and the extraction
folder are deleted, each failure only logged, and the caught value is thrown
again. -/
def cleanupAndRethrow (env : Env) (originalname : String) (err : Thrown) : M Module :=
  M.bind (logged (unlink (pathResolve env.appRoot ["modules/" ++ originalname]))) fun _ =>
  M.bind (logged (deleteRecursive
    (pathResolve env.appRoot [jsReplace ("modules/" ++ originalname) ".zip" "/"]))) fun _ =>
  throwM err

/-- `initModule(zipFile)`, lines 74-202, for an upload named `originalname`
stored at `filepath`. -/
def initModule (env : Env) (originalname filepath : String) : M Module :=
  if hasZipExtension originalname = false then throwM (raise .InvalidFile)
  else
    M.bind (moveUpload env originalname filepath) fun _ =>
    tryCatchM
      (M.bind (validateArchive env originalname ("modules/" ++ originalname)) fun entries =>
        extractAndRegister env entries (jsReplace ("modules/" ++ originalname) ".zip" "/"))
      (cleanupAndRethrow env originalname)

/-! ## Front-end injector -/

/-- The tag `type ? "type: '<type>'" : ''`. -/
def typeTag (type : Option String) : String :=
  match type with
  | none => ""
  | some t => if t = "" then "" else "type: '" ++ t ++ "'"

/-- Lines 711 and 745-747: `file.replace('Module', '').replace('.js',
'').toLowerCase()`. -/
def fileNameWithoutModule (file : String) : String :=
  jsToLowerCase (jsReplace (jsReplace file "Module" "") ".js" "")

/-- Lines 712 and 804: the manifest entry of a component file. -/
def jsxModuleToImport (file code type : String) : String :=
  "\x7b jsx: require('./" ++ file ++ "'), code: 'aq-" ++ code ++ "', " ++ type ++ " \x7d,"

/-- Whether a directory entry is a component file. -/
def isComponentFile (file : String) : Bool :=
  jsStartsWith file "Module" && jsEndsWith file ".js"

/-- `exp.slice(0, exp.lastIndexOf(']'))`; with no `]` the slice ends one
character before the end. -/
def sliceToLastBracket (exp : List Char) : List Char :=
  match lastIndexOfChar ']' exp with
  | some i => exp.take i
  | none => exp.dropLast

/-- The test `result.indexOf(fileNameWithoutModule) <= 0` of line 717. -/
def needsEntry (result code : String) : Bool :=
  match jsIndexOf result code with
  | none => true
  | some i => decide (i = 0)

/-- Lines 718-719: the manifest text with the entry appended to the first
bracket pair `match` finds; `none` where it finds no pair (reading `[0]` of
`null` throws). -/
def withEntry (result entry : String) : Option String :=
  match firstBracketMatch result.toList with
  | none => none
  | some exportDefaultListModule =>
    some ("export default " ++ String.mk (sliceToLastBracket exportDefaultListModule) ++ " " ++
      entry ++ "]")

/-- Lines 717-721, the effect of the injection step on the manifest text
`result` for the component `file` and the tag `type`: the text that is written,
or `result` itself when nothing is written; `none` where the step throws. -/
def injectionStep (result file type : String) : Option String :=
  if needsEntry result (fileNameWithoutModule file) = true then
    withEntry result (jsxModuleToImport file (fileNameWithoutModule file) type)
  else some result

/-- Body of the loop of `setFrontModuleInTheme`, lines 704-729, for one entry
of the component directory. -/
def injectFile (env : Env) (savePath pathModule currentTheme file : String) : M Unit :=
  if isComponentFile file = false then M.pure ()
  else
    M.bind (readFile (pathResolve env.appRoot [savePath, "info.json"])) fun info =>
    M.bind (parsed (env.parseInfo info)) fun descriptor =>
    M.bind (readFile (pathResolve env.appRoot
      ["themes/" ++ currentTheme ++ "/modules/list_modules.js"])) fun result =>
    M.bind
      (if needsEntry result (fileNameWithoutModule file) = true then
        match withEntry result
            (jsxModuleToImport file (fileNameWithoutModule file) (typeTag descriptor.type)) with
        | none => throwM (raise .TypeError)
        | some replaceListModules =>
          writeFile (pathResolve env.appRoot
            ["themes/" ++ currentTheme ++ "/modules/list_modules.js"]) replaceListModules
      else M.pure ()) fun _ =>
    M.bind (modifyModules (updateFirst (fun m => m.path = savePath) fun m =>
      { m with files := m.files ++ ["themes/" ++ currentTheme ++ "/modules/" ++ file] })) fun _ =>
    copyFile (pathResolve env.appRoot [pathModule ++ file])
      (pathResolve env.appRoot ["./themes/" ++ currentTheme ++ "/modules/" ++ file])

/-- `setFrontModuleInTheme(pathModule, theme)`, lines 686-731. -/
def setFrontModuleInTheme (env : Env) (pathModule theme : String) : M Unit :=
  let savePath := jsReplace pathModule "theme_components" ""
  let withComponents :=
    if (jsIndexOf pathModule "theme_components").isNone then pathModule ++ "theme_components/"
    else pathModule
  let withSlash := if jsEndsWith withComponents "/" then withComponents else withComponents ++ "/"
  M.bind (access (pathResolve env.appRoot [withSlash])) fun present =>
    if present = false then M.pure ()
    else
      M.bind (readdir (pathResolve env.appRoot [withSlash])) fun resultDir =>
      forEachM (injectFile env savePath withSlash (if theme = "" then env.currentTheme else theme))
        resultDir

/-- `removeImport`, lines 789-797: spaces are removed from the entry and from
the matched list, the first occurrence of the entry is deleted and the file is
rewritten. -/
def removeImport (jsxModuleToImport exportDefaultListModule pathListModules : String) : M Unit :=
  writeFile pathListModules
    ("export default " ++
      jsReplace (removeSpaces exportDefaultListModule) (removeSpaces jsxModuleToImport) "")

/-- `removeFromListModule`, lines 799-811; whatever is thrown inside is logged
and dropped. -/
def removeFromListModule (env : Env) (file currentTheme code type : String) : M Unit :=
  logged
    (M.bind (existsSync (pathResolve env.appRoot ["themes", currentTheme, "modules/list_modules.js"]))
      fun present =>
      if present = false then M.pure ()
      else
        M.bind (readFile (pathResolve env.appRoot ["themes", currentTheme, "modules/list_modules.js"]))
          fun result =>
          match firstBracketMatch result.toList with
          | none => throwM (raise .TypeError)
          | some exportDefaultListModule =>
            removeImport (jsxModuleToImport file code type) (String.mk exportDefaultListModule)
              (pathResolve env.appRoot ["themes", currentTheme, "modules/list_modules.js"]))

/-- Body of the loop of `addOrRemoveThemeFiles`, lines 743-760. -/
def addOrRemoveThemeFile (env : Env) (pathThemeComponents : String) (toRemove : Bool)
    (type file : String) : M Unit :=
  if isComponentFile file = false then M.pure ()
  else if toRemove = true then
    M.bind (removeFromListModule env file env.currentTheme (fileNameWithoutModule file) type) fun _ =>
    M.bind (existsSync (pathResolve env.appRoot ["themes", env.currentTheme, "modules", file]))
      fun present =>
      if present = true then
        logged (unlink (pathResolve env.appRoot ["themes", env.currentTheme, "modules", file]))
      else M.pure ()
  else setFrontModuleInTheme env pathThemeComponents env.currentTheme

/-- `addOrRemoveThemeFiles(pathThemeComponents, toRemove, type)`, lines
738-766. -/
def addOrRemoveThemeFiles (env : Env) (pathThemeComponents : String) (toRemove : Bool)
    (type : String) : M Unit :=
  M.bind (existsSync (pathResolve env.appRoot [pathThemeComponents])) fun present =>
    if present = false then M.pure ()
    else
      M.bind (readdir (pathResolve env.appRoot [pathThemeComponents])) fun files =>
      M.bind (forEachM (addOrRemoveThemeFile env pathThemeComponents toRemove type) files) fun _ =>
      if env.production = true then liftExcept (env.buildTheme env.currentTheme) else M.pure ()

/-! ## `activateModule` -/

/-- Dependency list of one scope. -/
def PackageDependencies.scope (pd : PackageDependencies) : Scope → Option (List String)
  | .api => pd.api
  | .theme => pd.theme

/-- Working directory of a package-manager command for a scope. -/
def installPath (env : Env) : Scope → String
  | .api => "./"
  | .theme => pathResolve env.appRoot ["themes", env.currentTheme]

/-- The catch block of `activateModule` and `deactivateModule`: the module list
is attached to the thrown value as `datas.modules`; reading `datas` of
`undefined` is itself a `TypeError`. -/
def attachModules {α : Type} (err : Thrown) : M α := fun w =>
  if err.kind = ErrorKind.undefinedValue then (.error (raise .TypeError), w)
  else (.error { err with datasModules := some w.modules }, w)

/-- Lines 456-470: the back-office application folder of the module is copied,
a failing copy is logged, and the destination is recorded either way. -/
def copyBackoffice (env : Env) (name : String) : M (List String) :=
  M.bind (access (pathResolve env.appRoot ["modules/" ++ name ++ "/app/"])) fun present =>
    if present = true then
      M.bind (logged (copyRecursive (pathResolve env.appRoot ["modules/" ++ name ++ "/app/"])
        (pathResolve env.appRoot ["backoffice/app/" ++ name]))) fun _ =>
      M.pure [pathResolve env.appRoot ["backoffice/app/" ++ name]]
    else M.pure []

/-- Lines 472-488. -/
def copyTranslationBack (env : Env) (myModule : Module) : M (List String) :=
  if myModule.loadTranslationBack = true then
    M.bind (existsSync (pathResolve env.appRoot ["modules", myModule.name, "translations/back"]))
      fun present =>
      if present = true then
        M.bind (logged (copyRecursive
          (pathResolve env.appRoot ["modules", myModule.name, "translations/back"])
          (pathResolve env.appRoot ["backoffice/assets/translations/modules", myModule.name])))
          fun _ =>
        M.pure [pathResolve env.appRoot ["backoffice/assets/translations/modules", myModule.name]]
      else M.pure []
  else M.pure []

/-- Body of the loop of lines 494-505 for one language folder. -/
def copyTranslationFrontFile (env : Env) (name file : String) : M (List String) :=
  M.bind (existsSync (pathResolve env.appRoot ["modules", name, "translations/front", file]))
    fun present =>
    if present = true then
      M.bind (logged (copyRecursive
        (pathResolve env.appRoot ["modules", name, "translations/front", file])
        (pathResolve env.appRoot ["themes", env.currentTheme, "assets/i18n", file, "modules", name])))
        fun _ =>
      M.pure [pathResolve env.appRoot ["themes", env.currentTheme, "assets/i18n", file, "modules", name]]
    else M.pure []

/-- Lines 490-506. -/
def copyTranslationFront (env : Env) (myModule : Module) : M (List String) :=
  if myModule.loadTranslationFront = true then
    M.bind (readdir (pathResolve env.appRoot ["themes/" ++ env.currentTheme ++ "/assets/i18n/"]))
      fun files => collectM (copyTranslationFrontFile env myModule.name) files
  else M.pure []

/-- Body of the loop of lines 511-525 for one scope. -/
def installScope (env : Env) (pd : PackageDependencies) (toBeChanged : Scoped PlanValue)
    (scope : Scope) : M Unit :=
  match pd.scope scope with
  | none => M.pure ()
  | some dependencies =>
    if (env.cleanAndToBeChanged dependencies (toBeChanged.scope scope)).length > 0 then
      execCmd env
        ("yarn add " ++ joinWith " " (env.cleanAndToBeChanged dependencies (toBeChanged.scope scope)))
        (installPath env scope)
    else M.pure ()

/-- Lines 510-526. -/
def installDependencies (env : Env) (myModule : Module) (toBeChanged : Scoped PlanValue) :
    M Unit :=
  match myModule.packageDependencies with
  | none => M.pure ()
  | some pd => forEachM (installScope env pd toBeChanged) [Scope.api, Scope.theme]

/-- Lines 456-536 of `activateModule`, for the record that was found: asset
copies, package installation, theme injection, then the registry update
`{$push: {files: copyTab}, active: true}` and the module list. -/
def activateFound (env : Env) (myModule : Module) (toBeChanged : Scoped PlanValue) :
    M (List Module) :=
  M.bind (copyBackoffice env myModule.name) fun copied =>
  M.bind (copyTranslationBack env myModule) fun back =>
  M.bind (copyTranslationFront env myModule) fun front =>
  M.bind (installDependencies env myModule toBeChanged) fun _ =>
  M.bind (addOrRemoveThemeFiles env
    (pathResolve env.appRoot ["modules", myModule.name, "theme_components"]) false
    (typeTag myModule.type)) fun _ =>
  M.bind (modifyModules (updateFirst (fun m => m._id = myModule._id) fun m =>
    { m with files := m.files ++ (copied ++ back ++ front), active := true })) fun _ =>
  findAllM

/-- `activateModule(idModule, toBeChanged)`, lines 451-542.  The scopes of
`toBeChanged` are visited in the order `api`, `theme`. -/
def activateModule (env : Env) (idModule : Nat) (toBeChanged : Scoped PlanValue) :
    M (List Module) :=
  tryCatchM
    (M.bind (findByIdM idModule) fun found =>
      M.bind (fun w => (env.checkModuleDepencendiesAtInstallation w.modules found, w)) fun _ =>
      match found with
      | none => throwM (raise .TypeError)
      | some myModule => activateFound env myModule toBeChanged)
    attachModules

/-! ## `deactivateModule` -/

/-- `removeModuleAddon(_module)`, lines 817-848: the `uninit` hook runs when its
file exists; a rejection other than `MODULE_NOT_FOUND` is thrown again (reading
`code` of `undefined` is a `TypeError`).  The deletions of scheduled jobs and
mail types act on other collections and only log their failures. -/
def removeModuleAddon (env : Env) (_module : Module) : M Unit :=
  M.bind (existsSync (pathResolve env.appRoot [_module.path, "uninit.js"])) fun present =>
    if present = true then
      match env.uninit (pathResolve env.appRoot [_module.path, "uninit.js"]) with
      | .resolved => M.pure ()
      | .moduleNotFound => M.pure ()
      | .rejected e =>
        if e.kind = ErrorKind.undefinedValue then throwM (raise .TypeError) else throwM e
    else M.pure ()

/-- Body of the loop of lines 570-584 for one recorded path. -/
def removeCopiedFile (env : Env) (file : String) : M Unit :=
  M.bind (access (pathResolve env.appRoot [file])) fun present =>
    if present = true then
      M.bind (lstatIsDirectory (pathResolve env.appRoot [file])) fun directory =>
        if directory = true then logged (deleteRecursive (pathResolve env.appRoot [file]))
        else logged (unlink (pathResolve env.appRoot [file]))
    else M.pure ()

/-- Lines 591-599: the package names of the values of `toBeRemoved[scope]`;
`split` on a value that is not a string is a `TypeError`. -/
def namesToRemove : List (String × PlanValue) → Except Thrown (List String)
  | [] => .ok []
  | (_, PlanValue.str packageName) :: rest =>
    match namesToRemove rest with
    | .ok names => .ok (dependencyName packageName :: names)
    | .error e => .error e
  | (_, PlanValue.list _) :: _ => .error (raise .TypeError)

/-- How `join` prints a value of `toBeChanged[scope]`. -/
def PlanValue.text : PlanValue → String
  | .str s => s
  | .list l => joinWith "," l

/-- Body of the loop of lines 590-625 for one scope. -/
def adjustScope (env : Env) (toBeChanged toBeRemoved : Scoped PlanValue) (scope : Scope) :
    M Unit :=
  M.bind (liftExcept (namesToRemove (toBeRemoved.scope scope))) fun allModulesToRemove =>
  M.bind (if allModulesToRemove.length > 0 then
      execCmd env ("yarn remove " ++ joinWith " " allModulesToRemove) (installPath env scope)
    else M.pure ()) fun _ =>
  if ((toBeChanged.scope scope).map fun e => e.2.text).length > 0 then
    execCmd env ("yarn add " ++ joinWith " " ((toBeChanged.scope scope).map fun e => e.2.text))
      (installPath env scope)
  else M.pure ()

/-- Lines 557-628 of `deactivateModule`, for the record that was found: the
dependency check, the `uninit` hook, the removal of the theme components
(failures logged), the removal of the recorded files, the registry update
`{files: [], active: false}`, then the package-manager commands and the module
list. -/
def deactivateFound (env : Env) (idModule : Nat) (_module : Module)
    (toBeChanged toBeRemoved : Scoped PlanValue) : M (List Module) :=
  M.bind (fun w => (env.checkModuleDepencendiesAtUninstallation w.modules _module, w)) fun _ =>
  M.bind (removeModuleAddon env _module) fun _ =>
  M.bind (logged (addOrRemoveThemeFiles env
    (pathResolve env.appRoot [_module.path, "theme_components"]) true
    (typeTag _module.type))) fun _ =>
  M.bind (forEachM (removeCopiedFile env) _module.files) fun _ =>
  M.bind (modifyModules (updateFirst (fun m => m._id = idModule) fun m =>
    { m with files := [], active := false })) fun _ =>
  M.bind (forEachM (adjustScope env toBeChanged toBeRemoved) [Scope.api, Scope.theme]) fun _ =>
  findAllM

/-- `deactivateModule(idModule, toBeChanged, toBeRemoved)`, lines 551-634.  The
scopes of `toBeRemoved` are visited in the order `api`, `theme`. -/
def deactivateModule (env : Env) (idModule : Nat) (toBeChanged toBeRemoved : Scoped PlanValue) :
    M (List Module) :=
  tryCatchM
    (M.bind (findByIdM idModule) fun found =>
      match found with
      | none => throwM (raise .ModuleNotFound)
      | some _module => deactivateFound env idModule _module toBeChanged toBeRemoved)
    attachModules

/-! ## Sample data -/

/-- A record with the given identifier, name, `active` flag and dependencies,
stored under `modules/<name>/`. -/
def sampleModule (identifier : Nat) (name : String) (active : Bool)
    (pd : Option PackageDependencies) : Module :=
  { _id := identifier
    name := name
    description := none
    version := none
    path := "modules/" ++ name ++ "/"
    url := none
    cronNames := []
    mailTypeCode := []
    loadApp := false
    loadTranslationBack := false
    loadTranslationFront := false
    packageDependencies := pd
    moduleDependencies := []
    component_template_front := none
    files := []
    type := none
    versionAquila := none
    active := active }

/-- A planner environment whose `compareDependencies` returns `req`, with the
given `api` snapshot and host manifest and nothing on the theme side. -/
def samplePlanner (req : RequirementMap) (installedApi : List (String × String))
    (pinnedApi : List String) : PlannerEnv :=
  { cleanPackageVersion := fun l => l
    compareDependencies := fun _ _ => req
    installedApi := .ok installedApi
    aquilaDependencies := .ok pinnedApi
    installedTheme := .ok []
    themeDependencies := .ok [] }

/-- Module `a` (inactive, the candidate) requiring `range` and module `b`
(active) requiring `lodash@^4.0.0`. -/
def lodashModules (range : String) : List Module :=
  [sampleModule 1 "a" false (some ⟨some [range], none⟩),
   sampleModule 2 "b" true (some ⟨some ["lodash@^4.0.0"], some []⟩)]

/-- A descriptor that declares `name` and nothing else. -/
def sampleInfo (name : Option String) : Info :=
  { name := name
    description := none
    version := none
    url := none
    cronNames := []
    mailTypeCode := []
    loadApp := false
    loadTranslationBack := false
    loadTranslationFront := false
    packageDependencies := none
    moduleDependencies := []
    component_template_front := none
    files := none
    type := none
    versionAquila := none
    aquilaVersion := none }

/-- A host rooted at `/app` in which the text of a descriptor is the name it
declares, every version is accepted, every package-manager command succeeds
and every collaborator answers normally. -/
def sampleEnv : Env :=
  { appRoot := "/app"
    currentTheme := "default_theme"
    production := false
    parseInfo := fun text => some (sampleInfo (some text))
    parseHostVersion := fun text => some text
    satisfies := fun _ _ => true
    commandResult := fun _ _ => .ok ()
    checkModuleDepencendiesAtInstallation := fun _ _ => .ok ()
    checkModuleDepencendiesAtUninstallation := fun _ _ => .ok ()
    cleanAndToBeChanged := fun dependencies _ => dependencies
    uninit := fun _ => .resolved
    buildTheme := fun _ => .ok () }

/-- The same host with a package manager whose every command fails. -/
def failingCommandsEnv : Env :=
  { sampleEnv with commandResult := fun _ _ => .error (raise (.external "yarn")) }

/-- The record of module `foo` (record 1), requiring `lodash@^4.0.0`, with the
given `active` flag and recorded files. -/
def installedRecord (active : Bool) (files : List String) : Module :=
  { sampleModule 1 "foo" active (some ⟨some ["lodash@^4.0.0"], none⟩) with files := files }

/-- A host on which module `foo` is installed from `foo.zip`, with the given
`active` flag and recorded files. -/
def installedWorld (active : Bool) (files : List String) : World :=
  { modules := [installedRecord active files]
    files := [("/app/modules/foo.zip", FileData.archive [⟨"foo/info.json", "foo"⟩]),
              ("/app/modules/foo/info.json", FileData.text "foo"),
              ("/app/backoffice/app/foo/index.js", FileData.text "")]
    locked := []
    commands := [] }

/-- A host with an upload waiting at `uploads/tmp`, holding `entries`, beside
the installed module `foo`. -/
def uploadWorld (entries : List ZipEntry) : World :=
  { installedWorld true [] with
    files := (installedWorld true []).files ++ [("/app/uploads/tmp", FileData.archive entries)] }

/-! ## Deactivation planning (`checkDependenciesAtUninstallation`) -/

/-- What the deactivation planner reads from outside the service.  The planner
reads what `compareDependencies(myModule, modulesActivated, false)` returns as
one object from package name to an array of `name@range` strings
(`Object.entries(result)`, `[...value2, value]`, `iterator[1].length`).  The
listing of line 395 is `Object.entries` of what `npm list --json` answered,
each value printed through `value.version`; the listing of line 406 is the
`dependencies` of the theme's answer. -/
structure UninstallEnv where
  cleanPackageVersion : List String → List String
  compareDependencies : Module → List Module → List (String × List String)
  aquilaDependencies : Except Thrown (List String)
  themeDependencies : Except Thrown (List String)
  installedApi : Except Thrown (List (String × String))
  installedTheme : Except Thrown (List (String × String))

/-- Result of `checkDependenciesAtUninstallation`.  An element of a list of
`toBeChanged` is a string, or `none` where line 423 pushed a value that is not
a string: `undefined` for a missing value, or the member of `Object.prototype`
read under an inherited name. -/
structure UninstallationPlan where
  toBeRemoved : Scoped (List String)
  toBeChanged : Scoped (List (Option String))
  needUpgrade : Bool
  alreadyInstalled : Scoped String
  deriving DecidableEq, Repr

/-- Lines 329-336: each other active module has the lists it declares cleaned;
reading `api` of a missing `packageDependencies` is a `TypeError`. -/
def cleanActivatedAtUninstallation (clean : List String → List String) :
    List Module → Except Thrown (List Module)
  | [] => .ok []
  | elem :: rest =>
    match elem.packageDependencies with
    | none => .error (raise .TypeError)
    | some pd =>
      match cleanActivatedAtUninstallation clean rest with
      | .error e => .error e
      | .ok r =>
        .ok ({ elem with
          packageDependencies := some { api := pd.api.map clean, theme := pd.theme.map clean } } :: r)

/-- `[...new Set(values)]`: the values in order of first occurrence. -/
def uniqueValues (values : List String) : List String := values.foldl setAdd []

/-- Lines 353-358 and 369-374, the loop over `Object.entries(result)` for one
pinned `value`: the entry named like the pinned package is stored in
`toBeChanged[scope]` with `value` behind its requirements. -/
def pinValue (value : String) :
    List (String × List String) → List (String × List (Option String)) →
      List (String × List (Option String))
  | [], changed => changed
  | (index, value2) :: rest, changed =>
    if index = dependencyName value then
      pinValue value rest (objSet changed index ((uniqueValues (value2 ++ [value])).map some))
    else pinValue value rest changed

/-- Lines 347-359 and 363-375, the loop over the pinned manifest;
`Object.entries(result)` of an unassigned `result` is a `TypeError`. -/
def pinManifest (result : Option (List (String × List String))) :
    List String → List (String × List (Option String)) →
      Except Thrown (List (String × List (Option String)))
  | [], changed => .ok changed
  | value :: rest, changed =>
    match result with
    | none => .error (raise .TypeError)
    | some entries => pinManifest result rest (pinValue value entries changed)

/-- Lines 345-360 and 361-376: both manifest blocks run under the test
`myModule.packageDependencies.api`. -/
def pinScope (declaredApi : Option (List String)) (pinned : Except Thrown (List String))
    (result : Option (List (String × List String))) :
    Except Thrown (List (String × List (Option String))) :=
  match declaredApi with
  | none => .ok []
  | some _ =>
    match pinned with
    | .error e => .error e
    | .ok dependencies => pinManifest result dependencies []

/-- Lines 378-387 for one scope: an entry for which
`toBeChanged[scope][name]` is falsy goes to `toBeChanged[scope]` when its list
has more than one string and to `toBeRemoved[scope]` when it has exactly one.
`toBeChanged[scope]` is an object literal, so the value read is truthy for an
own key and for a name inherited from `Object.prototype`. -/
def sortEntries :
    List (String × List String) →
      List (String × List (Option String)) × List (String × List String) →
      List (String × List (Option String)) × List (String × List String)
  | [], acc => acc
  | (name, values) :: rest, (changed, removed) =>
    if isTruthyAt changed name = false ∧ values.length > 1 then
      sortEntries rest (objSet changed name (values.map some), removed)
    else if isTruthyAt changed name = false ∧ values.length = 1 then
      sortEntries rest (changed, objSet removed name values)
    else sortEntries rest (changed, removed)

/-- Lines 396-402 and 407-413: every listed package that is a key of `result`
is recorded as `name@version`. -/
def recordInstalled (keys : List String) :
    List (String × String) → List (String × String) → List (String × String)
  | [], already => already
  | (index, value) :: rest, already =>
    if index ∈ keys then recordInstalled keys rest (objSet already index (index ++ "@" ++ value))
    else recordInstalled keys rest already

/-- Lines 394-403 and 405-414: the listing of a scope is read only when the
module declares that scope. -/
def installedScope (declared : Option (List String))
    (installed : Except Thrown (List (String × String))) (keys : List String) :
    Except Thrown (List (String × String)) :=
  match declared with
  | none => .ok []
  | some _ =>
    match installed with
    | .error e => .error e
    | .ok installedDependencies => .ok (recordInstalled keys installedDependencies [])

/-- Lines 416-425 for one scope.  The test `alreadyInstalled[iterator]` reads
the object literal that has the two keys `api` and `theme`, so it holds for a
package of one of these two names and for a name inherited from
`Object.prototype`.  `alreadyInstalled[scope][iterator]` is the recorded
string, or `undefined` for a package that is not recorded, or the inherited
member (no element of the list) for an inherited name that is not recorded;
`splice(pos, 1)` deletes the first occurrence. -/
def reconcileScope (already : List (String × String))
    (changed : List (String × List (Option String))) : List (String × List (Option String)) :=
  changed.map fun e =>
    if (e.1 = "api" ∨ e.1 = "theme" ∨ e.1 ∈ objectPrototypeNames) ∧ e.2.length = 2 then
      if objGet already e.1 = none ∧ e.1 ∈ objectPrototypeNames then (e.1, e.2 ++ [none])
      else
        (e.1, if objGet already e.1 ∈ e.2 then e.2.erase (objGet already e.1)
          else e.2 ++ [objGet already e.1])
    else e

/-- Lines 345-436, from the value of `result`. -/
def planUninstallation (env : UninstallEnv) (pd : PackageDependencies)
    (result : Option (List (String × List String))) : Except Thrown UninstallationPlan :=
  match pinScope pd.api env.aquilaDependencies result with
  | .error e => .error e
  | .ok pinnedApi =>
    match pinScope pd.api env.themeDependencies result with
    | .error e => .error e
    | .ok pinnedTheme =>
      match result with
      | none => .error (raise .TypeError)
      | some entries =>
        match installedScope pd.api env.installedApi (objKeys entries) with
        | .error e => .error e
        | .ok alreadyApi =>
          match installedScope pd.theme env.installedTheme (objKeys entries) with
          | .error e => .error e
          | .ok alreadyTheme =>
            .ok
              { toBeRemoved := ⟨(sortEntries entries (pinnedApi, [])).2,
                  (sortEntries entries (pinnedTheme, [])).2⟩
                toBeChanged :=
                  ⟨reconcileScope alreadyApi (sortEntries entries (pinnedApi, [])).1,
                    reconcileScope alreadyTheme (sortEntries entries (pinnedTheme, [])).1⟩
                needUpgrade :=
                  (reconcileScope alreadyApi (sortEntries entries (pinnedApi, [])).1).any
                      (fun e => decide (e.2.length > 1)) ||
                    (reconcileScope alreadyTheme (sortEntries entries (pinnedTheme, [])).1).any
                      (fun e => decide (e.2.length > 1))
                alreadyInstalled := ⟨alreadyApi, alreadyTheme⟩ }

/-- The plan returned when the module declares no dependencies (the guard of
line 321 is false). -/
def emptyUninstallationPlan : UninstallationPlan :=
  { toBeRemoved := ⟨[], []⟩, toBeChanged := ⟨[], []⟩, needUpgrade := false,
    alreadyInstalled := ⟨[], []⟩ }

/-- Whether a cleaned list is present and not empty (line 339-340). -/
def declaresSome (l : Option (List String)) : Bool :=
  match l with
  | none => false
  | some values => decide (values.length > 0)

/-- `checkDependenciesAtUninstallation(idModule)` over the registry `modules`,
lines 306-444.  `result` is assigned only when one of the cleaned lists of the
module is not empty. -/
def checkDependenciesAtUninstallation (env : UninstallEnv) (modules : List Module)
    (idModule : Nat) : Except Thrown UninstallationPlan :=
  match findById modules idModule with
  | none => .error (raise .TypeError)
  | some myModule =>
    match myModule.packageDependencies with
    | none => .ok emptyUninstallationPlan
    | some pd =>
      if pd.api.isSome ∨ pd.theme.isSome then
        match cleanActivatedAtUninstallation env.cleanPackageVersion
            (findOtherActive modules idModule) with
        | .error e => .error e
        | .ok modulesActivated =>
          planUninstallation env
            { api := pd.api.map env.cleanPackageVersion, theme := pd.theme.map env.cleanPackageVersion }
            (if declaresSome (pd.api.map env.cleanPackageVersion) = true ∨
                declaresSome (pd.theme.map env.cleanPackageVersion) = true then
              some (env.compareDependencies (cleanCandidate env.cleanPackageVersion myModule pd)
                modulesActivated)
            else none)
      else .ok emptyUninstallationPlan

/-- A deactivation planner whose `compareDependencies` returns `result`, with
the given host and theme manifests and nothing installed. -/
def sampleUninstall (result : List (String × List String)) (pinnedApi pinnedTheme : List String) :
    UninstallEnv :=
  { cleanPackageVersion := fun l => l
    compareDependencies := fun _ _ => result
    aquilaDependencies := .ok pinnedApi
    themeDependencies := .ok pinnedTheme
    installedApi := .ok []
    installedTheme := .ok [] }

/-- A deactivation planner whose `compareDependencies` returns `result`, with
the given listing of the packages installed in the host, empty manifests and
nothing installed in the theme. -/
def sampleUninstallInstalled (result : List (String × List String))
    (installedApi : List (String × String)) : UninstallEnv :=
  { cleanPackageVersion := fun l => l
    compareDependencies := fun _ _ => result
    aquilaDependencies := .ok []
    themeDependencies := .ok []
    installedApi := .ok installedApi
    installedTheme := .ok [] }

/-- A host whose theme manifest holds `manifest`. -/
def manifestWorld (manifest : String) : World :=
  { modules := []
    files := [("/app/themes/default_theme/modules/list_modules.js", FileData.text manifest)]
    locked := []
    commands := [] }

/-! ## Component templates -/

/-- An element of the collection `mongoose.model(model)`: its identifier, its
`component_template` and its other fields. -/
structure TemplateElement where
  _id : Nat
  component_template : Option String
  fields : List (String × String)
  deriving DecidableEq, Repr

/-- `elem.component_template || ''`. -/
def templateText (component_template : Option String) : String :=
  component_template.getD ""

/-- Body of the loop of `initComponentTemplate`, lines 853-860: the component
is put behind the template of an element that has no template, an empty one,
or one that does not include the component. -/
def initElement (component : String) (elem : TemplateElement) : TemplateElement :=
  if templateText elem.component_template = "" ∨
      (jsIndexOf (templateText elem.component_template) component).isNone = true then
    { elem with component_template := some (templateText elem.component_template ++ component) }
  else elem

/-- `initComponentTemplate(model, component, moduleName)`, lines 850-863, on
the elements of the collection. -/
def initComponentTemplate (elements : List TemplateElement) (component : String) :
    List TemplateElement :=
  elements.map (initElement component)

/-- Body of the loop of `uninitComponentTemplate`, lines 867-873: the first
occurrence of the component is deleted from the template and the field named
`field` is unset. -/
def uninitElement (component field : String) (elem : TemplateElement) : TemplateElement :=
  { elem with
    component_template := some (jsReplace (templateText elem.component_template) component "")
    fields := elem.fields.filter fun e => e.1 ≠ field }

/-- `uninitComponentTemplate(model, component, moduleName, field)`, lines
865-876, on the elements of the collection.  An update that unsets and sets the
one path `component_template` is refused by the database. -/
def uninitComponentTemplate (elements : List TemplateElement) (component field : String) :
    Except Thrown (List TemplateElement) :=
  if field = "component_template" ∧ elements ≠ [] then .error (raise (.external "registry"))
  else .ok (elements.map (uninitElement component field))

/-- A host on which module `foo` (record 1, inactive, no recorded file) has a
back-office folder `modules/foo/app/`, with the given write-protected paths. -/
def appWorld (locked : List String) : World :=
  { modules := [installedRecord false []]
    files := [("/app/modules/foo/app/index.js", FileData.text "")]
    locked := locked
    commands := [] }

/-! ## Predicates used in the proofs of the lifecycle operations -/

/-- The identifier and `active` flag of every record, in registry order. -/
def flags (w : World) : List (Nat × Bool) := w.modules.map fun m => (m._id, m.active)

/-- The operation leaves the observation `proj` of the state unchanged, whether
it returns or throws. -/
def Keeps {α β : Type} (proj : World → β) (f : M α) : Prop :=
  ∀ w, proj (f w).2 = proj w

/-- An observation of the state that does not see the file system. -/
def FilesBlind {β : Type} (proj : World → β) : Prop :=
  ∀ (w : World) (files : List (String × FileData)), proj { w with files := files } = proj w

/-- An observation of the state that does not see the `files` list of a
record. -/
def PushBlind {β : Type} (proj : World → β) : Prop :=
  ∀ (w : World) (p : Module → Bool) (extra : List String),
    proj { w with
      modules := updateFirst p (fun m => { m with files := m.files ++ extra }) w.modules } = proj w

/-- An observation of the state that does not see the command log. -/
def CommandsBlind {β : Type} (proj : World → β) : Prop :=
  ∀ (w : World) (commands : List (String × String)), proj { w with commands := commands } = proj w

/-- From a state that satisfies `P`, the operation either returns `a` in a
state that satisfies `Q a` or throws `e` in a state that satisfies `E e`. -/
def Triple {α : Type} (P : World → Prop) (f : M α) (Q : α → World → Prop)
    (E : Thrown → World → Prop) : Prop :=
  ∀ w, P w →
    match f w with
    | (.ok a, w') => Q a w'
    | (.error e, w') => E e w'

/-- What the path `key` names is still there after the operation, whether it
returns or throws. -/
def KeepsPath {α : Type} (key : String) (f : M α) : Prop :=
  ∀ w, pathExists w.files key = true → pathExists (f w).2.files key = true

/-! ## Predicates used in the proofs -/

/-- Every key keeps its value up to new members: what is stored under a key of
`obj` is contained in what `obj'` stores under it. -/
def Grows (obj obj' : List (String × List String)) : Prop :=
  ∀ name values, objGet obj name = some values →
    ∃ v, objGet obj' name = some v ∧ values ⊆ v

/-- The registry `after` is the registry `before` with the record `written`
upserted under its name: the first record of that name is replaced, keeping
its identifier and its `active` flag, or, when there is none, the record is
appended with `active = false`. -/
def Upserted (before after : List Module) (written : Module) : Prop :=
  (∃ existing, findByName before written.name = some existing ∧
      written.active = existing.active ∧ written._id = existing._id ∧
      after = updateFirst (fun m => m.name = written.name) (fun _ => written) before) ∨
  (findByName before written.name = none ∧ written.active = false ∧
      after = before ++ [written])

/-! # Theorems

## Activation planning -/


theorem addToKey_nil (k x : String) : addToKey [] k x = [] := rfl

theorem addToKey_cons (n : String) (v : List String) (rest : List (String × List String))
    (k x : String) :
    addToKey ((n, v) :: rest) k x = (n, if n = k then setAdd v x else v) :: addToKey rest k x := by
  unfold addToKey
  by_cases h : n = k <;> simp [h]

theorem objGet_nil {α : Type} (k : String) : objGet ([] : List (String × α)) k = none := rfl

theorem objGet_cons {α : Type} (n : String) (v : α) (rest : List (String × α)) (k : String) :
    objGet ((n, v) :: rest) k = if n = k then some v else objGet rest k := rfl

theorem objGet_addToKey (obj : List (String × List String)) (k x name : String) :
    objGet (addToKey obj k x) name =
      (objGet obj name).map fun s => if name = k then setAdd s x else s := by
  induction obj with
  | nil => simp [addToKey_nil, objGet_nil]
  | cons e rest ih =>
    obtain ⟨n, v⟩ := e
    rw [addToKey_cons, objGet_cons, objGet_cons, ih]
    by_cases hn : n = name
    · subst hn; simp
    · simp [hn]

theorem subset_setAdd (s : List String) (x : String) : s ⊆ setAdd s x := by
  unfold setAdd
  split
  · exact fun _ h => h
  · exact fun _ h => List.mem_append_left _ h

theorem Grows.refl (obj : List (String × List String)) : Grows obj obj :=
  fun _ values h => ⟨values, h, fun _ hx => hx⟩

theorem Grows.trans {a b c : List (String × List String)} (h₁ : Grows a b) (h₂ : Grows b c) :
    Grows a c := by
  intro name values h
  obtain ⟨v, hv, hsub⟩ := h₁ name values h
  obtain ⟨v', hv', hsub'⟩ := h₂ name v hv
  exact ⟨v', hv', fun x hx => hsub' (hsub hx)⟩

theorem grows_addToKey (obj : List (String × List String)) (k x : String) :
    Grows obj (addToKey obj k x) := by
  intro name values h
  rw [objGet_addToKey, h]
  by_cases hk : name = k
  · exact ⟨setAdd values x, by simp [hk], subset_setAdd values x⟩
  · exact ⟨values, by simp [hk], fun _ hx => hx⟩

theorem grows_mergeInstalled (installed : List (String × String)) :
    ∀ (already : List (String × String)) (changed : List (String × List String)),
      Grows changed (mergeInstalled installed already changed).2 := by
  induction installed with
  | nil => intro already changed; exact Grows.refl changed
  | cons e rest ih =>
    intro already changed
    obtain ⟨index, value⟩ := e
    unfold mergeInstalled
    split
    · exact Grows.trans (grows_addToKey changed index _) (ih _ _)
    · exact ih _ _

theorem grows_mergeManifest (pinned : List String) :
    ∀ changed : List (String × List String), Grows changed (mergeManifest pinned changed) := by
  induction pinned with
  | nil => intro changed; exact Grows.refl changed
  | cons v rest ih =>
    intro changed
    unfold mergeManifest
    exact Grows.trans (grows_addToKey changed _ v) (ih _)

theorem grows_mergeScope {declared : Option (List String)}
    {installed : Except Thrown (List (String × String))} {pinned : Except Thrown (List String)}
    {required : List (String × List String)}
    {r : List (String × String) × List (String × List String)}
    (h : mergeScope declared installed pinned required = .ok r) : Grows required r.2 := by
  unfold mergeScope at h
  split at h
  · cases h; exact Grows.refl required
  · split at h
    · cases h
    · split at h
      · cases h
      · cases h
        exact Grows.trans (grows_mergeInstalled _ _ _) (grows_mergeManifest _ _)

theorem objGet_map_set (obj : List (String × List String)) (name : String) :
    objGet (obj.map fun e => (e.1, DepValue.set e.2)) name = (objGet obj name).map DepValue.set := by
  induction obj with
  | nil => rfl
  | cons e rest ih =>
    obtain ⟨n, v⟩ := e
    simp only [List.map_cons, objGet_cons, ih]
    split <;> rfl

theorem objGet_normalizeScope (already : List (String × String))
    (obj : List (String × List String)) (name : String) (values : List String)
    (h : objGet obj name = some values) :
    ∃ v, objGet (normalizeScope already obj).1 name = some v ∧ v.elems = values := by
  induction obj with
  | nil => simp [objGet_nil] at h
  | cons e rest ih =>
    obtain ⟨n, v⟩ := e
    rw [objGet_cons] at h
    unfold normalizeScope
    split
    · simp only [objGet_cons]
      split
      · next hn => rw [if_pos hn] at h; cases h; exact ⟨_, rfl, rfl⟩
      · next hn =>
        rw [if_neg hn] at h
        rw [objGet_map_set, h]
        exact ⟨_, rfl, rfl⟩
    · simp only [objGet_cons]
      split
      · next hn => rw [if_pos hn] at h; cases h; exact ⟨_, rfl, rfl⟩
      · next hn => rw [if_neg hn] at h; exact ih h

theorem mem_of_objGet {α : Type} (obj : List (String × α)) (name : String) (v : α)
    (h : objGet obj name = some v) : (name, v) ∈ obj := by
  induction obj with
  | nil => simp [objGet_nil] at h
  | cons e rest ih =>
    obtain ⟨n, w⟩ := e
    rw [objGet_cons] at h
    split at h
    · next hn => cases h; subst hn; exact List.mem_cons_self _ _
    · exact List.mem_cons_of_mem _ (ih h)

theorem normalizeScope_flag_of_long (already : List (String × String))
    (obj : List (String × List String)) (name : String) (values : List String)
    (hmem : (name, values) ∈ obj) (hlen : values.length > 1) :
    (normalizeScope already obj).2 = true := by
  induction obj with
  | nil => simp at hmem
  | cons e rest ih =>
    obtain ⟨n, v⟩ := e
    unfold normalizeScope
    split
    · rfl
    · next hcond =>
      rcases List.mem_cons.mp hmem with heq | hrest
      · cases heq; exact absurd (Or.inr hlen) hcond
      · exact ih hrest

theorem length_gt_one_of_two_distinct (values : List String) (a b : String)
    (ha : a ∈ values) (hb : b ∈ values) (hab : a ≠ b) : values.length > 1 := by
  match values, ha, hb with
  | [], ha, _ => simp at ha
  | [x], ha, hb =>
    simp at ha hb
    exact absurd (ha.trans hb.symm) hab
  | _ :: _ :: _, _, _ => simp

/-- The plan `normalizePlan` builds keeps, under every key, the strings the
merged requirement object holds. -/
theorem objGet_normalizePlan (already : Scoped String)
    (changedApi changedTheme : List (String × List String)) (scope : Scope) (name : String)
    (values : List String)
    (h : objGet (match scope with | .api => changedApi | .theme => changedTheme) name = some values) :
    ∃ v, objGet ((normalizePlan already changedApi changedTheme).toBeChanged.scope scope) name = some v ∧
      v.elems = values := by
  by_cases hapi : (normalizeScope already.api changedApi).2 = true
  · cases scope with
    | api =>
      simp only [normalizePlan, hapi, if_true, Scoped.scope]
      exact objGet_normalizeScope already.api changedApi name values h
    | theme =>
      simp only [normalizePlan, hapi, if_true, Scoped.scope]
      simp only at h
      rw [objGet_map_set, h]
      exact ⟨_, rfl, rfl⟩
  · cases scope with
    | api =>
      simp only [normalizePlan, hapi, if_false, Scoped.scope]
      exact objGet_normalizeScope already.api changedApi name values h
    | theme =>
      simp only [normalizePlan, hapi, if_false, Scoped.scope]
      exact objGet_normalizeScope already.theme changedTheme name values h

theorem needUpgrade_normalizePlan_of_long (already : Scoped String)
    (changedApi changedTheme : List (String × List String)) (scope : Scope) (name : String)
    (values : List String)
    (h : (name, values) ∈ (match scope with | .api => changedApi | .theme => changedTheme))
    (hlen : values.length > 1) :
    (normalizePlan already changedApi changedTheme).needUpgrade = true := by
  unfold normalizePlan
  by_cases hapi : (normalizeScope already.api changedApi).2 = true
  · simp [hapi]
  · simp only [hapi]
    cases scope with
    | api => exact absurd (normalizeScope_flag_of_long _ _ name values h hlen) hapi
    | theme => exact normalizeScope_flag_of_long _ _ name values h hlen

/-- Past the guard of line 215 and the cleaning loops, the planner is
`planInstallation` on the map `compareDependencies` returns. -/
theorem checkDependenciesAtInstallation_eq_plan (env : PlannerEnv) (modules : List Module)
    (idModule : Nat) (myModule : Module) (pd : PackageDependencies) (modulesActivated : List Module)
    (hfind : findById modules idModule = some myModule)
    (hpd : myModule.packageDependencies = some pd)
    (hdecl : pd.api.isSome = true ∨ pd.theme.isSome = true)
    (hclean : cleanActivated env.cleanPackageVersion (findOtherActive modules idModule) =
      .ok modulesActivated) :
    checkDependenciesAtInstallation env modules idModule =
      planInstallation env
        { api := pd.api.map env.cleanPackageVersion, theme := pd.theme.map env.cleanPackageVersion }
        (env.compareDependencies (cleanCandidate env.cleanPackageVersion myModule pd)
          modulesActivated) := by
  unfold checkDependenciesAtInstallation
  simp only [hfind, hpd, hclean, if_pos hdecl]

/-- With both probes answered, the merge of a scope returns. -/
theorem mergeScope_ok (declared : Option (List String)) (installed : List (String × String))
    (pinned : List String) (required : List (String × List String)) :
    ∃ r, mergeScope declared (.ok installed) (.ok pinned) required = .ok r := by
  unfold mergeScope
  cases declared <;> exact ⟨_, rfl⟩

/-- With the four probes answered, the planner returns the normalised plan of
the two merged scopes. -/
theorem planInstallation_ok (env : PlannerEnv) (pd : PackageDependencies) (req : RequirementMap)
    (installedApi installedTheme : List (String × String)) (pinnedApi pinnedTheme : List String)
    (h₁ : env.installedApi = .ok installedApi) (h₂ : env.aquilaDependencies = .ok pinnedApi)
    (h₃ : env.installedTheme = .ok installedTheme) (h₄ : env.themeDependencies = .ok pinnedTheme) :
    ∃ api theme,
      mergeScope pd.api (.ok installedApi) (.ok pinnedApi) req.api = .ok api ∧
      mergeScope pd.theme (.ok installedTheme) (.ok pinnedTheme) req.theme = .ok theme ∧
      planInstallation env pd req = .ok (normalizePlan ⟨api.1, theme.1⟩ api.2 theme.2) := by
  obtain ⟨api, hapi⟩ := mergeScope_ok pd.api installedApi pinnedApi req.api
  obtain ⟨theme, htheme⟩ := mergeScope_ok pd.theme installedTheme pinnedTheme req.theme
  refine ⟨api, theme, hapi, htheme, ?_⟩
  unfold planInstallation
  rw [h₁, h₂, h₃, h₄, hapi, htheme]

/-- C2: when the map returned by `compareDependencies` holds, under some package
name of a scope, two distinct strings, `checkDependenciesAtInstallation`
returns `needUpgrade = true` and the value of `toBeChanged[scope][name]`
contains every string of that requirement set, whatever the installed snapshots
and the pinned manifests contain. -/
theorem checkDependenciesAtInstallation_conflict (env : PlannerEnv) (modules : List Module)
    (idModule : Nat) (myModule : Module) (pd : PackageDependencies) (modulesActivated : List Module)
    (installedApi installedTheme : List (String × String)) (pinnedApi pinnedTheme : List String)
    (scope : Scope) (name : String) (values : List String) (a b : String)
    (hfind : findById modules idModule = some myModule)
    (hpd : myModule.packageDependencies = some pd)
    (hdecl : pd.api.isSome = true ∨ pd.theme.isSome = true)
    (hclean : cleanActivated env.cleanPackageVersion (findOtherActive modules idModule) =
      .ok modulesActivated)
    (h₁ : env.installedApi = .ok installedApi) (h₂ : env.aquilaDependencies = .ok pinnedApi)
    (h₃ : env.installedTheme = .ok installedTheme) (h₄ : env.themeDependencies = .ok pinnedTheme)
    (hreq : objGet ((env.compareDependencies (cleanCandidate env.cleanPackageVersion myModule pd)
      modulesActivated).scope scope) name = some values)
    (ha : a ∈ values) (hb : b ∈ values) (hab : a ≠ b) :
    ∃ plan, checkDependenciesAtInstallation env modules idModule = .ok plan ∧
      plan.needUpgrade = true ∧
      ∃ v, objGet (plan.toBeChanged.scope scope) name = some v ∧ ∀ s ∈ values, s ∈ v.elems := by
  rw [checkDependenciesAtInstallation_eq_plan env modules idModule myModule pd modulesActivated
    hfind hpd hdecl hclean]
  generalize env.compareDependencies (cleanCandidate env.cleanPackageVersion myModule pd)
    modulesActivated = req at hreq ⊢
  obtain ⟨api, theme, hapi, htheme, hplan⟩ :=
    planInstallation_ok env
      { api := pd.api.map env.cleanPackageVersion, theme := pd.theme.map env.cleanPackageVersion }
      req installedApi installedTheme pinnedApi pinnedTheme h₁ h₂ h₃ h₄
  have hgrow : ∃ merged, objGet (match scope with | .api => api.2 | .theme => theme.2) name =
      some merged ∧ values ⊆ merged := by
    cases scope with
    | api => exact grows_mergeScope hapi name values hreq
    | theme => exact grows_mergeScope htheme name values hreq
  obtain ⟨merged, hmerged, hsub⟩ := hgrow
  refine ⟨_, hplan, ?_, ?_⟩
  · exact needUpgrade_normalizePlan_of_long _ _ _ scope name merged
      (mem_of_objGet _ _ _ hmerged)
      (length_gt_one_of_two_distinct merged a b (hsub ha) (hsub hb) hab)
  · obtain ⟨v, hv, helems⟩ := objGet_normalizePlan ⟨api.1, theme.1⟩ api.2 theme.2 scope name merged hmerged
    exact ⟨v, hv, fun s hs => helems ▸ hsub hs⟩

/-! ### Merges that add nothing -/

theorem setAdd_of_mem (s : List String) (x : String) (h : x ∈ s) : setAdd s x = s := by
  unfold setAdd
  rw [if_pos h]

theorem addToKey_eq_self (obj : List (String × List String)) (k x : String)
    (h : ∀ values, (k, values) ∈ obj → x ∈ values) : addToKey obj k x = obj := by
  induction obj with
  | nil => rfl
  | cons e rest ih =>
    obtain ⟨n, v⟩ := e
    rw [addToKey_cons, ih fun values hv => h values (List.mem_cons_of_mem _ hv)]
    by_cases hn : n = k
    · subst hn
      rw [if_pos rfl, setAdd_of_mem v x (h v (List.mem_cons_self _ _))]
    · rw [if_neg hn]

theorem mergeInstalled_changed_eq_self (installed : List (String × String))
    (changed : List (String × List String))
    (h : ∀ index value, (index, value) ∈ installed →
      ∀ values, (index, values) ∈ changed → index ++ "@" ++ value ∈ values) :
    ∀ already, (mergeInstalled installed already changed).2 = changed := by
  induction installed with
  | nil => intro already; rfl
  | cons e rest ih =>
    intro already
    obtain ⟨index, value⟩ := e
    have hrest : ∀ index value, (index, value) ∈ rest →
        ∀ values, (index, values) ∈ changed → index ++ "@" ++ value ∈ values :=
      fun i v hv => h i v (List.mem_cons_of_mem _ hv)
    unfold mergeInstalled
    split
    · rw [addToKey_eq_self changed index _ (h index value (List.mem_cons_self _ _))]
      exact ih hrest _
    · exact ih hrest _

theorem mergeManifest_eq_self (pinned : List String) (changed : List (String × List String))
    (h : ∀ v ∈ pinned, ∀ values, (dependencyName v, values) ∈ changed → v ∈ values) :
    mergeManifest pinned changed = changed := by
  induction pinned with
  | nil => rfl
  | cons v rest ih =>
    unfold mergeManifest
    rw [addToKey_eq_self changed _ v (h v (List.mem_cons_self _ _))]
    exact ih fun w hw => h w (List.mem_cons_of_mem _ hw)

/-! ### What `alreadyInstalled` records -/

theorem installedText_ne_empty (index value : String) : index ++ "@" ++ value ≠ "" := by
  intro h
  have hlen := congrArg String.length h
  simp only [String.length_append] at hlen
  have hat : "@".length = 1 := by decide
  have hempty : "".length = 0 := by decide
  omega

theorem objGet_objSet_self {α : Type} (obj : List (String × α)) (k : String) (v : α) :
    objGet (objSet obj k v) k = some v := by
  induction obj with
  | nil => simp [objSet, objGet]
  | cons e rest ih =>
    obtain ⟨n, w⟩ := e
    unfold objSet
    by_cases hn : n = k
    · simp [hn, objGet_cons]
    · simp [hn, objGet_cons, ih]

theorem objGet_objSet_other {α : Type} (obj : List (String × α)) (k name : String) (v : α)
    (hne : k ≠ name) : objGet (objSet obj k v) name = objGet obj name := by
  induction obj with
  | nil => simp [objSet, objGet, hne]
  | cons e rest ih =>
    obtain ⟨n, w⟩ := e
    unfold objSet
    by_cases hn : n = k
    · subst hn; simp [objGet_cons, hne]
    · simp [hn, objGet_cons, ih]

/-- No value recorded by the merge of the installed snapshot is the empty
string. -/
theorem mergeInstalled_already_ne_empty (installed : List (String × String)) :
    ∀ (already : List (String × String)) (changed : List (String × List String)) (name : String),
      objGet already name ≠ some "" →
      objGet (mergeInstalled installed already changed).1 name ≠ some "" := by
  induction installed with
  | nil => intro already changed name h; exact h
  | cons e rest ih =>
    intro already changed name h
    obtain ⟨index, value⟩ := e
    unfold mergeInstalled
    split
    · apply ih
      by_cases hn : index = name
      · subst hn
        rw [objGet_objSet_self]
        intro hs
        exact installedText_ne_empty index value (Option.some.inj hs)
      · rw [objGet_objSet_other _ _ _ _ hn]; exact h
    · exact ih _ _ _ h

theorem objKeys_addToKey (obj : List (String × List String)) (k x : String) :
    objKeys (addToKey obj k x) = objKeys obj := by
  induction obj with
  | nil => rfl
  | cons e rest ih =>
    obtain ⟨n, v⟩ := e
    rw [addToKey_cons]
    simp only [objKeys, List.map_cons] at ih ⊢
    rw [ih]

theorem mergeInstalled_already_other (installed : List (String × String)) (name : String)
    (hname : name ∉ installed.map Prod.fst) :
    ∀ (already : List (String × String)) (changed : List (String × List String)),
      objGet (mergeInstalled installed already changed).1 name = objGet already name := by
  induction installed with
  | nil => intro already changed; rfl
  | cons e rest ih =>
    intro already changed
    obtain ⟨index, value⟩ := e
    simp only [List.map_cons, List.mem_cons, not_or] at hname
    unfold mergeInstalled
    split
    · rw [ih hname.2, objGet_objSet_other _ _ _ _ (Ne.symm hname.1)]
    · exact ih hname.2 _ _

/-- An installed package that is a key of the requirement object is recorded
under its name as `name@version`. -/
theorem mergeInstalled_already_of_mem (installed : List (String × String)) (name value : String)
    (hnodup : (installed.map Prod.fst).Nodup) (hmem : (name, value) ∈ installed) :
    ∀ (already : List (String × String)) (changed : List (String × List String)),
      name ∈ objKeys changed →
      objGet (mergeInstalled installed already changed).1 name = some (name ++ "@" ++ value) := by
  induction installed with
  | nil => simp at hmem
  | cons e rest ih =>
    intro already changed hkey
    obtain ⟨index, v⟩ := e
    simp only [List.map_cons, List.nodup_cons] at hnodup
    rcases List.mem_cons.mp hmem with heq | hrest
    · cases heq
      unfold mergeInstalled
      rw [if_pos hkey, mergeInstalled_already_other rest name hnodup.1, objGet_objSet_self]
    · unfold mergeInstalled
      split
      · exact ih hnodup.2 hrest _ _ (by rw [objKeys_addToKey]; exact hkey)
      · exact ih hnodup.2 hrest _ _ hkey

theorem normalizeScope_flag_false (already : List (String × String))
    (obj : List (String × List String))
    (hlen : ∀ e ∈ obj, e.2.length ≤ 1) (hne : ∀ name, objGet already name ≠ some "") :
    (normalizeScope already obj).2 = false := by
  induction obj with
  | nil => rfl
  | cons e rest ih =>
    obtain ⟨n, v⟩ := e
    unfold normalizeScope
    have hv : ¬ (objGet already n = some "" ∨ v.length > 1) := by
      intro h
      rcases h with h | h
      · exact hne n h
      · have := hlen (n, v) (List.mem_cons_self _ _)
        simp only at this
        omega
    rw [if_neg hv]
    exact ih fun e he => hlen e (List.mem_cons_of_mem _ he)

/-- C2 witness: the candidate requires `lodash@^3.0.0`, an active module
requires `lodash@^4.0.0`. -/
theorem checkDependenciesAtInstallation_conflict_witness :
    ∃ plan,
      checkDependenciesAtInstallation
        (samplePlanner ⟨[("lodash", ["lodash@^3.0.0", "lodash@^4.0.0"])], []⟩
          [("lodash", "4.17.21")] ["lodash@4.17.20"])
        (lodashModules "lodash@^3.0.0") 1 = .ok plan ∧
      plan.needUpgrade = true ∧
      ∃ v, objGet (plan.toBeChanged.scope Scope.api) "lodash" = some v ∧
        ∀ s ∈ ["lodash@^3.0.0", "lodash@^4.0.0"], s ∈ v.elems :=
  checkDependenciesAtInstallation_conflict
    (samplePlanner ⟨[("lodash", ["lodash@^3.0.0", "lodash@^4.0.0"])], []⟩
      [("lodash", "4.17.21")] ["lodash@4.17.20"])
    (lodashModules "lodash@^3.0.0") 1
    (sampleModule 1 "a" false (some ⟨some ["lodash@^3.0.0"], none⟩))
    ⟨some ["lodash@^3.0.0"], none⟩
    [sampleModule 2 "b" true (some ⟨some ["lodash@^4.0.0"], some []⟩)]
    [("lodash", "4.17.21")] [] ["lodash@4.17.20"] [] Scope.api "lodash"
    ["lodash@^3.0.0", "lodash@^4.0.0"] "lodash@^3.0.0" "lodash@^4.0.0"
    (by decide) (by decide) (by decide) (by decide) rfl rfl rfl rfl (by decide) (by decide)
    (by decide) (by decide)

/-! ### C3 -/

/-- C3 (as stated, refuted): every requirement set is a singleton, the installed
`lodash` is `4.17.21`, and the plan has `needUpgrade = true`. -/
theorem checkDependenciesAtInstallation_singletons_needUpgrade :
    (∀ e ∈ [("lodash", ["lodash@^4.0.0"])], (e : String × List String).2.length = 1) ∧
    checkDependenciesAtInstallation
      (samplePlanner ⟨[("lodash", ["lodash@^4.0.0"])], []⟩ [("lodash", "4.17.21")] [])
      (lodashModules "lodash@^4.0.0") 1 =
    .ok { toBeChanged := ⟨[("lodash", DepValue.array ["lodash@^4.0.0", "lodash@4.17.21"])], []⟩
          alreadyInstalled := ⟨[("lodash", "lodash@4.17.21")], []⟩
          needUpgrade := true } := by
  decide

/-- When the probes of a scope add nothing to the requirement sets, the merge
returns the requirement object as it was, and no recorded value is empty. -/
theorem mergeScope_absorbed (declared : Option (List String)) (installed : List (String × String))
    (pinned : List String) (required : List (String × List String))
    (hinst : declared.isSome = true → ∀ index value, (index, value) ∈ installed →
      ∀ values, (index, values) ∈ required → index ++ "@" ++ value ∈ values)
    (hpin : declared.isSome = true → ∀ v ∈ pinned,
      ∀ values, (dependencyName v, values) ∈ required → v ∈ values) :
    ∃ already, mergeScope declared (.ok installed) (.ok pinned) required = .ok (already, required) ∧
      ∀ name, objGet already name ≠ some "" := by
  cases declared with
  | none => exact ⟨[], rfl, fun name => by simp [objGet_nil]⟩
  | some l =>
    refine ⟨(mergeInstalled installed [] required).1, ?_, ?_⟩
    · unfold mergeScope
      simp only
      rw [mergeInstalled_changed_eq_self installed required (hinst rfl) [],
        mergeManifest_eq_self pinned required (hpin rfl)]
    · intro name
      exact mergeInstalled_already_ne_empty installed [] required name (by simp [objGet_nil])

/-- C3 (amended): when every requirement set returned by `compareDependencies`
holds at most one string and, in each scope the candidate declares, the
`name@version` string of every installed package and every entry of the pinned
manifest is already a member of the requirement set of its package,
`checkDependenciesAtInstallation` returns `needUpgrade = false`. -/
theorem checkDependenciesAtInstallation_no_conflict (env : PlannerEnv) (modules : List Module)
    (idModule : Nat) (myModule : Module) (pd : PackageDependencies) (modulesActivated : List Module)
    (installedApi installedTheme : List (String × String)) (pinnedApi pinnedTheme : List String)
    (req : RequirementMap)
    (hfind : findById modules idModule = some myModule)
    (hpd : myModule.packageDependencies = some pd)
    (hdecl : pd.api.isSome = true ∨ pd.theme.isSome = true)
    (hclean : cleanActivated env.cleanPackageVersion (findOtherActive modules idModule) =
      .ok modulesActivated)
    (h₁ : env.installedApi = .ok installedApi) (h₂ : env.aquilaDependencies = .ok pinnedApi)
    (h₃ : env.installedTheme = .ok installedTheme) (h₄ : env.themeDependencies = .ok pinnedTheme)
    (hreq : env.compareDependencies (cleanCandidate env.cleanPackageVersion myModule pd)
      modulesActivated = req)
    (hsingle : ∀ scope, ∀ e ∈ req.scope scope, e.2.length ≤ 1)
    (hinstApi : pd.api.isSome = true → ∀ index value, (index, value) ∈ installedApi →
      ∀ values, (index, values) ∈ req.api → index ++ "@" ++ value ∈ values)
    (hpinApi : pd.api.isSome = true → ∀ v ∈ pinnedApi,
      ∀ values, (dependencyName v, values) ∈ req.api → v ∈ values)
    (hinstTheme : pd.theme.isSome = true → ∀ index value, (index, value) ∈ installedTheme →
      ∀ values, (index, values) ∈ req.theme → index ++ "@" ++ value ∈ values)
    (hpinTheme : pd.theme.isSome = true → ∀ v ∈ pinnedTheme,
      ∀ values, (dependencyName v, values) ∈ req.theme → v ∈ values) :
    ∃ plan, checkDependenciesAtInstallation env modules idModule = .ok plan ∧
      plan.needUpgrade = false := by
  rw [checkDependenciesAtInstallation_eq_plan env modules idModule myModule pd modulesActivated
    hfind hpd hdecl hclean, hreq]
  obtain ⟨alreadyApi, hapi, hneApi⟩ :=
    mergeScope_absorbed (pd.api.map env.cleanPackageVersion) installedApi pinnedApi req.api
      (fun h => hinstApi (by simpa using h)) (fun h => hpinApi (by simpa using h))
  obtain ⟨alreadyTheme, htheme, hneTheme⟩ :=
    mergeScope_absorbed (pd.theme.map env.cleanPackageVersion) installedTheme pinnedTheme req.theme
      (fun h => hinstTheme (by simpa using h)) (fun h => hpinTheme (by simpa using h))
  refine ⟨normalizePlan ⟨alreadyApi, alreadyTheme⟩ req.api req.theme, ?_, ?_⟩
  · unfold planInstallation
    simp only [h₁, h₂, h₃, h₄, hapi, htheme]
  · have hfa := normalizeScope_flag_false alreadyApi req.api (hsingle Scope.api) hneApi
    have hft := normalizeScope_flag_false alreadyTheme req.theme (hsingle Scope.theme) hneTheme
    simp only [normalizePlan, hfa, hft]
    rfl

/-- C3 (amended) witness: both modules require `lodash@^4.0.0` and the snapshot
lists `lodash` as `^4.0.0`. -/
theorem checkDependenciesAtInstallation_no_conflict_witness :
    ∃ plan,
      checkDependenciesAtInstallation
        (samplePlanner ⟨[("lodash", ["lodash@^4.0.0"])], []⟩ [("lodash", "^4.0.0")]
          ["lodash@^4.0.0", "express@^4.17.1"])
        (lodashModules "lodash@^4.0.0") 1 = .ok plan ∧
      plan.needUpgrade = false :=
  checkDependenciesAtInstallation_no_conflict
    (samplePlanner ⟨[("lodash", ["lodash@^4.0.0"])], []⟩ [("lodash", "^4.0.0")]
      ["lodash@^4.0.0", "express@^4.17.1"])
    (lodashModules "lodash@^4.0.0") 1
    (sampleModule 1 "a" false (some ⟨some ["lodash@^4.0.0"], none⟩))
    ⟨some ["lodash@^4.0.0"], none⟩
    [sampleModule 2 "b" true (some ⟨some ["lodash@^4.0.0"], some []⟩)]
    [("lodash", "^4.0.0")] [] ["lodash@^4.0.0", "express@^4.17.1"] []
    ⟨[("lodash", ["lodash@^4.0.0"])], []⟩
    (by decide) (by decide) (by decide) (by decide) rfl rfl rfl rfl rfl
    (by intro scope; cases scope <;> decide)
    (by
      intro _ index value hmem values hv
      simp only [List.mem_singleton, Prod.mk.injEq] at hmem hv
      obtain ⟨rfl, rfl⟩ := hmem
      obtain ⟨-, rfl⟩ := hv
      decide)
    (by
      intro _ v hmem values hv
      simp only [List.mem_singleton, Prod.mk.injEq] at hv
      obtain ⟨hname, rfl⟩ := hv
      simp only [List.mem_cons, List.mem_singleton, List.not_mem_nil, or_false] at hmem
      rcases hmem with rfl | rfl
      · decide
      · exact absurd hname (by decide))
    (by intro _ index value hmem; simp at hmem)
    (by intro _ v hmem; simp at hmem)

/-! ### C4 -/

/-- C4 (the code at the failing input): `lodash` is requested in two ranges, so
the loop of lines 288-297 stops at `lodash`; the values of `moment` (same
scope, examined later) and of `react` (next scope) are returned as the sets
they were, not as arrays. -/
theorem checkDependenciesAtInstallation_leaves_sets :
    checkDependenciesAtInstallation
      (samplePlanner
        ⟨[("lodash", ["lodash@^3.0.0", "lodash@^4.0.0"]), ("moment", ["moment@^2.0"])],
          [("react", ["react@^16.0.0"])]⟩ [] [])
      (lodashModules "lodash@^3.0.0") 1 =
    .ok { toBeChanged :=
            ⟨[("lodash", DepValue.array ["lodash@^3.0.0", "lodash@^4.0.0"]),
              ("moment", DepValue.set ["moment@^2.0"])],
             [("react", DepValue.set ["react@^16.0.0"])]⟩
          alreadyInstalled := ⟨[], []⟩
          needUpgrade := true } := by
  decide

/-! ### C5 -/

/-- C5 (as stated, refuted): modules `a` and `b` both require `lodash@^4.0.0`
and `lodash@^4.0.0` is what the snapshot lists; `lodash` is recorded in
`alreadyInstalled.api`, `needUpgrade` is `false`, and `lodash` is still a key of
`toBeChanged.api`. -/
theorem checkDependenciesAtInstallation_satisfied_still_listed :
    checkDependenciesAtInstallation
      (samplePlanner ⟨[("lodash", ["lodash@^4.0.0"])], []⟩ [("lodash", "^4.0.0")] [])
      (lodashModules "lodash@^4.0.0") 1 =
    .ok { toBeChanged := ⟨[("lodash", DepValue.array ["lodash@^4.0.0"])], []⟩
          alreadyInstalled := ⟨[("lodash", "lodash@^4.0.0")], []⟩
          needUpgrade := false } ∧
    "lodash" ∈ objKeys [("lodash", DepValue.array ["lodash@^4.0.0"])] := by
  decide

theorem mem_objKeys_of_objGet {α : Type} (obj : List (String × α)) (name : String) (v : α)
    (h : objGet obj name = some v) : name ∈ objKeys obj :=
  List.mem_map.mpr ⟨(name, v), mem_of_objGet obj name v h, rfl⟩

/-- The merge of a declared scope records every installed package that is a key
of the requirement object. -/
theorem mergeScope_already (declared : Option (List String)) (installed : List (String × String))
    (pinned : List String) (required : List (String × List String))
    (r : List (String × String) × List (String × List String)) (name value : String)
    (hmerge : mergeScope declared (.ok installed) (.ok pinned) required = .ok r)
    (hdeclared : declared.isSome = true) (hnodup : (installed.map Prod.fst).Nodup)
    (hmem : (name, value) ∈ installed) (hkey : name ∈ objKeys required) :
    objGet r.1 name = some (name ++ "@" ++ value) := by
  cases declared with
  | none => simp at hdeclared
  | some l =>
    unfold mergeScope at hmerge
    simp only at hmerge
    cases hmerge
    exact mergeInstalled_already_of_mem installed name value hnodup hmem [] required hkey

theorem alreadyInstalled_normalizePlan (already : Scoped String)
    (changedApi changedTheme : List (String × List String)) :
    (normalizePlan already changedApi changedTheme).alreadyInstalled = already := by
  unfold normalizePlan
  by_cases h : (normalizeScope already.api changedApi).2 = true <;> simp [h]

/-- C5 (amended): on activation planning, a package name with exactly one
requirement value `r` is a key of `toBeChanged[scope]` in every case, with `r`
among its strings; and when the scope is declared by the candidate and the
installed snapshot holds the package with `name@version` equal to `r`, it is
also recorded in `alreadyInstalled[scope]` with that string. -/
theorem checkDependenciesAtInstallation_single_requirement (env : PlannerEnv)
    (modules : List Module) (idModule : Nat) (myModule : Module) (pd : PackageDependencies)
    (modulesActivated : List Module)
    (installedApi installedTheme : List (String × String)) (pinnedApi pinnedTheme : List String)
    (scope : Scope) (name r : String)
    (hfind : findById modules idModule = some myModule)
    (hpd : myModule.packageDependencies = some pd)
    (hdecl : pd.api.isSome = true ∨ pd.theme.isSome = true)
    (hclean : cleanActivated env.cleanPackageVersion (findOtherActive modules idModule) =
      .ok modulesActivated)
    (h₁ : env.installedApi = .ok installedApi) (h₂ : env.aquilaDependencies = .ok pinnedApi)
    (h₃ : env.installedTheme = .ok installedTheme) (h₄ : env.themeDependencies = .ok pinnedTheme)
    (hreq : objGet ((env.compareDependencies (cleanCandidate env.cleanPackageVersion myModule pd)
      modulesActivated).scope scope) name = some [r]) :
    ∃ plan, checkDependenciesAtInstallation env modules idModule = .ok plan ∧
      name ∈ objKeys (plan.toBeChanged.scope scope) ∧
      (∃ v, objGet (plan.toBeChanged.scope scope) name = some v ∧ r ∈ v.elems) ∧
      ∀ value, (pd.scope scope).isSome = true →
        ((match scope with
          | .api => installedApi
          | .theme => installedTheme).map Prod.fst).Nodup →
        (name, value) ∈ (match scope with
          | .api => installedApi
          | .theme => installedTheme) →
        name ++ "@" ++ value = r →
        objGet (plan.alreadyInstalled.scope scope) name = some r := by
  rw [checkDependenciesAtInstallation_eq_plan env modules idModule myModule pd modulesActivated
    hfind hpd hdecl hclean]
  generalize env.compareDependencies (cleanCandidate env.cleanPackageVersion myModule pd)
    modulesActivated = req at hreq ⊢
  obtain ⟨api, theme, hapi, htheme, hplan⟩ :=
    planInstallation_ok env
      { api := pd.api.map env.cleanPackageVersion, theme := pd.theme.map env.cleanPackageVersion }
      req installedApi installedTheme pinnedApi pinnedTheme h₁ h₂ h₃ h₄
  have hgrow : ∃ merged, objGet (match scope with | .api => api.2 | .theme => theme.2) name =
      some merged ∧ [r] ⊆ merged := by
    cases scope with
    | api => exact grows_mergeScope hapi name [r] hreq
    | theme => exact grows_mergeScope htheme name [r] hreq
  obtain ⟨merged, hmerged, hsub⟩ := hgrow
  obtain ⟨v, hv, helems⟩ :=
    objGet_normalizePlan ⟨api.1, theme.1⟩ api.2 theme.2 scope name merged hmerged
  refine ⟨_, hplan, mem_objKeys_of_objGet _ _ _ hv, ⟨v, hv, ?_⟩, ?_⟩
  · rw [helems]; exact hsub (List.mem_singleton_self r)
  · intro value hdeclared hnodup hmem hr
    rw [alreadyInstalled_normalizePlan, ← hr]
    cases scope with
    | api =>
      exact mergeScope_already _ installedApi pinnedApi req.api api name value hapi
        (by simpa [PackageDependencies.scope] using hdeclared) hnodup hmem
        (mem_objKeys_of_objGet _ _ _ hreq)
    | theme =>
      exact mergeScope_already _ installedTheme pinnedTheme req.theme theme name value htheme
        (by simpa [PackageDependencies.scope] using hdeclared) hnodup hmem
        (mem_objKeys_of_objGet _ _ _ hreq)

/-- C5 (amended) witness: the `lodash@^4.0.0` scenario. -/
theorem checkDependenciesAtInstallation_single_requirement_witness :
    ∃ plan,
      checkDependenciesAtInstallation
        (samplePlanner ⟨[("lodash", ["lodash@^4.0.0"])], []⟩ [("lodash", "^4.0.0")] [])
        (lodashModules "lodash@^4.0.0") 1 = .ok plan ∧
      "lodash" ∈ objKeys (plan.toBeChanged.scope Scope.api) ∧
      (∃ v, objGet (plan.toBeChanged.scope Scope.api) "lodash" = some v ∧
        "lodash@^4.0.0" ∈ v.elems) ∧
      objGet (plan.alreadyInstalled.scope Scope.api) "lodash" = some "lodash@^4.0.0" := by
  obtain ⟨plan, hplan, hkey, hval, halready⟩ :=
    checkDependenciesAtInstallation_single_requirement
      (samplePlanner ⟨[("lodash", ["lodash@^4.0.0"])], []⟩ [("lodash", "^4.0.0")] [])
      (lodashModules "lodash@^4.0.0") 1
      (sampleModule 1 "a" false (some ⟨some ["lodash@^4.0.0"], none⟩))
      ⟨some ["lodash@^4.0.0"], none⟩
      [sampleModule 2 "b" true (some ⟨some ["lodash@^4.0.0"], some []⟩)]
      [("lodash", "^4.0.0")] [] [] [] Scope.api "lodash" "lodash@^4.0.0"
      (by decide) (by decide) (by decide) (by decide) rfl rfl rfl rfl (by decide)
  exact ⟨plan, hplan, hkey, hval,
    halready "^4.0.0" (by decide) (by decide) (by decide) (by decide)⟩

/-! ## Lifecycle operations -/




/-! ## Reasoning about operations -/

theorem keeps_pure {α β : Type} (proj : World → β) (a : α) : Keeps proj (M.pure a) :=
  fun _ => rfl

theorem keeps_throw {α β : Type} (proj : World → β) (e : Thrown) :
    Keeps proj (throwM e : M α) :=
  fun _ => rfl

theorem keeps_liftExcept {α β : Type} (proj : World → β) (r : Except Thrown α) :
    Keeps proj (liftExcept r) :=
  fun _ => rfl

theorem keeps_parsed {α β : Type} (proj : World → β) (r : Option α) : Keeps proj (parsed r) := by
  intro w
  unfold parsed
  cases r <;> rfl

theorem keeps_bind {α γ β : Type} (proj : World → β) (f : M α) (g : α → M γ)
    (hf : Keeps proj f) (hg : ∀ a, Keeps proj (g a)) : Keeps proj (M.bind f g) := by
  intro w
  have h := hf w
  unfold M.bind
  cases hfw : f w with
  | mk r w' =>
    rw [hfw] at h
    cases r with
    | error e => exact h
    | ok a => exact (hg a w').trans h

theorem keeps_tryCatch {α β : Type} (proj : World → β) (f : M α) (handler : Thrown → M α)
    (hf : Keeps proj f) (hh : ∀ e, Keeps proj (handler e)) : Keeps proj (tryCatchM f handler) := by
  intro w
  have h := hf w
  unfold tryCatchM
  cases hfw : f w with
  | mk r w' =>
    rw [hfw] at h
    cases r with
    | error e => exact (hh e w').trans h
    | ok a => exact h

theorem keeps_logged {β : Type} (proj : World → β) (f : M Unit) (hf : Keeps proj f) :
    Keeps proj (logged f) :=
  keeps_tryCatch proj f _ hf fun _ => keeps_pure proj ()

theorem keeps_ite {α β : Type} (proj : World → β) (c : Prop) [Decidable c] (f g : M α)
    (hf : Keeps proj f) (hg : Keeps proj g) : Keeps proj (if c then f else g) := by
  split
  · exact hf
  · exact hg

theorem keeps_forEach {α β : Type} (proj : World → β) (body : α → M Unit)
    (hbody : ∀ x, Keeps proj (body x)) : ∀ xs, Keeps proj (forEachM body xs) := by
  intro xs
  induction xs with
  | nil => exact keeps_pure proj ()
  | cons x rest ih => exact keeps_bind proj _ _ (hbody x) fun _ => ih

theorem keeps_collect {α γ β : Type} (proj : World → β) (body : α → M (List γ))
    (hbody : ∀ x, Keeps proj (body x)) : ∀ xs, Keeps proj (collectM body xs) := by
  intro xs
  induction xs with
  | nil => exact keeps_pure proj []
  | cons x rest ih =>
    exact keeps_bind proj _ _ (hbody x) fun _ =>
      keeps_bind proj _ _ ih fun _ => keeps_pure proj _

/-! ### The file-system utility only touches the file system -/

section FileSystem

variable {β : Type} {proj : World → β}

theorem keeps_existsSync (key : String) : Keeps proj (existsSync key) := fun _ => rfl

theorem keeps_access (key : String) : Keeps proj (access key) := fun _ => rfl

theorem keeps_lstatIsDirectory (key : String) : Keeps proj (lstatIsDirectory key) := fun _ => rfl

theorem keeps_readFile (key : String) : Keeps proj (readFile key) := by
  intro w
  unfold readFile
  split <;> rfl

theorem keeps_readdir (key : String) : Keeps proj (readdir key) := by
  intro w
  unfold readdir
  split <;> rfl

theorem keeps_openZip (key : String) : Keeps proj (openZip key) := by
  intro w
  unfold openZip
  split <;> rfl

theorem keeps_mkdir (h : FilesBlind proj) (key : String) : Keeps proj (mkdir key) := by
  intro w
  unfold mkdir
  split
  · rfl
  · exact h w _

theorem keeps_copyFile (h : FilesBlind proj) (source target : String) :
    Keeps proj (copyFile source target) := by
  intro w
  unfold copyFile
  split
  · rfl
  · rfl
  · split
    · rfl
    · exact h w _

theorem keeps_unlink (h : FilesBlind proj) (key : String) : Keeps proj (unlink key) := by
  intro w
  unfold unlink
  split
  · rfl
  · rfl
  · split
    · rfl
    · exact h w _

theorem keeps_writeFile (h : FilesBlind proj) (key content : String) :
    Keeps proj (writeFile key content) := by
  intro w
  unfold writeFile
  split
  · rfl
  · exact h w _

theorem keeps_deleteRecursive (h : FilesBlind proj) (key : String) :
    Keeps proj (deleteRecursive key) := by
  intro w
  unfold deleteRecursive
  split
  · rfl
  · exact h w _

theorem keeps_copyRecursive (h : FilesBlind proj) (source target : String) :
    Keeps proj (copyRecursive source target) := by
  intro w
  unfold copyRecursive
  split
  · rfl
  · split
    · rfl
    · exact h w _

theorem keeps_extractAll (h : FilesBlind proj) (cwd target : String) (entries : List ZipEntry) :
    Keeps proj (extractAll cwd target entries) := by
  intro w
  unfold extractAll
  split
  · exact h w _
  · exact h w _

end FileSystem

/-! ### Observations -/

theorem filesBlind_flags : FilesBlind flags := fun _ _ => rfl

theorem commandsBlind_flags : CommandsBlind flags := fun _ _ => rfl

theorem map_updateFirst_of_same {γ : Type} (obs : Module → γ) (p : Module → Bool)
    (f : Module → Module) (hf : ∀ m, obs (f m) = obs m) :
    ∀ modules, (updateFirst p f modules).map obs = modules.map obs := by
  intro modules
  induction modules with
  | nil => rfl
  | cons m rest ih =>
    unfold updateFirst
    split
    · simp [hf]
    · simp [ih]

theorem pushBlind_flags : PushBlind flags := by
  intro w p extra
  exact map_updateFirst_of_same (fun m => (m._id, m.active)) p
    (fun m => { m with files := m.files ++ extra }) (fun _ => rfl) w.modules

theorem filesBlind_modules : FilesBlind World.modules := fun _ _ => rfl

theorem commandsBlind_modules : CommandsBlind World.modules := fun _ _ => rfl

/-- The command log together with the flags of the records. -/
theorem filesBlind_ledger : FilesBlind fun w => (w.commands, flags w) := fun _ _ => rfl

theorem pushBlind_ledger : PushBlind fun w => (w.commands, flags w) := by
  intro w p extra
  exact congrArg (Prod.mk w.commands) (pushBlind_flags w p extra)

/-! ### Frame of the operations of the service -/

section Frames

variable {β : Type} {proj : World → β}

theorem keeps_execCmd (h : CommandsBlind proj) (env : Env) (cmd cwd : String) :
    Keeps proj (execCmd env cmd cwd) :=
  fun w => h w _

theorem keeps_findByIdM (idModule : Nat) : Keeps proj (findByIdM idModule) := fun _ => rfl

theorem keeps_findAllM : Keeps proj findAllM := fun _ => rfl

theorem keeps_attachModules {α : Type} (err : Thrown) :
    Keeps proj (attachModules err : M α) := by
  intro w
  unfold attachModules
  split <;> rfl

theorem keeps_injectFile (hf : FilesBlind proj) (hp : PushBlind proj) (env : Env)
    (savePath pathModule currentTheme file : String) :
    Keeps proj (injectFile env savePath pathModule currentTheme file) := by
  unfold injectFile
  apply keeps_ite
  · exact keeps_pure proj ()
  · refine keeps_bind proj _ _ (keeps_readFile _) fun info => ?_
    refine keeps_bind proj _ _ (keeps_parsed proj _) fun descriptor => ?_
    refine keeps_bind proj _ _ (keeps_readFile _) fun result => ?_
    refine keeps_bind proj _ _ ?_ fun _ => ?_
    · apply keeps_ite
      · split
        · exact keeps_throw proj _
        · exact keeps_writeFile hf _ _
      · exact keeps_pure proj ()
    · refine keeps_bind proj _ _ (fun w => hp w _ _) fun _ => ?_
      exact keeps_copyFile hf _ _

theorem keeps_setFrontModuleInTheme (hf : FilesBlind proj) (hp : PushBlind proj) (env : Env)
    (pathModule theme : String) : Keeps proj (setFrontModuleInTheme env pathModule theme) := by
  unfold setFrontModuleInTheme
  refine keeps_bind proj _ _ (keeps_access _) fun present => ?_
  apply keeps_ite
  · exact keeps_pure proj ()
  · refine keeps_bind proj _ _ (keeps_readdir _) fun resultDir => ?_
    exact keeps_forEach proj _ (fun file => keeps_injectFile hf hp env _ _ _ file) resultDir

theorem keeps_removeFromListModule (hf : FilesBlind proj) (env : Env)
    (file currentTheme code type : String) :
    Keeps proj (removeFromListModule env file currentTheme code type) := by
  unfold removeFromListModule
  apply keeps_logged
  refine keeps_bind proj _ _ (keeps_existsSync _) fun present => ?_
  apply keeps_ite
  · exact keeps_pure proj ()
  · refine keeps_bind proj _ _ (keeps_readFile _) fun result => ?_
    split
    · exact keeps_throw proj _
    · exact keeps_writeFile hf _ _

theorem keeps_addOrRemoveThemeFile (hf : FilesBlind proj) (hp : PushBlind proj) (env : Env)
    (pathThemeComponents : String) (toRemove : Bool) (type file : String) :
    Keeps proj (addOrRemoveThemeFile env pathThemeComponents toRemove type file) := by
  unfold addOrRemoveThemeFile
  apply keeps_ite
  · exact keeps_pure proj ()
  · apply keeps_ite
    · refine keeps_bind proj _ _ (keeps_removeFromListModule hf env _ _ _ _) fun _ => ?_
      refine keeps_bind proj _ _ (keeps_existsSync _) fun present => ?_
      apply keeps_ite
      · exact keeps_logged proj _ (keeps_unlink hf _)
      · exact keeps_pure proj ()
    · exact keeps_setFrontModuleInTheme hf hp env _ _

theorem keeps_addOrRemoveThemeFiles (hf : FilesBlind proj) (hp : PushBlind proj) (env : Env)
    (pathThemeComponents : String) (toRemove : Bool) (type : String) :
    Keeps proj (addOrRemoveThemeFiles env pathThemeComponents toRemove type) := by
  unfold addOrRemoveThemeFiles
  refine keeps_bind proj _ _ (keeps_existsSync _) fun present => ?_
  apply keeps_ite
  · exact keeps_pure proj ()
  · refine keeps_bind proj _ _ (keeps_readdir _) fun files => ?_
    refine keeps_bind proj _ _
      (keeps_forEach proj _ (fun file => keeps_addOrRemoveThemeFile hf hp env _ _ _ file) files)
      fun _ => ?_
    apply keeps_ite
    · exact keeps_liftExcept proj _
    · exact keeps_pure proj ()

theorem keeps_copyBackoffice (hf : FilesBlind proj) (env : Env) (name : String) :
    Keeps proj (copyBackoffice env name) := by
  unfold copyBackoffice
  refine keeps_bind proj _ _ (keeps_access _) fun present => ?_
  apply keeps_ite
  · exact keeps_bind proj _ _ (keeps_logged proj _ (keeps_copyRecursive hf _ _)) fun _ =>
      keeps_pure proj _
  · exact keeps_pure proj _

theorem keeps_copyTranslationBack (hf : FilesBlind proj) (env : Env) (myModule : Module) :
    Keeps proj (copyTranslationBack env myModule) := by
  unfold copyTranslationBack
  apply keeps_ite
  · refine keeps_bind proj _ _ (keeps_existsSync _) fun present => ?_
    apply keeps_ite
    · exact keeps_bind proj _ _ (keeps_logged proj _ (keeps_copyRecursive hf _ _)) fun _ =>
        keeps_pure proj _
    · exact keeps_pure proj _
  · exact keeps_pure proj _

theorem keeps_copyTranslationFrontFile (hf : FilesBlind proj) (env : Env) (name file : String) :
    Keeps proj (copyTranslationFrontFile env name file) := by
  unfold copyTranslationFrontFile
  refine keeps_bind proj _ _ (keeps_existsSync _) fun present => ?_
  apply keeps_ite
  · exact keeps_bind proj _ _ (keeps_logged proj _ (keeps_copyRecursive hf _ _)) fun _ =>
      keeps_pure proj _
  · exact keeps_pure proj _

theorem keeps_copyTranslationFront (hf : FilesBlind proj) (env : Env) (myModule : Module) :
    Keeps proj (copyTranslationFront env myModule) := by
  unfold copyTranslationFront
  apply keeps_ite
  · refine keeps_bind proj _ _ (keeps_readdir _) fun files => ?_
    exact keeps_collect proj _ (fun file => keeps_copyTranslationFrontFile hf env _ file) files
  · exact keeps_pure proj _

theorem keeps_installScope (hc : CommandsBlind proj) (env : Env) (pd : PackageDependencies)
    (toBeChanged : Scoped PlanValue) (scope : Scope) :
    Keeps proj (installScope env pd toBeChanged scope) := by
  unfold installScope
  split
  · exact keeps_pure proj ()
  · apply keeps_ite
    · exact keeps_execCmd hc env _ _
    · exact keeps_pure proj ()

theorem keeps_installDependencies (hc : CommandsBlind proj) (env : Env) (myModule : Module)
    (toBeChanged : Scoped PlanValue) :
    Keeps proj (installDependencies env myModule toBeChanged) := by
  unfold installDependencies
  split
  · exact keeps_pure proj ()
  · exact keeps_forEach proj _ (fun scope => keeps_installScope hc env _ toBeChanged scope) _

theorem keeps_removeModuleAddon (env : Env) (_module : Module) :
    Keeps proj (removeModuleAddon env _module) := by
  unfold removeModuleAddon
  refine keeps_bind proj _ _ (keeps_existsSync _) fun present => ?_
  apply keeps_ite
  · split
    · exact keeps_pure proj ()
    · exact keeps_pure proj ()
    · apply keeps_ite <;> exact keeps_throw proj _
  · exact keeps_pure proj ()

theorem keeps_removeCopiedFile (hf : FilesBlind proj) (env : Env) (file : String) :
    Keeps proj (removeCopiedFile env file) := by
  unfold removeCopiedFile
  refine keeps_bind proj _ _ (keeps_access _) fun present => ?_
  apply keeps_ite
  · refine keeps_bind proj _ _ (keeps_lstatIsDirectory _) fun directory => ?_
    apply keeps_ite
    · exact keeps_logged proj _ (keeps_deleteRecursive hf _)
    · exact keeps_logged proj _ (keeps_unlink hf _)
  · exact keeps_pure proj ()

theorem keeps_adjustScope (hc : CommandsBlind proj) (env : Env)
    (toBeChanged toBeRemoved : Scoped PlanValue) (scope : Scope) :
    Keeps proj (adjustScope env toBeChanged toBeRemoved scope) := by
  unfold adjustScope
  refine keeps_bind proj _ _ (keeps_liftExcept proj _) fun names => ?_
  refine keeps_bind proj _ _ ?_ fun _ => ?_
  · apply keeps_ite
    · exact keeps_execCmd hc env _ _
    · exact keeps_pure proj ()
  · apply keeps_ite
    · exact keeps_execCmd hc env _ _
    · exact keeps_pure proj ()

end Frames

/-! ### Triples -/

theorem triple_of_keeps {α β : Type} (proj : World → β) (f : M α) (h : Keeps proj f) (c : β) :
    Triple (fun w => proj w = c) f (fun _ w' => proj w' = c) (fun _ w' => proj w' = c) := by
  intro w hw
  have hk := h w
  cases hfw : f w with
  | mk r w' =>
    rw [hfw] at hk
    cases r with
    | error e => exact hk.trans hw
    | ok a => exact hk.trans hw

theorem triple_bind {α γ : Type} {P : World → Prop} {f : M α} {Q : α → World → Prop}
    {g : α → M γ} {R : γ → World → Prop} {E : Thrown → World → Prop}
    (hf : Triple P f Q E) (hg : ∀ a, Triple (Q a) (g a) R E) : Triple P (M.bind f g) R E := by
  intro w hw
  have h := hf w hw
  unfold M.bind
  cases hfw : f w with
  | mk r w' =>
    rw [hfw] at h
    cases r with
    | error e => exact h
    | ok a => exact hg a w' h

theorem triple_tryCatch {α : Type} {P : World → Prop} {f : M α} {Q : α → World → Prop}
    {handler : Thrown → M α} {F E : Thrown → World → Prop}
    (hf : Triple P f Q F) (hh : ∀ e, Triple (F e) (handler e) Q E) :
    Triple P (tryCatchM f handler) Q E := by
  intro w hw
  have h := hf w hw
  unfold tryCatchM
  cases hfw : f w with
  | mk r w' =>
    rw [hfw] at h
    cases r with
    | error e => exact hh e w' h
    | ok a => exact h

theorem triple_weaken {α : Type} {P P' : World → Prop} {f : M α} {Q Q' : α → World → Prop}
    {E E' : Thrown → World → Prop} (h : Triple P f Q E) (hP : ∀ w, P' w → P w)
    (hQ : ∀ a w, Q a w → Q' a w) (hE : ∀ e w, E e w → E' e w) : Triple P' f Q' E' := by
  intro w hw
  have h' := h w (hP w hw)
  cases hfw : f w with
  | mk r w' =>
    rw [hfw] at h'
    cases r with
    | error e => exact hE e w' h'
    | ok a => exact hQ a w' h'


/-! ### Registry lemmas -/

theorem findById_id (modules : List Module) (idModule : Nat) (m : Module)
    (h : findById modules idModule = some m) : m._id = idModule := by
  unfold findById at h
  have := List.find?_some h
  simpa using this

theorem findById_cons (m : Module) (rest : List Module) (idModule : Nat) :
    findById (m :: rest) idModule = if m._id = idModule then some m else findById rest idModule := by
  unfold findById
  by_cases h : m._id = idModule <;> simp [List.find?, h]

/-- Registries with the same flags hold, under each identifier, records with
the same `active` flag. -/
theorem findById_of_flags (idModule : Nat) :
    ∀ (modules modules' : List Module),
      modules'.map (fun m => (m._id, m.active)) = modules.map (fun m => (m._id, m.active)) →
      ∀ m, findById modules idModule = some m →
        ∃ m', findById modules' idModule = some m' ∧ m'.active = m.active := by
  intro modules
  induction modules with
  | nil => intro modules' _ m h; simp [findById] at h
  | cons x rest ih =>
    intro modules' hmap m h
    cases modules' with
    | nil => simp at hmap
    | cons x' rest' =>
      simp only [List.map_cons, List.cons.injEq, Prod.mk.injEq] at hmap
      obtain ⟨⟨hid, hactive⟩, hrest⟩ := hmap
      rw [findById_cons] at h ⊢
      by_cases hx : x._id = idModule
      · rw [if_pos hx] at h
        rw [if_pos (hid.trans hx)]
        cases h
        exact ⟨x', rfl, hactive⟩
      · rw [if_neg hx] at h
        rw [if_neg (fun h' => hx (hid.symm.trans h'))]
        exact ih rest' hrest m h

theorem findById_updateFirst (idModule : Nat) (f : Module → Module)
    (hf : ∀ m, (f m)._id = m._id) :
    ∀ (modules : List Module) (m : Module), findById modules idModule = some m →
      findById (updateFirst (fun r => r._id = idModule) f modules) idModule = some (f m) := by
  intro modules
  induction modules with
  | nil => intro m h; simp [findById] at h
  | cons x rest ih =>
    intro m h
    rw [findById_cons] at h
    unfold updateFirst
    by_cases hx : x._id = idModule
    · rw [if_pos hx] at h
      cases h
      rw [if_pos (by simpa using hx), findById_cons, if_pos ((hf x).trans hx)]
    · rw [if_neg hx] at h
      rw [if_neg (by simpa using hx), findById_cons, if_neg hx]
      exact ih m h

theorem triple_attachModules {α : Type} (P : World → Prop) (Q : α → World → Prop)
    (err : Thrown) : Triple P (attachModules err : M α) Q (fun _ w' => P w') := by
  intro w hw
  unfold attachModules
  by_cases h : err.kind = ErrorKind.undefinedValue
  · rw [if_pos h]; exact hw
  · rw [if_neg h]; exact hw

/-! ### C7 -/

/-- What `activateFound` does to the flags of the registry: a failure leaves
them as they were; a normal return is the update of the record on a registry
with the flags it had. -/
theorem triple_activateFound (env : Env) (myModule : Module) (toBeChanged : Scoped PlanValue)
    (c : List (Nat × Bool)) :
    Triple (fun w => flags w = c) (activateFound env myModule toBeChanged)
      (fun _ w' => ∃ modules extra, modules.map (fun m => (m._id, m.active)) = c ∧
        w'.modules = updateFirst (fun m => m._id = myModule._id)
          (fun m => { m with files := m.files ++ extra, active := true }) modules)
      (fun _ w' => flags w' = c) := by
  unfold activateFound
  refine triple_bind (triple_of_keeps flags _ (keeps_copyBackoffice filesBlind_flags env _) c)
    fun copied => ?_
  refine triple_bind (triple_of_keeps flags _ (keeps_copyTranslationBack filesBlind_flags env _) c)
    fun back => ?_
  refine triple_bind (triple_of_keeps flags _ (keeps_copyTranslationFront filesBlind_flags env _) c)
    fun front => ?_
  refine triple_bind
    (triple_of_keeps flags _ (keeps_installDependencies commandsBlind_flags env _ _) c) fun _ => ?_
  refine triple_bind
    (triple_of_keeps flags _
      (keeps_addOrRemoveThemeFiles filesBlind_flags pushBlind_flags env _ _ _) c) fun _ => ?_
  intro w hw
  exact ⟨w.modules, copied ++ back ++ front, hw, rfl⟩

/-- C7: for an inactive module, when `activateModule` fails (at the dependency
check, at a package-manager command, at the theme injection or anywhere else)
the record keeps `active = false`; the record has `active = true` only when the
operation returns, the registry update being its last step. -/
theorem activateModule_active_last (env : Env) (idModule : Nat) (toBeChanged : Scoped PlanValue)
    (w : World) (myModule : Module)
    (hfind : findById w.modules idModule = some myModule) (hinactive : myModule.active = false) :
    match activateModule env idModule toBeChanged w with
    | (.error _, w') => flags w' = flags w ∧
        ∃ m, findById w'.modules idModule = some m ∧ m.active = false
    | (.ok _, w') => ∃ m, findById w'.modules idModule = some m ∧ m.active = true := by
  have hid := findById_id _ _ _ hfind
  have hbody : Triple (fun w₀ => flags w₀ = flags w)
      (M.bind (fun w => (env.checkModuleDepencendiesAtInstallation w.modules (some myModule), w))
        fun _ => activateFound env myModule toBeChanged)
      (fun _ w' => ∃ modules extra, modules.map (fun m => (m._id, m.active)) = flags w ∧
        w'.modules = updateFirst (fun m => m._id = idModule)
          (fun m => { m with files := m.files ++ extra, active := true }) modules)
      (fun _ w' => flags w' = flags w) := by
    refine triple_bind (triple_of_keeps flags _ (fun _ => rfl) (flags w)) fun _ => ?_
    have h := triple_activateFound env myModule toBeChanged (flags w)
    rw [hid] at h
    exact h
  have htotal := triple_tryCatch hbody (E := fun _ w' => flags w' = flags w)
    (fun e => triple_attachModules _ _ e) w rfl
  have hunfold : activateModule env idModule toBeChanged w =
      tryCatchM (M.bind
        (fun w => (env.checkModuleDepencendiesAtInstallation w.modules (some myModule), w))
        fun _ => activateFound env myModule toBeChanged) attachModules w := by
    simp only [activateModule, tryCatchM, M.bind, findByIdM, hfind]
  rw [hunfold]
  cases hres : tryCatchM _ attachModules w with
  | mk r w' =>
    rw [hres] at htotal
    cases r with
    | error e =>
      refine ⟨htotal, ?_⟩
      obtain ⟨m, hm, hactive⟩ := findById_of_flags idModule w.modules w'.modules htotal myModule hfind
      exact ⟨m, hm, hactive.trans hinactive⟩
    | ok l =>
      obtain ⟨modules, extra, hflags, hmodules⟩ := htotal
      obtain ⟨m, hm, -⟩ := findById_of_flags idModule w.modules modules hflags myModule hfind
      refine ⟨{ m with files := m.files ++ extra, active := true }, ?_, rfl⟩
      rw [hmodules]
      exact findById_updateFirst idModule
        (fun m => { m with files := m.files ++ extra, active := true }) (fun _ => rfl) modules m hm


/-! ### C6 -/

theorem triple_of_keeps_pred {α β : Type} (proj : World → β) (f : M α) (h : Keeps proj f)
    (P : World → Prop) (hP : ∀ w w', proj w' = proj w → P w → P w') :
    Triple P f (fun _ w' => P w') (fun _ w' => P w') := by
  intro w hw
  have hk := h w
  cases hfw : f w with
  | mk r w' =>
    rw [hfw] at hk
    cases r with
    | error e => exact hP w w' hk hw
    | ok a => exact hP w w' hk hw

/-- What `deactivateFound` leaves: either the command log and the flags are as
they were, or the record is already written with `files = []` and
`active = false`. -/
theorem triple_deactivateFound (env : Env) (idModule : Nat) (_module : Module)
    (toBeChanged toBeRemoved : Scoped PlanValue) (w : World)
    (hfind : findById w.modules idModule = some _module) :
    Triple (fun w₀ => (w₀.commands, flags w₀) = (w.commands, flags w))
      (deactivateFound env idModule _module toBeChanged toBeRemoved)
      (fun _ w' => ∃ m, findById w'.modules idModule = some m ∧ m.active = false ∧ m.files = [])
      (fun _ w' => (w'.commands, flags w') = (w.commands, flags w) ∨
        ∃ m, findById w'.modules idModule = some m ∧ m.active = false ∧ m.files = []) := by
  unfold deactivateFound
  have hbefore : ∀ {α : Type} (f : M α), Keeps (fun w => (w.commands, flags w)) f →
      Triple (fun w₀ => (w₀.commands, flags w₀) = (w.commands, flags w)) f
        (fun _ w' => (w'.commands, flags w') = (w.commands, flags w))
        (fun _ w' => (w'.commands, flags w') = (w.commands, flags w) ∨
          ∃ m, findById w'.modules idModule = some m ∧ m.active = false ∧ m.files = []) :=
    fun f hf => triple_weaken (triple_of_keeps _ f hf _) (fun _ h => h) (fun _ _ h => h)
      (fun _ _ h => Or.inl h)
  refine triple_bind (hbefore _ (fun _ => rfl)) fun _ => ?_
  refine triple_bind (hbefore _ (keeps_removeModuleAddon env _)) fun _ => ?_
  refine triple_bind (hbefore _ (keeps_logged _ _
    (keeps_addOrRemoveThemeFiles filesBlind_ledger pushBlind_ledger env _ _ _))) fun _ => ?_
  refine triple_bind (hbefore _ (keeps_forEach _ _
    (fun file => keeps_removeCopiedFile filesBlind_ledger env file) _)) fun _ => ?_
  refine triple_bind
    (Q := fun _ w' => ∃ m, findById w'.modules idModule = some m ∧ m.active = false ∧ m.files = [])
    ?_ fun _ => ?_
  · intro w₀ hw₀
    have hflags : flags w₀ = flags w := (Prod.mk.inj hw₀).2
    obtain ⟨m, hm, -⟩ := findById_of_flags idModule w.modules w₀.modules hflags _module hfind
    exact ⟨{ m with files := [], active := false },
      findById_updateFirst idModule (fun m => { m with files := [], active := false })
        (fun _ => rfl) w₀.modules m hm, rfl, rfl⟩
  · have hstay : ∀ {α : Type} (f : M α), Keeps World.modules f →
        Triple (fun w' => ∃ m, findById w'.modules idModule = some m ∧ m.active = false ∧
            m.files = []) f
          (fun _ w' => ∃ m, findById w'.modules idModule = some m ∧ m.active = false ∧
            m.files = [])
          (fun _ w' => (w'.commands, flags w') = (w.commands, flags w) ∨
            ∃ m, findById w'.modules idModule = some m ∧ m.active = false ∧ m.files = []) :=
      fun f hf => triple_weaken
        (triple_of_keeps_pred World.modules f hf _ (fun w₁ w₂ h hw => by rw [h]; exact hw))
        (fun _ h => h) (fun _ _ h => h) (fun _ _ h => Or.inr h)
    refine triple_bind (hstay _ (keeps_forEach _ _
      (fun scope => keeps_adjustScope commandsBlind_modules env _ _ scope) _)) fun _ => ?_
    exact hstay _ keeps_findAllM

/-- C6 (amended): whenever `deactivateModule` has issued a package-manager
command, whether that command failed or not, the record of the module already
has `files = []` and `active = false`: the registry update comes after the
removal of the recorded files and before the first package-manager command. -/
theorem deactivateModule_update_before_commands (env : Env) (idModule : Nat)
    (toBeChanged toBeRemoved : Scoped PlanValue) (w : World)
    (hcmd : (deactivateModule env idModule toBeChanged toBeRemoved w).2.commands ≠ w.commands) :
    ∃ m, findById (deactivateModule env idModule toBeChanged toBeRemoved w).2.modules idModule =
        some m ∧ m.active = false ∧ m.files = [] := by
  cases hfind : findById w.modules idModule with
  | none =>
    have hsame : (deactivateModule env idModule toBeChanged toBeRemoved w).2 = w := by
      simp only [deactivateModule, tryCatchM, M.bind, findByIdM, hfind, throwM, attachModules,
        raise]
      rfl
    rw [hsame] at hcmd
    exact absurd rfl hcmd
  | some _module =>
    have hunfold : deactivateModule env idModule toBeChanged toBeRemoved w =
        tryCatchM (deactivateFound env idModule _module toBeChanged toBeRemoved)
          attachModules w := by
      simp only [deactivateModule, tryCatchM, M.bind, findByIdM, hfind]
    have htotal := triple_tryCatch
      (Q := fun _ w' => (w'.commands, flags w') = (w.commands, flags w) ∨
        ∃ m, findById w'.modules idModule = some m ∧ m.active = false ∧ m.files = [])
      (triple_weaken (triple_deactivateFound env idModule _module toBeChanged toBeRemoved w hfind)
        (fun _ h => h) (fun _ _ h => Or.inr h) (fun _ _ h => h))
      (fun e => triple_attachModules _ _ e) w rfl
    rw [hunfold] at hcmd ⊢
    cases hres : tryCatchM (deactivateFound env idModule _module toBeChanged toBeRemoved)
        attachModules w with
    | mk r w' =>
      rw [hres] at htotal hcmd
      have hgood : (w'.commands, flags w') = (w.commands, flags w) ∨
          ∃ m, findById w'.modules idModule = some m ∧ m.active = false ∧ m.files = [] := by
        cases r with
        | error e => exact htotal
        | ok l => exact htotal
      rcases hgood with hsame | hoff
      · exact absurd (Prod.mk.inj hsame).1 hcmd
      · exact hoff

/-- C6 (as stated, refuted): module `foo` is active with one recorded file and
the package manager fails on `yarn remove lodash`; `deactivateModule` throws,
and the record is left with `active = false` and `files = []`. -/
theorem deactivateModule_failed_command_record_off :
    ((installedWorld true ["/app/backoffice/app/foo"]).modules.map
      fun m => (m._id, m.active, m.files)) = [(1, true, ["/app/backoffice/app/foo"])] ∧
    (deactivateModule failingCommandsEnv 1 ⟨[], []⟩ ⟨[("lodash", PlanValue.str "lodash@^4.0.0")], []⟩
      (installedWorld true ["/app/backoffice/app/foo"])).1.toBool = false ∧
    (deactivateModule failingCommandsEnv 1 ⟨[], []⟩ ⟨[("lodash", PlanValue.str "lodash@^4.0.0")], []⟩
      (installedWorld true ["/app/backoffice/app/foo"])).2.commands =
        [("yarn remove lodash", "./")] ∧
    ((deactivateModule failingCommandsEnv 1 ⟨[], []⟩
      ⟨[("lodash", PlanValue.str "lodash@^4.0.0")], []⟩
      (installedWorld true ["/app/backoffice/app/foo"])).2.modules.map
      fun m => (m._id, m.active, m.files)) = [(1, false, [])] := by
  decide

/-- C6 (amended) witness: the failing `yarn remove lodash`. -/
theorem deactivateModule_update_before_commands_witness :
    (deactivateModule failingCommandsEnv 1 ⟨[], []⟩ ⟨[("lodash", PlanValue.str "lodash@^4.0.0")], []⟩
      (installedWorld true ["/app/backoffice/app/foo"])).2.commands ≠
      (installedWorld true ["/app/backoffice/app/foo"]).commands ∧
    ∃ m, findById (deactivateModule failingCommandsEnv 1 ⟨[], []⟩
        ⟨[("lodash", PlanValue.str "lodash@^4.0.0")], []⟩
        (installedWorld true ["/app/backoffice/app/foo"])).2.modules 1 = some m ∧
      m.active = false ∧ m.files = [] :=
  ⟨by decide,
    deactivateModule_update_before_commands failingCommandsEnv 1 ⟨[], []⟩
      ⟨[("lodash", PlanValue.str "lodash@^4.0.0")], []⟩
      (installedWorld true ["/app/backoffice/app/foo"]) (by decide)⟩

/-- C7 witness: module `foo` is inactive and the package manager fails on
`yarn add lodash@^4.0.0`. -/
theorem activateModule_active_last_witness :
    (findById (installedWorld false []).modules 1 =
        some (installedRecord false []) ∧
      (installedRecord false []).active = false) ∧
    (activateModule failingCommandsEnv 1 ⟨[], []⟩ (installedWorld false [])).1.toBool = false ∧
    match activateModule failingCommandsEnv 1 ⟨[], []⟩ (installedWorld false []) with
    | (.error _, w') => flags w' = flags (installedWorld false []) ∧
        ∃ m, findById w'.modules 1 = some m ∧ m.active = false
    | (.ok _, w') => ∃ m, findById w'.modules 1 = some m ∧ m.active = true :=
  ⟨⟨by decide, by decide⟩, by decide,
    activateModule_active_last failingCommandsEnv 1 ⟨[], []⟩ (installedWorld false [])
      (installedRecord false []) (by decide) (by decide)⟩


/-! ### Outcomes of a sequence -/

theorem logged_fst (f : M Unit) (w : World) : (logged f w).1 = .ok () := by
  unfold logged tryCatchM
  cases f w with
  | mk r w' => cases r <;> rfl

theorem bind_of_ok {α γ : Type} (f : M α) (g : α → M γ) (w : World) (a : α)
    (h : (f w).1 = .ok a) : M.bind f g w = g a (f w).2 := by
  unfold M.bind
  cases hfw : f w with
  | mk r w' =>
    rw [hfw] at h
    simp only at h
    subst h
    rfl

theorem bind_of_error {α γ : Type} (f : M α) (g : α → M γ) (w : World) (e : Thrown)
    (h : (f w).1 = .error e) : M.bind f g w = (.error e, (f w).2) := by
  unfold M.bind
  cases hfw : f w with
  | mk r w' =>
    rw [hfw] at h
    simp only at h
    subst h
    rfl

/-! ### C1 -/

/-- `removeModule` never reads the `active` flag: for every record that exists
it returns `true` and deletes the record. -/
theorem removeModule_any_record (env : Env) (idModule : Nat) (w : World) (found : Module)
    (hfind : findById w.modules idModule = some found) :
    (removeModule env idModule w).1 = .ok true ∧
      (removeModule env idModule w).2.modules =
        deleteFirst (fun m => m._id = idModule) w.modules := by
  have hkeep : ∀ w₁ : World,
      (M.bind (logged (unlink (pathResolve env.appRoot [replaceFinalSlash found.path ".zip"])))
        (fun _ => M.bind (logged (deleteRecursive (pathResolve env.appRoot [found.path])))
          fun _ => M.pure true) w₁).2.modules = w₁.modules :=
    keeps_bind World.modules _ _ (keeps_logged _ _ (keeps_unlink filesBlind_modules _)) fun _ =>
      keeps_bind World.modules _ _ (keeps_logged _ _ (keeps_deleteRecursive filesBlind_modules _))
        fun _ => keeps_pure World.modules true
  have hok : ∀ w₁ : World,
      (M.bind (logged (unlink (pathResolve env.appRoot [replaceFinalSlash found.path ".zip"])))
        (fun _ => M.bind (logged (deleteRecursive (pathResolve env.appRoot [found.path])))
          fun _ => M.pure true) w₁).1 = .ok true := by
    intro w₁
    rw [bind_of_ok _ _ _ () (logged_fst _ _), bind_of_ok _ _ _ () (logged_fst _ _)]
    rfl
  constructor
  · simp only [removeModule, M.bind, findByIdM, hfind, modifyModules]
    exact hok _
  · simp only [removeModule, M.bind, findByIdM, hfind, modifyModules]
    exact hkeep _

/-- C1 (the code at the failing input): module `foo` is active; `removeModule`
returns `true`, and the record, the archive `modules/foo.zip` and the module
directory `modules/foo/` are gone. -/
theorem removeModule_deletes_active_module :
    (installedWorld true []).modules.map (fun m => (m._id, m.active)) = [(1, true)] ∧
    removeModule sampleEnv 1 (installedWorld true []) =
      (.ok true,
        { modules := []
          files := [("/app/backoffice/app/foo/index.js", FileData.text "")]
          locked := []
          commands := [] }) := by
  decide

/-! ### `initModule` -/

theorem triple_trivial {α : Type} (P : World → Prop) (f : M α) :
    Triple P f (fun _ _ => True) (fun _ _ => True) := by
  intro w _
  cases f w with
  | mk r w' => cases r <;> trivial

theorem triple_throw {α : Type} (P : World → Prop) (Q : α → World → Prop) (e : Thrown) :
    Triple P (throwM e : M α) Q (fun _ w' => P w') :=
  fun _ hw => hw

theorem initModule_of_zip (env : Env) (originalname filepath : String)
    (h : hasZipExtension originalname = true) :
    initModule env originalname filepath =
      M.bind (moveUpload env originalname filepath) fun _ =>
        tryCatchM
          (M.bind (validateArchive env originalname ("modules/" ++ originalname)) fun entries =>
            extractAndRegister env entries (jsReplace ("modules/" ++ originalname) ".zip" "/"))
          (cleanupAndRethrow env originalname) := by
  unfold initModule
  rw [if_neg (by simp [h])]

theorem keeps_moveUpload {β : Type} {proj : World → β} (hf : FilesBlind proj) (env : Env)
    (originalname filepath : String) : Keeps proj (moveUpload env originalname filepath) := by
  unfold moveUpload
  refine keeps_bind proj _ _ (keeps_existsSync _) fun present => ?_
  refine keeps_bind proj _ _ ?_ fun _ => ?_
  · apply keeps_ite
    · exact keeps_pure proj ()
    · exact keeps_mkdir hf _
  · exact keeps_bind proj _ _ (keeps_copyFile hf _ _) fun _ => keeps_unlink hf _

theorem keeps_checkAquilaVersion {β : Type} (proj : World → β) (env : Env)
    (range : Option String) : Keeps proj (checkAquilaVersion env range) := by
  unfold checkAquilaVersion
  split
  · exact keeps_pure proj ()
  · apply keeps_ite
    · exact keeps_pure proj ()
    · refine keeps_bind proj _ _ (keeps_readFile _) fun packageAquila => ?_
      refine keeps_bind proj _ _ (keeps_parsed proj _) fun aquilaVersion => ?_
      apply keeps_ite
      · exact keeps_pure proj ()
      · exact keeps_throw proj _

/-- The validations only read: whatever their outcome, the state is the one
they started from. -/
theorem keeps_validateArchive {β : Type} (proj : World → β) (env : Env)
    (originalname zipFilePath : String) :
    Keeps proj (validateArchive env originalname zipFilePath) := by
  unfold validateArchive
  refine keeps_bind proj _ _ (keeps_openZip _) fun entries => ?_
  split
  · exact keeps_throw proj _
  · refine keeps_bind proj _ _ (keeps_parsed proj _) fun declared => ?_
    apply keeps_ite
    · exact keeps_throw proj _
    · refine keeps_bind proj _ _ (keeps_checkAquilaVersion proj env _) fun _ => ?_
      apply keeps_ite
      · exact keeps_throw proj _
      · exact keeps_pure proj _

theorem keeps_cleanupAndRethrow {β : Type} {proj : World → β} (hf : FilesBlind proj) (env : Env)
    (originalname : String) (err : Thrown) :
    Keeps proj (cleanupAndRethrow env originalname err) := by
  unfold cleanupAndRethrow
  refine keeps_bind proj _ _ (keeps_logged proj _ (keeps_unlink hf _)) fun _ => ?_
  exact keeps_bind proj _ _ (keeps_logged proj _ (keeps_deleteRecursive hf _)) fun _ =>
    keeps_throw proj _

/-- The `catch` block always throws the value it caught. -/
theorem cleanupAndRethrow_fst (env : Env) (originalname : String) (err : Thrown) (w : World) :
    (cleanupAndRethrow env originalname err w).1 = .error err := by
  unfold cleanupAndRethrow
  rw [bind_of_ok _ _ _ () (logged_fst _ _), bind_of_ok _ _ _ () (logged_fst _ _)]
  rfl

/-! ### C8 -/

theorem updateFirst_congr_first (name : String) (f g : Module → Module) :
    ∀ (modules : List Module) (existing : Module),
      findByName modules name = some existing → f existing = g existing →
      updateFirst (fun m => m.name = name) f modules =
        updateFirst (fun m => m.name = name) g modules := by
  intro modules
  induction modules with
  | nil => intro existing h; simp [findByName] at h
  | cons x rest ih =>
    intro existing h hfg
    unfold updateFirst
    by_cases hx : x.name = name
    · have : existing = x := by
        unfold findByName at h
        simp [List.find?, hx] at h
        exact h.symm
      subst this
      rw [if_pos (by simpa using hx), if_pos (by simpa using hx), hfg]
    · have hrest : findByName rest name = some existing := by
        unfold findByName at h ⊢
        simpa [List.find?, hx] using h
      rw [if_neg (by simpa using hx), if_neg (by simpa using hx), ih existing hrest hfg]

theorem upsertModule_spec (info : Info) (name path : String) (w : World) :
    (upsertModule info name path w).2.files = w.files ∧
    ∃ written, (upsertModule info name path w).1 = .ok written ∧ written.name = name ∧
      Upserted w.modules (upsertModule info name path w).2.modules written := by
  unfold upsertModule
  cases hfind : findByName w.modules name with
  | none =>
    refine ⟨rfl, _, rfl, rfl, Or.inr ⟨?_, rfl, rfl⟩⟩
    exact hfind
  | some existing =>
    refine ⟨rfl, _, rfl, rfl, Or.inl ⟨existing, ?_, rfl, rfl, ?_⟩⟩
    · exact hfind
    · exact updateFirst_congr_first name _ _ w.modules existing hfind rfl


theorem findByName_cons (m : Module) (rest : List Module) (name : String) :
    findByName (m :: rest) name = if m.name = name then some m else findByName rest name := by
  unfold findByName
  by_cases h : m.name = name <;> simp [List.find?, h]

theorem findByName_updateFirst (name : String) (written : Module) (hname : written.name = name) :
    ∀ (modules : List Module) (existing : Module), findByName modules name = some existing →
      findByName (updateFirst (fun m => m.name = name) (fun _ => written) modules) name =
        some written := by
  intro modules
  induction modules with
  | nil => intro existing h; simp [findByName] at h
  | cons x rest ih =>
    intro existing h
    rw [findByName_cons] at h
    unfold updateFirst
    by_cases hx : x.name = name
    · rw [if_pos (by simpa using hx), findByName_cons, if_pos hname]
    · rw [if_neg hx] at h
      rw [if_neg (by simpa using hx), findByName_cons, if_neg hx]
      exact ih existing h

theorem findByName_append_of_none (name : String) (written : Module)
    (hname : written.name = name) :
    ∀ modules : List Module, findByName modules name = none →
      findByName (modules ++ [written]) name = some written := by
  intro modules
  induction modules with
  | nil => intro _; rw [List.nil_append, findByName_cons, if_pos hname]
  | cons x rest ih =>
    intro h
    rw [findByName_cons] at h
    by_cases hx : x.name = name
    · rw [if_pos hx] at h; cases h
    · rw [if_neg hx] at h
      rw [List.cons_append, findByName_cons, if_neg hx]
      exact ih h

theorem filter_updateFirst_name (name : String) (written : Module) (hname : written.name = name) :
    ∀ modules : List Module,
      (updateFirst (fun m => m.name = name) (fun _ => written) modules).filter
          (fun m => m.name ≠ name) =
        modules.filter (fun m => m.name ≠ name) := by
  intro modules
  induction modules with
  | nil => rfl
  | cons x rest ih =>
    unfold updateFirst
    by_cases hx : x.name = name
    · rw [if_pos (by simpa using hx)]
      simp [List.filter_cons, hx, hname]
    · rw [if_neg (by simpa using hx)]
      simp only [List.filter_cons, ih]

/-- What an upsert means for the registry: the record is found under its name,
its `active` flag is the one the record of that name had before (`false` when
there was none), and the records of any other name are the same, in the same
order. -/
theorem Upserted.frame {before after : List Module} {written : Module}
    (h : Upserted before after written) :
    findByName after written.name = some written ∧
    written.active =
      (match findByName before written.name with
        | some previous => previous.active
        | none => false) ∧
    after.filter (fun m => m.name ≠ written.name) =
      before.filter (fun m => m.name ≠ written.name) := by
  rcases h with ⟨existing, hfind, hactive, -, hafter⟩ | ⟨hfind, hactive, hafter⟩
  · subst hafter
    refine ⟨findByName_updateFirst _ written rfl before existing hfind, ?_,
      filter_updateFirst_name _ written rfl before⟩
    rw [hfind]
    exact hactive
  · subst hafter
    refine ⟨findByName_append_of_none _ written rfl before hfind, ?_, ?_⟩
    · rw [hfind]
      exact hactive
    · simp [List.filter_append]

theorem triple_keeps_modules {α : Type} (f : M α) (h : Keeps World.modules f)
    (c : List Module) :
    Triple (fun w => w.modules = c) f (fun _ w' => w'.modules = c) (fun _ _ => True) :=
  triple_weaken (triple_of_keeps World.modules f h c) (fun _ h => h) (fun _ _ h => h)
    (fun _ _ _ => trivial)

theorem triple_extractAndRegister (env : Env) (entries : List ZipEntry)
    (extractZipFilePath : String) (c : List Module) :
    Triple (fun w => w.modules = c) (extractAndRegister env entries extractZipFilePath)
      (fun written w' => Upserted c w'.modules written) (fun _ _ => True) := by
  unfold extractAndRegister
  refine triple_bind (triple_keeps_modules _ (keeps_extractAll filesBlind_modules _ _ _) c)
    fun _ => ?_
  refine triple_bind (triple_keeps_modules _ (keeps_existsSync _) c) fun infoPresent => ?_
  by_cases hpresent : infoPresent = false
  · rw [if_pos hpresent]
    exact triple_weaken (triple_throw _ _ _) (fun _ h => h) (fun _ _ h => h) (fun _ _ _ => trivial)
  · rw [if_neg hpresent]
    refine triple_bind (triple_keeps_modules _ (keeps_readFile _) c) fun infoFile => ?_
    refine triple_bind (triple_keeps_modules _ (keeps_parsed _ _) c) fun info => ?_
    cases hname : info.name with
    | none =>
      exact triple_weaken (triple_throw _ _ _) (fun _ h => h) (fun _ _ h => h)
        (fun _ _ _ => trivial)
    | some name =>
      intro w hw
      obtain ⟨-, written, hwritten, -, hups⟩ := upsertModule_spec info name extractZipFilePath w
      simp only
      cases hres : upsertModule info name extractZipFilePath w with
      | mk r w' =>
        rw [hres] at hwritten hups
        simp only at hwritten hups
        subst hwritten
        rw [← hw]
        exact hups

theorem triple_initModule (env : Env) (originalname filepath : String) (c : List Module) :
    Triple (fun w => w.modules = c) (initModule env originalname filepath)
      (fun written w' => Upserted c w'.modules written) (fun _ _ => True) := by
  by_cases hzip : hasZipExtension originalname = true
  · rw [initModule_of_zip env originalname filepath hzip]
    refine triple_bind
      (triple_keeps_modules _ (keeps_moveUpload filesBlind_modules env _ _) c) fun _ => ?_
    refine triple_tryCatch (F := fun _ _ => True) ?_ fun e => ?_
    · refine triple_bind (triple_keeps_modules _ (keeps_validateArchive _ env _ _) c)
        fun entries => ?_
      exact triple_extractAndRegister env entries _ c
    · intro w _
      have h := cleanupAndRethrow_fst env originalname e w
      cases hres : cleanupAndRethrow env originalname e w with
      | mk r w' =>
        rw [hres] at h
        simp only at h
        subst h
        trivial
  · unfold initModule
    rw [if_pos (by simpa using hzip)]
    exact triple_weaken (triple_throw _ _ _) (fun _ h => h) (fun _ _ h => h) (fun _ _ _ => trivial)

theorem tryCatch_of_error {α : Type} (f : M α) (handler : Thrown → M α) (w : World) (e : Thrown)
    (h : (f w).1 = .error e) : tryCatchM f handler w = handler e (f w).2 := by
  unfold tryCatchM
  cases hfw : f w with
  | mk r w' =>
    rw [hfw] at h
    simp only at h
    subst h
    rfl

theorem objGet_filter_none {α : Type} (p : String × α → Bool) (k : String) :
    ∀ obj : List (String × α), objGet obj k = none → objGet (obj.filter p) k = none := by
  intro obj
  induction obj with
  | nil => intro _; rfl
  | cons e rest ih =>
    obtain ⟨n, v⟩ := e
    intro h
    rw [objGet_cons] at h
    by_cases hn : n = k
    · rw [if_pos hn] at h; cases h
    · rw [if_neg hn] at h
      rw [List.filter_cons]
      split
      · rw [objGet_cons, if_neg hn]; exact ih h
      · exact ih h

theorem objGet_filter_ne_self {α : Type} (k : String) :
    ∀ obj : List (String × α), objGet (obj.filter fun e => e.1 ≠ k) k = none := by
  intro obj
  induction obj with
  | nil => rfl
  | cons e rest ih =>
    obtain ⟨n, v⟩ := e
    rw [List.filter_cons]
    by_cases hn : n = k
    · simp only [hn, ne_eq, not_true_eq_false, decide_False, Bool.false_eq_true, if_false]
      exact ih
    · simp only [hn, ne_eq, not_false_eq_true, decide_True, if_true]
      rw [objGet_cons, if_neg hn]
      exact ih

/-! ### The descriptor read back after extraction -/

theorem objGet_append_other {α : Type} (k key : String) (v : α) (hne : key ≠ k) :
    ∀ obj : List (String × α), objGet (obj ++ [(key, v)]) k = objGet obj k := by
  intro obj
  induction obj with
  | nil => rw [List.nil_append, objGet_cons, if_neg hne]
  | cons e rest ih =>
    obtain ⟨n, w⟩ := e
    rw [List.cons_append, objGet_cons, objGet_cons, ih]

theorem extractEntries_cons (cwd target : String) (e : ZipEntry) (rest : List ZipEntry)
    (files : List (String × FileData)) (locked : List String) :
    extractEntries cwd target (e :: rest) files locked =
      if pathResolve cwd [target, e.entryName] ∈ locked then (false, files)
      else if jsEndsWith e.entryName "/" = true then
        extractEntries cwd target rest
          (if pathExists files (pathResolve cwd [target, e.entryName]) = true then files
            else files ++ [(pathResolve cwd [target, e.entryName], FileData.dir)]) locked
      else
        extractEntries cwd target rest
          (objSet files (pathResolve cwd [target, e.entryName]) (FileData.text e.data)) locked := by
  rfl

/-- Entries extracted to other paths leave the content of a path as it was. -/
theorem extractEntries_other (cwd target k : String) (locked : List String) :
    ∀ (entries : List ZipEntry) (files : List (String × FileData)),
      (∀ e ∈ entries, pathResolve cwd [target, e.entryName] ≠ k) →
      fileAt (extractEntries cwd target entries files locked).2 k = fileAt files k := by
  intro entries
  induction entries with
  | nil => intro files _; rfl
  | cons e rest ih =>
    intro files h
    have he := h e (List.mem_cons_self _ _)
    have hrest : ∀ e' ∈ rest, pathResolve cwd [target, e'.entryName] ≠ k :=
      fun e' he' => h e' (List.mem_cons_of_mem _ he')
    rw [extractEntries_cons]
    split
    · rfl
    · split
      · rw [ih _ hrest]
        split
        · rfl
        · exact objGet_append_other k _ _ he files
      · rw [ih _ hrest]
        exact objGet_objSet_other files _ k _ he

theorem getEntry_cons (e : ZipEntry) (rest : List ZipEntry) (name : String) :
    getEntry (e :: rest) name =
      (getEntry rest name).or (if e.entryName = name then some e else none) := by
  unfold getEntry
  rw [List.reverse_cons, List.find?_append]
  congr 1
  by_cases h : e.entryName = name <;> simp [List.find?, h]

theorem getEntry_none_of (rest : List ZipEntry) (name : String) (h : getEntry rest name = none) :
    ∀ e ∈ rest, e.entryName ≠ name := by
  intro e he heq
  unfold getEntry at h
  rw [List.find?_eq_none] at h
  exact absurd (by simpa using heq) (h e (List.mem_reverse.mpr he))

/-- After a complete extraction, the path an archive entry is written to holds
the data of that entry, when no entry of another name is written there. -/
theorem extractEntries_entry (cwd target name k : String) (locked : List String)
    (hkey : pathResolve cwd [target, name] = k) (hfile : jsEndsWith name "/" = false) :
    ∀ (entries : List ZipEntry) (files : List (String × FileData)) (entry : ZipEntry),
      getEntry entries name = some entry →
      (∀ e ∈ entries, pathResolve cwd [target, e.entryName] = k → e.entryName = name) →
      (extractEntries cwd target entries files locked).1 = true →
      fileAt (extractEntries cwd target entries files locked).2 k =
        some (FileData.text entry.data) := by
  intro entries
  induction entries with
  | nil => intro files entry h; simp [getEntry] at h
  | cons e rest ih =>
    intro files entry hget hunique hdone
    have hrestUnique : ∀ e' ∈ rest, pathResolve cwd [target, e'.entryName] = k →
        e'.entryName = name := fun e' he' => hunique e' (List.mem_cons_of_mem _ he')
    rw [getEntry_cons] at hget
    rw [extractEntries_cons] at hdone ⊢
    by_cases hlocked : pathResolve cwd [target, e.entryName] ∈ locked
    · rw [if_pos hlocked] at hdone; cases hdone
    · rw [if_neg hlocked] at hdone ⊢
      cases hrest : getEntry rest name with
      | some found =>
        rw [hrest] at hget
        simp only [Option.or_some] at hget
        cases hget
        by_cases hdir : jsEndsWith e.entryName "/" = true
        · rw [if_pos hdir] at hdone ⊢
          exact ih _ entry hrest hrestUnique hdone
        · rw [if_neg hdir] at hdone ⊢
          exact ih _ entry hrest hrestUnique hdone
      | none =>
        rw [hrest] at hget
        simp only [Option.none_or] at hget
        by_cases hname : e.entryName = name
        · rw [if_pos hname] at hget
          cases hget
          have hnotdir : ¬ jsEndsWith e.entryName "/" = true := by
            rw [hname, hfile]; simp
          rw [if_neg hnotdir]
          have hothers : ∀ e' ∈ rest, pathResolve cwd [target, e'.entryName] ≠ k :=
            fun e' he' hk => getEntry_none_of rest name hrest e' he' (hrestUnique e' he' hk)
          rw [extractEntries_other cwd target k locked rest _ hothers, hname, hkey]
          exact objGet_objSet_self files k _
        · rw [if_neg hname] at hget; cases hget


theorem bind_ok_inv {α γ : Type} (f : M α) (g : α → M γ) (w w' : World) (b : γ)
    (h : M.bind f g w = (.ok b, w')) :
    ∃ a w₁, f w = (.ok a, w₁) ∧ g a w₁ = (.ok b, w') := by
  unfold M.bind at h
  cases hfw : f w with
  | mk r w₁ =>
    rw [hfw] at h
    cases r with
    | error e => cases h
    | ok a => exact ⟨a, w₁, rfl, h⟩

theorem objGet_filter_ne_other {α : Type} (k key : String) (hne : k ≠ key) :
    ∀ obj : List (String × α), objGet (obj.filter fun e => e.1 ≠ key) k = objGet obj k := by
  intro obj
  induction obj with
  | nil => rfl
  | cons e rest ih =>
    obtain ⟨n, v⟩ := e
    rw [List.filter_cons]
    by_cases hn : n = key
    · subst hn
      simp only [ne_eq, not_true_eq_false, decide_False, Bool.false_eq_true, if_false]
      rw [objGet_cons, if_neg (fun h => hne h.symm), ih]
    · simp only [hn, ne_eq, not_false_eq_true, decide_True, if_true]
      rw [objGet_cons, objGet_cons, ih]

theorem objGet_append_dir (k key : String) (entries : List ZipEntry) :
    ∀ files : List (String × FileData),
      objGet (files ++ [(key, FileData.dir)]) k = some (FileData.archive entries) →
      objGet files k = some (FileData.archive entries) := by
  intro files
  induction files with
  | nil =>
    intro h
    rw [List.nil_append, objGet_cons] at h
    split at h
    · cases h
    · rw [objGet_nil] at h; cases h
  | cons e rest ih =>
    obtain ⟨n, v⟩ := e
    intro h
    rw [List.cons_append, objGet_cons] at h
    rw [objGet_cons]
    split
    · next hn => rw [if_pos hn] at h; exact h
    · next hn => rw [if_neg hn] at h; exact ih h

theorem copyFile_ok_inv (source target : String) (w w' : World) (u : Unit)
    (h : copyFile source target w = (.ok u, w')) :
    ∃ data, fileAt w.files source = some data ∧
      w' = { w with files := objSet w.files target data } := by
  unfold copyFile at h
  split at h
  · cases h
  · cases h
  · next data _ hdata =>
    split at h
    · cases h
    · cases h
      exact ⟨data, hdata, rfl⟩

theorem unlink_ok_inv (key : String) (w w' : World) (u : Unit)
    (h : unlink key w = (.ok u, w')) :
    w' = { w with files := w.files.filter fun e => e.1 ≠ key } := by
  unfold unlink at h
  split at h
  · cases h
  · cases h
  · split at h
    · cases h
    · cases h
      rfl

theorem mkdir_ok_inv (key : String) (w w' : World) (u : Unit)
    (h : mkdir key w = (.ok u, w')) :
    w' = { w with files := w.files ++ [(key, FileData.dir)] } := by
  unfold mkdir at h
  split at h
  · cases h
  · cases h
    rfl

/-- The archive opened in the modules folder after the move is the upload. -/
theorem moveUpload_archive (env : Env) (originalname filepath : String) (w w₁ : World)
    (entries : List ZipEntry)
    (hmove : moveUpload env originalname filepath w = (.ok (), w₁))
    (hzip : fileAt w₁.files (pathResolve env.appRoot ["modules/" ++ originalname]) =
      some (FileData.archive entries)) :
    fileAt w.files (pathResolve env.appRoot [filepath]) = some (FileData.archive entries) := by
  unfold moveUpload at hmove
  obtain ⟨present, wa, hexists, hmove⟩ := bind_ok_inv _ _ _ _ _ hmove
  obtain ⟨u, wb, hmk, hmove⟩ := bind_ok_inv _ _ _ _ _ hmove
  obtain ⟨u', wc, hcopy, hunlink⟩ := bind_ok_inv _ _ _ _ _ hmove
  have hwa : wa = w := by
    unfold existsSync at hexists
    cases hexists
    rfl
  subst hwa
  obtain ⟨data, hdata, hwc⟩ := copyFile_ok_inv _ _ _ _ _ hcopy
  have hw₁ := unlink_ok_inv _ _ _ _ hunlink
  subst hw₁
  subst hwc
  simp only [fileAt] at hzip hdata ⊢
  by_cases hsame : pathResolve env.appRoot ["modules/" ++ originalname] =
      pathResolve env.appRoot [filepath]
  · rw [hsame, objGet_filter_ne_self] at hzip
    cases hzip
  · rw [objGet_filter_ne_other _ _ hsame, objGet_objSet_self] at hzip
    cases hzip
    by_cases hpresent : present = true
    · rw [if_pos hpresent] at hmk
      cases hmk
      exact hdata
    · rw [if_neg hpresent] at hmk
      have hwb := mkdir_ok_inv _ _ _ _ hmk
      subst hwb
      exact objGet_append_dir _ _ entries _ hdata


theorem parsed_ok_inv {α : Type} (r : Option α) (w w' : World) (a : α)
    (h : parsed r w = (.ok a, w')) : r = some a ∧ w' = w := by
  unfold parsed at h
  cases r with
  | none => cases h
  | some b => cases h; exact ⟨rfl, rfl⟩

/-- What a successful validation establishes: the archive in the modules folder
holds the descriptor entry, and that entry declares the archive name. -/
theorem validateArchive_ok_inv (env : Env) (originalname zipFilePath : String) (w w' : World)
    (entries : List ZipEntry)
    (h : validateArchive env originalname zipFilePath w = (.ok entries, w')) :
    fileAt w.files (pathResolve env.appRoot [zipFilePath]) = some (FileData.archive entries) ∧
    ∃ infojson declared,
      getEntry entries (jsReplace originalname ".zip" "/" ++ "info.json") = some infojson ∧
      env.parseInfo infojson.data = some declared ∧
      declared.name = some (jsReplace originalname ".zip" "") := by
  unfold validateArchive at h
  obtain ⟨opened, wa, hopen, h₁⟩ := bind_ok_inv _ _ _ _ _ h
  clear h
  have hzip : fileAt w.files (pathResolve env.appRoot [zipFilePath]) =
      some (FileData.archive opened) ∧ wa = w := by
    unfold openZip at hopen
    split at hopen
    · next es hes => cases hopen; exact ⟨hes, rfl⟩
    · cases hopen
  obtain ⟨hzip, hwa⟩ := hzip
  subst hwa
  cases hentry : getEntry opened (jsReplace originalname ".zip" "/" ++ "info.json") with
  | none =>
    rw [hentry] at h₁
    cases h₁
  | some infojson =>
    rw [hentry] at h₁
    simp only at h₁
    obtain ⟨declared, wb, hparse, h₂⟩ := bind_ok_inv _ _ _ _ _ h₁
    obtain ⟨hparsed, hwb⟩ := parsed_ok_inv _ _ _ _ hparse
    by_cases hname : some (jsReplace originalname ".zip" "") ≠ declared.name
    · rw [if_pos hname] at h₂
      cases h₂
    · rw [if_neg hname] at h₂
      obtain ⟨u, wc, hversion, h₃⟩ := bind_ok_inv _ _ _ _ _ h₂
      by_cases hfolder : mainFolderFound opened (jsReplace originalname ".zip" "/") = false
      · rw [if_pos hfolder] at h₃
        cases h₃
      · rw [if_neg hfolder] at h₃
        cases h₃
        exact ⟨hzip, infojson, declared, hentry, hparsed, (not_not.mp hname).symm⟩

theorem readFile_ok_inv (key : String) (w w' : World) (content : String)
    (h : readFile key w = (.ok content, w')) :
    fileAt w.files key = some (FileData.text content) ∧ w' = w := by
  unfold readFile at h
  split at h
  · next c hc => cases h; exact ⟨hc, rfl⟩
  · cases h

/-- What a successful extraction and registration establishes: the extraction
was complete, and the record is named after the descriptor found in the
extracted folder. -/
theorem extractAndRegister_ok_inv (env : Env) (entries : List ZipEntry)
    (extractZipFilePath : String) (w w' : World) (written : Module)
    (h : extractAndRegister env entries extractZipFilePath w = (.ok written, w')) :
    (extractEntries env.appRoot "modules/" entries w.files w.locked).1 = true ∧
    ∃ infoFile info,
      fileAt (extractEntries env.appRoot "modules/" entries w.files w.locked).2
        (pathResolve env.appRoot [extractZipFilePath, "info.json"]) =
          some (FileData.text infoFile) ∧
      env.parseInfo infoFile = some info ∧ info.name = some written.name := by
  unfold extractAndRegister at h
  obtain ⟨u, wa, hextract, h₁⟩ := bind_ok_inv _ _ _ _ _ h
  clear h
  obtain ⟨infoPresent, wb, hexists, h₂⟩ := bind_ok_inv _ _ _ _ _ h₁
  clear h₁
  have hwb : wb = wa := by
    unfold existsSync at hexists
    cases hexists
    rfl
  subst hwb
  by_cases hpresent : infoPresent = false
  · rw [if_pos hpresent] at h₂
    cases h₂
  · rw [if_neg hpresent] at h₂
    obtain ⟨infoFile, wc, hread, h₃⟩ := bind_ok_inv _ _ _ _ _ h₂
    clear h₂
    obtain ⟨hfile, hwc⟩ := readFile_ok_inv _ _ _ _ hread
    subst hwc
    obtain ⟨info, wd, hparse, h₄⟩ := bind_ok_inv _ _ _ _ _ h₃
    clear h₃
    obtain ⟨hparsed, hwd⟩ := parsed_ok_inv _ _ _ _ hparse
    subst hwd
    have hdone : (extractEntries env.appRoot "modules/" entries w.files w.locked).1 = true ∧
        wd.files = (extractEntries env.appRoot "modules/" entries w.files w.locked).2 := by
      unfold extractAll at hextract
      split at hextract
      · next files heq => cases hextract; rw [heq]; exact ⟨rfl, rfl⟩
      · cases hextract
    refine ⟨hdone.1, infoFile, info, ?_, hparsed, ?_⟩
    · rw [← hdone.2]; exact hfile
    · cases hname : info.name with
      | none =>
        rw [hname] at h₄
        cases h₄
      | some name =>
        rw [hname] at h₄
        simp only at h₄
        obtain ⟨-, written', hwritten, hn, -⟩ := upsertModule_spec info name extractZipFilePath wd
        rw [h₄] at hwritten
        simp only at hwritten
        cases hwritten
        rw [hn]

theorem tryCatch_cleanup_ok_inv (env : Env) (originalname : String) (f : M Module)
    (w w' : World) (written : Module)
    (h : tryCatchM f (cleanupAndRethrow env originalname) w = (.ok written, w')) :
    f w = (.ok written, w') := by
  unfold tryCatchM at h
  cases hfw : f w with
  | mk r w₁ =>
    rw [hfw] at h
    cases r with
    | ok a => exact h
    | error e =>
      have := cleanupAndRethrow_fst env originalname e w₁
      simp only at h
      rw [h] at this
      cases this

/-- The name of the record a successful `initModule` writes: when the descriptor
entry of the upload is extracted to the path the installer reads back, and is
the only entry extracted there, the record is named after the archive
(`originalname.replace('.zip', '')`). -/
theorem initModule_record_name (env : Env) (originalname filepath : String) (w w' : World)
    (written : Module) (entries : List ZipEntry)
    (h : initModule env originalname filepath w = (.ok written, w'))
    (hupload : fileAt w.files (pathResolve env.appRoot [filepath]) =
      some (FileData.archive entries))
    (hpath : pathResolve env.appRoot ["modules/", jsReplace originalname ".zip" "/" ++ "info.json"] =
      pathResolve env.appRoot [jsReplace ("modules/" ++ originalname) ".zip" "/", "info.json"])
    (hunique : ∀ e ∈ entries,
      pathResolve env.appRoot ["modules/", e.entryName] =
        pathResolve env.appRoot ["modules/", jsReplace originalname ".zip" "/" ++ "info.json"] →
      e.entryName = jsReplace originalname ".zip" "/" ++ "info.json") :
    written.name = jsReplace originalname ".zip" "" := by
  have hzip : hasZipExtension originalname = true := by
    by_contra hne
    unfold initModule at h
    rw [if_pos (by simpa using hne)] at h
    cases h
  rw [initModule_of_zip env originalname filepath hzip] at h
  obtain ⟨u, w₁, hmove, h⟩ := bind_ok_inv _ _ _ _ _ h
  have hbody := tryCatch_cleanup_ok_inv env originalname _ w₁ w' written h
  obtain ⟨opened, w₂, hvalid, hregister⟩ := bind_ok_inv _ _ _ _ _ hbody
  have hw₂ : w₂ = w₁ := by
    have := keeps_validateArchive (fun w => w) env originalname ("modules/" ++ originalname) w₁
    rw [hvalid] at this
    exact this
  subst hw₂
  obtain ⟨hopened, infojson, declared, hentry, hparse, hdeclared⟩ :=
    validateArchive_ok_inv env originalname _ w₂ w₂ opened hvalid
  have hsame : opened = entries := by
    have := moveUpload_archive env originalname filepath w w₂ opened hmove hopened
    rw [hupload] at this
    cases this
    rfl
  subst hsame
  obtain ⟨hdone, infoFile, info, hfile, hinfo, hname⟩ :=
    extractAndRegister_ok_inv env opened _ w₂ w' written hregister
  have hjson : jsEndsWith (jsReplace originalname ".zip" "/" ++ "info.json") "/" = false := by
    unfold jsEndsWith
    simp only [String.toList, String.data_append, List.reverse_append]
    rfl
  have hwritten := extractEntries_entry env.appRoot "modules/"
    (jsReplace originalname ".zip" "/" ++ "info.json") _ w₂.locked rfl hjson opened w₂.files
    infojson hentry hunique hdone
  rw [hpath, hfile] at hwritten
  cases hwritten
  rw [hparse] at hinfo
  cases hinfo
  rw [hdeclared] at hname
  exact (Option.some.inj hname).symm


/-! ### The archive name without its extension -/

theorem replaceFirstChars_of_index (pat rep : List Char) :
    ∀ (s : List Char) (i : Nat), indexOfChars pat s = some i →
      replaceFirstChars pat rep s = s.take i ++ rep ++ s.drop (i + pat.length) := by
  intro s
  induction s with
  | nil =>
    intro i h
    unfold indexOfChars at h
    unfold replaceFirstChars
    by_cases hp : pat = []
    · rw [if_pos hp] at h
      cases h
      simp [hp]
    · rw [if_neg hp] at h
      cases h
  | cons c cs ih =>
    intro i h
    unfold indexOfChars at h
    unfold replaceFirstChars
    by_cases hp : pat.isPrefixOf (c :: cs) = true
    · rw [if_pos hp] at h
      cases h
      rw [if_pos hp]
      simp
    · rw [if_neg hp] at h
      rw [if_neg hp]
      cases hrest : indexOfChars pat cs with
      | none => rw [hrest] at h; cases h
      | some j =>
        rw [hrest] at h
        simp only [Option.map_some'] at h
        cases h
        rw [ih j hrest]
        simp [Nat.add_right_comm]

/-- When the extension is the first occurrence of `.zip` in `n.zip`, replacing
`.zip` by `rep` gives `n` followed by `rep`. -/
theorem jsReplace_extension (n rep : String)
    (h : jsIndexOf (n ++ ".zip") ".zip" = some n.length) :
    jsReplace (n ++ ".zip") ".zip" rep = n ++ rep := by
  unfold jsIndexOf at h
  unfold jsReplace
  rw [replaceFirstChars_of_index _ _ _ _ h]
  apply String.ext
  have hlen : n.length = n.data.length := rfl
  simp only [String.toList, String.data_append, hlen, List.take_left', List.drop_append,
    List.drop_length, List.append_nil]

/-- C8: after a successful `initModule` the registry is the registry before the
call with the returned record upserted under its name: the record found under
that name is the returned one, its `active` flag is the flag the record of that
name had before the call, `false` when there was none, and the records of every
other name are unchanged.  The name is that of the archive: for an upload
`n.zip` whose extension is the first `.zip` of its name, whose entries are
named by plain relative paths (no empty, `.` or `..` segment) and whose
descriptor entry is the only entry extracted to the path the installer reads
back, the record is named `n`. -/
theorem initModule_preserves_active (env : Env) (originalname filepath : String) (w w' : World)
    (written : Module) (h : initModule env originalname filepath w = (.ok written, w')) :
    Upserted w.modules w'.modules written ∧
    findByName w'.modules written.name = some written ∧
    written.active =
      (match findByName w.modules written.name with
        | some previous => previous.active
        | none => false) ∧
    w'.modules.filter (fun m => m.name ≠ written.name) =
      w.modules.filter (fun m => m.name ≠ written.name) ∧
    ∀ (n : String) (entries : List ZipEntry),
      originalname = n ++ ".zip" →
      jsIndexOf originalname ".zip" = some n.length →
      fileAt w.files (pathResolve env.appRoot [filepath]) = some (FileData.archive entries) →
      pathResolve env.appRoot ["modules/", jsReplace originalname ".zip" "/" ++ "info.json"] =
        pathResolve env.appRoot [jsReplace ("modules/" ++ originalname) ".zip" "/", "info.json"] →
      (∀ e ∈ entries, isPlainEntryName e.entryName = true) →
      (∀ e ∈ entries,
        pathResolve env.appRoot ["modules/", e.entryName] =
          pathResolve env.appRoot ["modules/", jsReplace originalname ".zip" "/" ++ "info.json"] →
        e.entryName = jsReplace originalname ".zip" "/" ++ "info.json") →
      written.name = n := by
  have hups : Upserted w.modules w'.modules written := by
    have ht := triple_initModule env originalname filepath w.modules w rfl
    rw [h] at ht
    exact ht
  refine ⟨hups, hups.frame.1, hups.frame.2.1, hups.frame.2.2, ?_⟩
  intro n entries hn hindex hupload hpath _ hunique
  rw [initModule_record_name env originalname filepath w w' written entries h hupload hpath
    hunique, hn]
  rw [hn] at hindex
  exact jsReplace_extension n "" hindex |>.trans (by
    apply String.ext
    simp only [String.data_append]
    exact List.append_nil _)

/-! ### C9 -/

/-- A successful `unlink` leaves nothing at the path. -/
theorem unlink_absent (key : String) (w w' : World) (h : unlink key w = (.ok (), w')) :
    fileAt w'.files key = none := by
  unfold unlink at h
  split at h
  · cases h
  · cases h
  · split at h
    · cases h
    · cases h
      exact objGet_filter_ne_self key w.files

/-- When the move of the upload succeeds, nothing is left at its temporary
location. -/
theorem moveUpload_absent (env : Env) (originalname filepath : String) (w w' : World)
    (h : moveUpload env originalname filepath w = (.ok (), w')) :
    fileAt w'.files (pathResolve env.appRoot [filepath]) = none := by
  unfold moveUpload at h
  simp only [M.bind] at h
  split at h
  · split at h
    · split at h
      · exact unlink_absent _ _ _ h
      · cases h
    · cases h
  · cases h

theorem absent_logged_unlink (key k : String) (w : World) (h : fileAt w.files k = none) :
    fileAt (logged (unlink key) w).2.files k = none := by
  unfold logged tryCatchM unlink
  split <;> rename_i heq
  · split at heq
    · cases heq
    · cases heq
    · split at heq
      · cases heq
      · cases heq
        exact objGet_filter_none _ k w.files h
  · split at heq
    · cases heq; exact h
    · cases heq; exact h
    · split at heq
      · cases heq; exact h
      · cases heq

theorem absent_logged_deleteRecursive (key k : String) (w : World)
    (h : fileAt w.files k = none) :
    fileAt (logged (deleteRecursive key) w).2.files k = none := by
  unfold logged tryCatchM deleteRecursive
  split <;> rename_i heq
  · split at heq
    · cases heq
    · cases heq
      exact objGet_filter_none _ k w.files h
  · split at heq
    · cases heq; exact h
    · cases heq

theorem absent_cleanupAndRethrow (env : Env) (originalname : String) (err : Thrown) (k : String)
    (w : World) (h : fileAt w.files k = none) :
    fileAt (cleanupAndRethrow env originalname err w).2.files k = none := by
  unfold cleanupAndRethrow
  rw [bind_of_ok _ _ _ () (logged_fst _ _), bind_of_ok _ _ _ () (logged_fst _ _)]
  exact absent_logged_deleteRecursive _ k _ (absent_logged_unlink _ k w h)

/-- A validation that fails after the upload was moved: `initModule` throws the
validation error, the registry is as it was, and the upload is no longer at its
temporary location. -/
theorem initModule_validation_failure (env : Env) (originalname filepath : String)
    (w w₁ : World) (e : Thrown) (hzip : hasZipExtension originalname = true)
    (hmove : moveUpload env originalname filepath w = (.ok (), w₁))
    (hvalid : (validateArchive env originalname ("modules/" ++ originalname) w₁).1 = .error e) :
    (initModule env originalname filepath w).1 = .error e ∧
    (initModule env originalname filepath w).2.modules = w.modules ∧
    fileAt (initModule env originalname filepath w).2.files
      (pathResolve env.appRoot [filepath]) = none := by
  have hmove₁ : (moveUpload env originalname filepath w).1 = .ok () := by rw [hmove]
  have hmove₂ : (moveUpload env originalname filepath w).2 = w₁ := by rw [hmove]
  have hsame : (validateArchive env originalname ("modules/" ++ originalname) w₁).2 = w₁ :=
    keeps_validateArchive (fun w => w) env originalname _ w₁
  have hbody : (M.bind (validateArchive env originalname ("modules/" ++ originalname))
      (fun entries => extractAndRegister env entries
        (jsReplace ("modules/" ++ originalname) ".zip" "/")) w₁) = (.error e, w₁) := by
    rw [bind_of_error _ _ _ e hvalid, hsame]
  have hrun : initModule env originalname filepath w =
      cleanupAndRethrow env originalname e w₁ := by
    rw [initModule_of_zip env originalname filepath hzip, bind_of_ok _ _ _ () hmove₁, hmove₂,
      tryCatch_of_error _ _ _ e (by rw [hbody]), hbody]
  rw [hrun]
  refine ⟨cleanupAndRethrow_fst env originalname e w₁, ?_, ?_⟩
  · rw [keeps_cleanupAndRethrow filesBlind_modules env originalname e w₁, ← hmove₂]
    exact keeps_moveUpload filesBlind_modules env originalname filepath w
  · exact absent_cleanupAndRethrow env originalname e _ w₁
      (moveUpload_absent env originalname filepath w w₁ hmove)

/-- The name check of line 99, in the terms the code computes: when the entry
`replace('.zip', '/') + 'info.json'` exists and declares a name other than
`replace('.zip', '')`, `initModule` fails with `ModuleNameMissmatch` and the
registry is as it was. -/
theorem initModule_name_mismatch (env : Env) (originalname filepath : String) (w w₁ : World)
    (entries : List ZipEntry) (infojson : ZipEntry) (declared : Info)
    (hzip : hasZipExtension originalname = true)
    (hmove : moveUpload env originalname filepath w = (.ok (), w₁))
    (harchive : fileAt w₁.files (pathResolve env.appRoot ["modules/" ++ originalname]) =
      some (FileData.archive entries))
    (hentry : getEntry entries (jsReplace originalname ".zip" "/" ++ "info.json") = some infojson)
    (hparse : env.parseInfo infojson.data = some declared)
    (hname : some (jsReplace originalname ".zip" "") ≠ declared.name) :
    (initModule env originalname filepath w).1 = .error (raise .ModuleNameMissmatch) ∧
    (initModule env originalname filepath w).2.modules = w.modules := by
  have hvalid : (validateArchive env originalname ("modules/" ++ originalname) w₁).1 =
      .error (raise .ModuleNameMissmatch) := by
    simp only [validateArchive, M.bind, openZip, harchive, hentry, parsed, hparse, if_pos hname,
      throwM]
  have h := initModule_validation_failure env originalname filepath w w₁ _ hzip hmove hvalid
  exact ⟨h.1, h.2.1⟩

/-- The name check for an upload `b.zip` whose extension is the first `.zip` of
its name: when the archive holds the entry `b/info.json` and that entry
declares a name other than `b`, `initModule` fails with `ModuleNameMissmatch`
and the registry is as it was. -/
theorem initModule_name_mismatch_of_extension (env : Env) (b filepath : String) (w w₁ : World)
    (entries : List ZipEntry) (infojson : ZipEntry) (declared : Info)
    (hzip : hasZipExtension (b ++ ".zip") = true)
    (hindex : jsIndexOf (b ++ ".zip") ".zip" = some b.length)
    (hmove : moveUpload env (b ++ ".zip") filepath w = (.ok (), w₁))
    (harchive : fileAt w₁.files (pathResolve env.appRoot ["modules/" ++ (b ++ ".zip")]) =
      some (FileData.archive entries))
    (hentry : getEntry entries (b ++ "/" ++ "info.json") = some infojson)
    (hparse : env.parseInfo infojson.data = some declared)
    (hname : declared.name ≠ some b) :
    (initModule env (b ++ ".zip") filepath w).1 = .error (raise .ModuleNameMissmatch) ∧
    (initModule env (b ++ ".zip") filepath w).2.modules = w.modules := by
  have hfolder : jsReplace (b ++ ".zip") ".zip" "/" = b ++ "/" :=
    jsReplace_extension b "/" hindex
  have hbase : jsReplace (b ++ ".zip") ".zip" "" = b :=
    (jsReplace_extension b "" hindex).trans (by
      apply String.ext
      simp only [String.data_append]
      exact List.append_nil _)
  exact initModule_name_mismatch env (b ++ ".zip") filepath w w₁ entries infojson declared hzip
    hmove harchive (by rw [hfolder]; exact hentry) hparse
    (by rw [hbase]; exact fun h => hname h.symm)

/-- C9 (the code at the failing input): the archive `a.zip.zip` holds the entry
`a.zip/info.json`, which declares the name `bar`; `initModule` looks for the
entry `a/.zipinfo.json`, finds none and fails with `ModuleInfoNotFound`, not
with `ModuleNameMissmatch`.  The registry is as it was. -/
theorem initModule_inner_zip_name :
    (initModule sampleEnv "a.zip.zip" "uploads/tmp"
      (uploadWorld [⟨"a.zip/", ""⟩, ⟨"a.zip/info.json", "bar"⟩])).1 =
      .error (raise .ModuleInfoNotFound) ∧
    (initModule sampleEnv "a.zip.zip" "uploads/tmp"
      (uploadWorld [⟨"a.zip/", ""⟩, ⟨"a.zip/info.json", "bar"⟩])).2.modules =
      (uploadWorld [⟨"a.zip/", ""⟩, ⟨"a.zip/info.json", "bar"⟩]).modules ∧
    jsReplace "a.zip.zip" ".zip" "/" ++ "info.json" = "a/.zipinfo.json" ∧
    jsReplace "a.zip.zip" ".zip" "" = "a.zip" := by
  decide

/-! ### C10 -/

/-- C10 (as stated, refuted): `foo.zip` declares the name `bar` while module
`foo` is installed; `initModule` fails with `ModuleNameMissmatch`, and by then
the upload has left its temporary location and the archive and the folder of
the installed module have been deleted from the modules folder. -/
theorem initModule_mismatch_side_effects :
    (uploadWorld [⟨"foo/", ""⟩, ⟨"foo/info.json", "bar"⟩]).files =
      [("/app/modules/foo.zip", FileData.archive [⟨"foo/info.json", "foo"⟩]),
       ("/app/modules/foo/info.json", FileData.text "foo"),
       ("/app/backoffice/app/foo/index.js", FileData.text ""),
       ("/app/uploads/tmp", FileData.archive [⟨"foo/", ""⟩, ⟨"foo/info.json", "bar"⟩])] ∧
    initModule sampleEnv "foo.zip" "uploads/tmp"
        (uploadWorld [⟨"foo/", ""⟩, ⟨"foo/info.json", "bar"⟩]) =
      (.error (raise .ModuleNameMissmatch),
        { uploadWorld [⟨"foo/", ""⟩, ⟨"foo/info.json", "bar"⟩] with
          files := [("/app/backoffice/app/foo/index.js", FileData.text "")] }) := by
  decide

/-- C10 (amended): an upload whose extension is not `.zip` fails with
`InvalidFile` before any side effect, the state being exactly the one before
the call.  The other validations (descriptor entry, declared name, host
version, main folder) run after the upload was moved into the modules folder:
when one of them fails, `initModule` throws its error after the cleanup, the
registry is unchanged and the upload is no longer at its temporary location. -/
theorem initModule_validation_effects (env : Env) (originalname filepath : String) (w : World) :
    (hasZipExtension originalname = false →
      initModule env originalname filepath w = (.error (raise .InvalidFile), w)) ∧
    (hasZipExtension originalname = true → ∀ (w₁ : World) (e : Thrown),
      moveUpload env originalname filepath w = (.ok (), w₁) →
      (validateArchive env originalname ("modules/" ++ originalname) w₁).1 = .error e →
      (initModule env originalname filepath w).1 = .error e ∧
      (initModule env originalname filepath w).2.modules = w.modules ∧
      fileAt (initModule env originalname filepath w).2.files
        (pathResolve env.appRoot [filepath]) = none) := by
  constructor
  · intro hzip
    unfold initModule
    rw [if_pos hzip]
    rfl
  · intro hzip w₁ e hmove hvalid
    exact initModule_validation_failure env originalname filepath w w₁ e hzip hmove hvalid

/-- C10 (amended) witness: `foo.txt` is refused with the state untouched;
`foo.zip` declaring `bar` fails after the move. -/
theorem initModule_validation_effects_witness :
    initModule sampleEnv "foo.txt" "uploads/tmp"
        (uploadWorld [⟨"foo/", ""⟩, ⟨"foo/info.json", "bar"⟩]) =
      (.error (raise .InvalidFile), uploadWorld [⟨"foo/", ""⟩, ⟨"foo/info.json", "bar"⟩]) ∧
    (initModule sampleEnv "foo.zip" "uploads/tmp"
        (uploadWorld [⟨"foo/", ""⟩, ⟨"foo/info.json", "bar"⟩])).1 =
      .error (raise .ModuleNameMissmatch) ∧
    (initModule sampleEnv "foo.zip" "uploads/tmp"
        (uploadWorld [⟨"foo/", ""⟩, ⟨"foo/info.json", "bar"⟩])).2.modules =
      (uploadWorld [⟨"foo/", ""⟩, ⟨"foo/info.json", "bar"⟩]).modules ∧
    fileAt (initModule sampleEnv "foo.zip" "uploads/tmp"
        (uploadWorld [⟨"foo/", ""⟩, ⟨"foo/info.json", "bar"⟩])).2.files
      (pathResolve sampleEnv.appRoot ["uploads/tmp"]) = none :=
  ⟨(initModule_validation_effects sampleEnv "foo.txt" "uploads/tmp"
      (uploadWorld [⟨"foo/", ""⟩, ⟨"foo/info.json", "bar"⟩])).1 (by decide),
    (initModule_validation_effects sampleEnv "foo.zip" "uploads/tmp"
      (uploadWorld [⟨"foo/", ""⟩, ⟨"foo/info.json", "bar"⟩])).2 (by decide)
      (moveUpload sampleEnv "foo.zip" "uploads/tmp"
        (uploadWorld [⟨"foo/", ""⟩, ⟨"foo/info.json", "bar"⟩])).2
      (raise .ModuleNameMissmatch) (by decide) (by decide)⟩

/-- C8 witness: `foo.zip`, declaring `foo`, is installed again while module
`foo` is active. -/
theorem initModule_preserves_active_witness :
    (initModule sampleEnv "foo.zip" "uploads/tmp"
        (uploadWorld [⟨"foo/", ""⟩, ⟨"foo/info.json", "foo"⟩])).1 =
      .ok (recordOf (sampleInfo (some "foo")) "foo" "modules/foo/" true 1) ∧
    findByName (initModule sampleEnv "foo.zip" "uploads/tmp"
        (uploadWorld [⟨"foo/", ""⟩, ⟨"foo/info.json", "foo"⟩])).2.modules "foo" =
      some (recordOf (sampleInfo (some "foo")) "foo" "modules/foo/" true 1) ∧
    (recordOf (sampleInfo (some "foo")) "foo" "modules/foo/" true 1).active =
      (match findByName (uploadWorld [⟨"foo/", ""⟩, ⟨"foo/info.json", "foo"⟩]).modules "foo" with
        | some previous => previous.active
        | none => false) ∧
    (recordOf (sampleInfo (some "foo")) "foo" "modules/foo/" true 1).name = "foo" :=
  ⟨by decide,
    (initModule_preserves_active sampleEnv "foo.zip" "uploads/tmp"
      (uploadWorld [⟨"foo/", ""⟩, ⟨"foo/info.json", "foo"⟩])
      (initModule sampleEnv "foo.zip" "uploads/tmp"
        (uploadWorld [⟨"foo/", ""⟩, ⟨"foo/info.json", "foo"⟩])).2
      (recordOf (sampleInfo (some "foo")) "foo" "modules/foo/" true 1) (by decide)).2.1,
    (initModule_preserves_active sampleEnv "foo.zip" "uploads/tmp"
      (uploadWorld [⟨"foo/", ""⟩, ⟨"foo/info.json", "foo"⟩])
      (initModule sampleEnv "foo.zip" "uploads/tmp"
        (uploadWorld [⟨"foo/", ""⟩, ⟨"foo/info.json", "foo"⟩])).2
      (recordOf (sampleInfo (some "foo")) "foo" "modules/foo/" true 1) (by decide)).2.2.1,
    (initModule_preserves_active sampleEnv "foo.zip" "uploads/tmp"
      (uploadWorld [⟨"foo/", ""⟩, ⟨"foo/info.json", "foo"⟩])
      (initModule sampleEnv "foo.zip" "uploads/tmp"
        (uploadWorld [⟨"foo/", ""⟩, ⟨"foo/info.json", "foo"⟩])).2
      (recordOf (sampleInfo (some "foo")) "foo" "modules/foo/" true 1) (by decide)).2.2.2.2
      "foo" [⟨"foo/", ""⟩, ⟨"foo/info.json", "foo"⟩] (by decide) (by decide) (by decide)
      (by decide) (by decide) (by decide)⟩

/-! ### C11 -/

theorem objGet_filter_key_none {α : Type} (p : String × α → Bool) (k : String)
    (hp : ∀ v, p (k, v) = false) :
    ∀ obj : List (String × α), objGet (obj.filter p) k = none := by
  intro obj
  induction obj with
  | nil => rfl
  | cons e rest ih =>
    obtain ⟨n, v⟩ := e
    rw [List.filter_cons]
    by_cases hn : n = k
    · subst hn
      rw [hp v]
      exact ih
    · cases hpe : p (n, v) with
      | false => simpa using ih
      | true =>
        simp only [if_true]
        rw [objGet_cons, if_neg hn]
        exact ih

/-- The state a logged `unlink` leaves: the same write protections, and no
entry that was not there. -/
theorem logged_unlink_state (key : String) (w : World) :
    (logged (unlink key) w).2.locked = w.locked ∧
    ∀ p ∈ (logged (unlink key) w).2.files, p ∈ w.files := by
  unfold logged tryCatchM unlink
  split <;> rename_i heq
  · split at heq
    · cases heq
    · cases heq
    · split at heq
      · cases heq
      · cases heq
        exact ⟨rfl, fun p hp => (List.mem_filter.mp hp).1⟩
  · unfold M.pure
    split at heq
    · cases heq; exact ⟨rfl, fun p hp => hp⟩
    · cases heq; exact ⟨rfl, fun p hp => hp⟩
    · split at heq
      · cases heq; exact ⟨rfl, fun p hp => hp⟩
      · cases heq

/-- A logged `unlink` of a path that holds a file and is not write-protected
leaves nothing at the path; so does one of a path that holds nothing. -/
theorem logged_unlink_gone (key : String) (w : World) (hlock : key ∉ w.locked)
    (hdir : fileAt w.files key ≠ some FileData.dir) :
    fileAt (logged (unlink key) w).2.files key = none := by
  unfold logged tryCatchM unlink
  split <;> rename_i heq
  · split at heq
    · cases heq
    · cases heq
    · split at heq
      · cases heq
      · cases heq
        exact objGet_filter_ne_self key w.files
  · unfold M.pure
    split at heq
    · rename_i hnone
      cases heq; exact hnone
    · rename_i hd
      exact absurd hd hdir
    · split at heq
      · rename_i hl
        exact absurd hl hlock
      · cases heq

/-- A logged recursive delete of a directory none of whose entries is
write-protected leaves nothing at the directory nor below it. -/
theorem logged_deleteRecursive_gone (key k : String) (w : World)
    (hlock : ∀ p ∈ w.files, (p.1 = key ∨ isUnder key p.1 = true) → p.1 ∉ w.locked)
    (hk : k = key ∨ isUnder key k = true) :
    fileAt (logged (deleteRecursive key) w).2.files k = none := by
  have hnot : ¬ ((subtree w.files key).any (fun e => decide (e.1 ∈ w.locked)) = true) := by
    intro hany
    obtain ⟨p, hp, hl⟩ := List.any_eq_true.mp hany
    unfold subtree at hp
    obtain ⟨hmem, hsub⟩ := List.mem_filter.mp hp
    have hsub' : p.1 = key ∨ isUnder key p.1 = true := by simpa using hsub
    exact hlock p hmem hsub' (by simpa using hl)
  unfold logged tryCatchM deleteRecursive
  rw [if_neg hnot]
  show fileAt (withoutSubtree w.files key) k = none
  unfold fileAt withoutSubtree
  apply objGet_filter_key_none
  intro v
  rcases hk with h | h
  · simp [h]
  · simp [h]


/-- C11 (as stated, refuted): the upload `bar.zip` can be read but not deleted
at its temporary location.  The archive is copied into the modules folder, the
deletion of the upload fails, and `initModule` throws that error from outside
its `try` block: no cleanup is attempted and the copied archive stays. -/
theorem initModule_failed_move_no_cleanup :
    fileAt ({ uploadWorld [⟨"bar/info.json", "bar"⟩] with locked := ["/app/uploads/tmp"] } : World).files
      "/app/modules/bar.zip" = none ∧
    (initModule sampleEnv "bar.zip" "uploads/tmp"
      { uploadWorld [⟨"bar/info.json", "bar"⟩] with locked := ["/app/uploads/tmp"] }).1 =
        .error (raise (.fsError "/app/uploads/tmp")) ∧
    fileAt (initModule sampleEnv "bar.zip" "uploads/tmp"
      { uploadWorld [⟨"bar/info.json", "bar"⟩] with locked := ["/app/uploads/tmp"] }).2.files
      "/app/modules/bar.zip" = some (FileData.archive [⟨"bar/info.json", "bar"⟩]) := by
  decide

/-- C11 (amended): once the upload has been moved into the modules folder
(copied, and deleted at its temporary location), every value `e` thrown by the
rest of `initModule` (the validations, the extraction, the read-back and the
upsert) is thrown again by `initModule` after both deletions were attempted in
turn, each failure being dropped: the state left is the one of the logged
deletion of the archive followed by the logged deletion of the extraction
folder.  The archive is gone whenever it is a file that is not write-protected,
and the extraction folder is gone whenever none of its entries is
write-protected, whatever became of the other deletion. -/
theorem initModule_cleanup_rethrows (env : Env) (originalname filepath : String)
    (w w₁ w₂ : World) (e : Thrown) (hzip : hasZipExtension originalname = true)
    (hmove : moveUpload env originalname filepath w = (.ok (), w₁))
    (hfail : (M.bind (validateArchive env originalname ("modules/" ++ originalname))
      (fun entries => extractAndRegister env entries
        (jsReplace ("modules/" ++ originalname) ".zip" "/"))) w₁ = (.error e, w₂)) :
    initModule env originalname filepath w =
      (.error e,
        (logged (deleteRecursive
            (pathResolve env.appRoot [jsReplace ("modules/" ++ originalname) ".zip" "/"]))
          (logged (unlink (pathResolve env.appRoot ["modules/" ++ originalname])) w₂).2).2) ∧
    (pathResolve env.appRoot ["modules/" ++ originalname] ∉ w₂.locked →
      fileAt w₂.files (pathResolve env.appRoot ["modules/" ++ originalname]) ≠ some FileData.dir →
      fileAt (initModule env originalname filepath w).2.files
        (pathResolve env.appRoot ["modules/" ++ originalname]) = none) ∧
    ((∀ p ∈ w₂.files,
        (p.1 = pathResolve env.appRoot [jsReplace ("modules/" ++ originalname) ".zip" "/"] ∨
          isUnder (pathResolve env.appRoot [jsReplace ("modules/" ++ originalname) ".zip" "/"])
            p.1 = true) → p.1 ∉ w₂.locked) →
      ∀ k, (k = pathResolve env.appRoot [jsReplace ("modules/" ++ originalname) ".zip" "/"] ∨
          isUnder (pathResolve env.appRoot [jsReplace ("modules/" ++ originalname) ".zip" "/"])
            k = true) →
        fileAt (initModule env originalname filepath w).2.files k = none) := by
  have hmove₁ : (moveUpload env originalname filepath w).1 = .ok () := by rw [hmove]
  have hmove₂ : (moveUpload env originalname filepath w).2 = w₁ := by rw [hmove]
  have hrun : initModule env originalname filepath w =
      cleanupAndRethrow env originalname e w₂ := by
    rw [initModule_of_zip env originalname filepath hzip, bind_of_ok _ _ _ () hmove₁, hmove₂,
      tryCatch_of_error _ _ _ e (by rw [hfail]), hfail]
  have hclean : cleanupAndRethrow env originalname e w₂ =
      (.error e,
        (logged (deleteRecursive
            (pathResolve env.appRoot [jsReplace ("modules/" ++ originalname) ".zip" "/"]))
          (logged (unlink (pathResolve env.appRoot ["modules/" ++ originalname])) w₂).2).2) := by
    unfold cleanupAndRethrow
    rw [bind_of_ok _ _ _ () (logged_fst _ _), bind_of_ok _ _ _ () (logged_fst _ _)]
    rfl
  rw [hrun, hclean]
  refine ⟨rfl, ?_, ?_⟩
  · intro hlock hdir
    exact absent_logged_deleteRecursive _ _ _ (logged_unlink_gone _ w₂ hlock hdir)
  · intro hlock k hk
    have hstate := logged_unlink_state (pathResolve env.appRoot ["modules/" ++ originalname]) w₂
    refine logged_deleteRecursive_gone _ k _ ?_ hk
    intro p hp hsub
    rw [hstate.1]
    exact hlock p (hstate.2 p hp) hsub

/-- C11 (amended) witness: `foo.zip` declares the name `bar` while the
descriptor of the installed module `foo` is write-protected.  The name check
fails; the archive is deleted, the deletion of the folder fails, and the error
thrown is the one of the name check. -/
theorem initModule_cleanup_rethrows_witness :
    (initModule sampleEnv "foo.zip" "uploads/tmp"
      { uploadWorld [⟨"foo/", ""⟩, ⟨"foo/info.json", "bar"⟩] with
        locked := ["/app/modules/foo/info.json"] }).1 = .error (raise .ModuleNameMissmatch) ∧
    fileAt (initModule sampleEnv "foo.zip" "uploads/tmp"
      { uploadWorld [⟨"foo/", ""⟩, ⟨"foo/info.json", "bar"⟩] with
        locked := ["/app/modules/foo/info.json"] }).2.files "/app/modules/foo.zip" = none ∧
    fileAt (initModule sampleEnv "foo.zip" "uploads/tmp"
      { uploadWorld [⟨"foo/", ""⟩, ⟨"foo/info.json", "bar"⟩] with
        locked := ["/app/modules/foo/info.json"] }).2.files "/app/modules/foo/info.json" =
      some (FileData.text "foo") :=
  ⟨congrArg Prod.fst (initModule_cleanup_rethrows sampleEnv "foo.zip" "uploads/tmp"
      { uploadWorld [⟨"foo/", ""⟩, ⟨"foo/info.json", "bar"⟩] with
        locked := ["/app/modules/foo/info.json"] }
      (moveUpload sampleEnv "foo.zip" "uploads/tmp"
        { uploadWorld [⟨"foo/", ""⟩, ⟨"foo/info.json", "bar"⟩] with
          locked := ["/app/modules/foo/info.json"] }).2
      (moveUpload sampleEnv "foo.zip" "uploads/tmp"
        { uploadWorld [⟨"foo/", ""⟩, ⟨"foo/info.json", "bar"⟩] with
          locked := ["/app/modules/foo/info.json"] }).2
      (raise .ModuleNameMissmatch) (by decide) (by decide) (by decide)).1,
    (initModule_cleanup_rethrows sampleEnv "foo.zip" "uploads/tmp"
      { uploadWorld [⟨"foo/", ""⟩, ⟨"foo/info.json", "bar"⟩] with
        locked := ["/app/modules/foo/info.json"] }
      (moveUpload sampleEnv "foo.zip" "uploads/tmp"
        { uploadWorld [⟨"foo/", ""⟩, ⟨"foo/info.json", "bar"⟩] with
          locked := ["/app/modules/foo/info.json"] }).2
      (moveUpload sampleEnv "foo.zip" "uploads/tmp"
        { uploadWorld [⟨"foo/", ""⟩, ⟨"foo/info.json", "bar"⟩] with
          locked := ["/app/modules/foo/info.json"] }).2
      (raise .ModuleNameMissmatch) (by decide) (by decide) (by decide)).2.1
      (by decide) (by decide),
    by decide⟩

/-! ### C12 -/

/-- When the validations pass and the extraction stops at a write-protected
destination, what `initModule` throws is `undefined`: the callback of line 126
logs the extraction error and rejects without it. -/
theorem initModule_extraction_failure (env : Env) (originalname filepath : String)
    (w w₁ : World) (entries : List ZipEntry) (hzip : hasZipExtension originalname = true)
    (hmove : moveUpload env originalname filepath w = (.ok (), w₁))
    (hvalid : (validateArchive env originalname ("modules/" ++ originalname) w₁).1 = .ok entries)
    (hextract : (extractEntries env.appRoot "modules/" entries w₁.files w₁.locked).1 = false) :
    (initModule env originalname filepath w).1 = .error (raise .undefinedValue) := by
  have hmove₁ : (moveUpload env originalname filepath w).1 = .ok () := by rw [hmove]
  have hmove₂ : (moveUpload env originalname filepath w).2 = w₁ := by rw [hmove]
  have hsame : (validateArchive env originalname ("modules/" ++ originalname) w₁).2 = w₁ :=
    keeps_validateArchive (fun w => w) env originalname _ w₁
  have hall : (extractAll env.appRoot "modules/" entries w₁).1 = .error (raise .undefinedValue) := by
    unfold extractAll
    split
    · rename_i files heq
      rw [heq] at hextract
      cases hextract
    · rfl
  have hbody : ((M.bind (validateArchive env originalname ("modules/" ++ originalname))
      (fun entries => extractAndRegister env entries
        (jsReplace ("modules/" ++ originalname) ".zip" "/"))) w₁).1 =
        .error (raise .undefinedValue) := by
    rw [bind_of_ok _ _ _ entries hvalid, hsame]
    unfold extractAndRegister
    rw [bind_of_error _ _ _ _ hall]
  rw [initModule_of_zip env originalname filepath hzip, bind_of_ok _ _ _ () hmove₁, hmove₂,
    tryCatch_of_error _ _ _ _ hbody]
  exact cleanupAndRethrow_fst env originalname _ _

/-- C12 (refuted on the code): `bar.zip` passes every validation and its entry
`bar/index.js` cannot be written, so the extraction reports an error (the
write refused at `/app/modules/bar/index.js`).  What `initModule` throws
is not that error but `undefined`. -/
theorem initModule_extraction_error_lost :
    (extractEntries "/app" "modules/"
        [⟨"bar/", ""⟩, ⟨"bar/info.json", "bar"⟩, ⟨"bar/index.js", "code"⟩]
        ({ uploadWorld [⟨"bar/", ""⟩, ⟨"bar/info.json", "bar"⟩, ⟨"bar/index.js", "code"⟩] with
          locked := ["/app/modules/bar/index.js"] } : World).files
        ["/app/modules/bar/index.js"]).1 = false ∧
    (initModule sampleEnv "bar.zip" "uploads/tmp"
      { uploadWorld [⟨"bar/", ""⟩, ⟨"bar/info.json", "bar"⟩, ⟨"bar/index.js", "code"⟩] with
        locked := ["/app/modules/bar/index.js"] }).1 = .error (raise .undefinedValue) ∧
    (initModule sampleEnv "bar.zip" "uploads/tmp"
      { uploadWorld [⟨"bar/", ""⟩, ⟨"bar/info.json", "bar"⟩, ⟨"bar/index.js", "code"⟩] with
        locked := ["/app/modules/bar/index.js"] }).1 ≠
      .error (raise (.fsError "/app/modules/bar/index.js")) ∧
    (initModule sampleEnv "bar.zip" "uploads/tmp"
      { uploadWorld [⟨"bar/", ""⟩, ⟨"bar/info.json", "bar"⟩, ⟨"bar/index.js", "code"⟩] with
        locked := [] }).1.toBool = true := by
  decide

/-! ### C13 -/

theorem replaceDotZerosChars_true_eq (cs : List Char) (h : cs.head? ≠ some '0') :
    replaceDotZerosChars true cs = replaceDotZerosChars false cs := by
  cases cs with
  | nil => rfl
  | cons c cs =>
    have hc : c ≠ '0' := fun hc => h (by rw [hc]; rfl)
    unfold replaceDotZerosChars
    simp [hc]

theorem replaceDotZerosChars_zeros (n : Nat) (cs : List Char) :
    replaceDotZerosChars true (List.replicate n '0' ++ cs) = replaceDotZerosChars true cs := by
  induction n with
  | zero => rfl
  | succ n ih =>
    rw [List.replicate_succ, List.cons_append, replaceDotZerosChars]
    simp [ih]

theorem replaceDotZerosChars_segment (n : Nat) (rest : List Char) (h : rest.head? ≠ some '0') :
    ∀ (a : List Char) (b : Bool),
      replaceDotZerosChars b (a ++ '.' :: (List.replicate (n + 1) '0' ++ rest)) =
        replaceDotZerosChars b a ++ '.' :: replaceDotZerosChars false rest := by
  intro a
  induction a with
  | nil =>
    intro b
    have h1 : ¬ (b = true ∧ '.' = '0') := fun hh => absurd hh.2 (by decide)
    rw [List.nil_append]
    conv_lhs => rw [replaceDotZerosChars]
    rw [if_neg h1, if_pos ⟨rfl, by rw [List.replicate_succ]; rfl⟩,
      replaceDotZerosChars_zeros, replaceDotZerosChars_true_eq rest h]
    cases b <;> rfl
  | cons c a ih =>
    intro b
    have hhead : (a ++ '.' :: (List.replicate (n + 1) '0' ++ rest)).head? = some '0' ↔
        a.head? = some '0' := by
      cases a with
      | nil => simp
      | cons d a => simp
    rw [List.cons_append, replaceDotZerosChars]
    conv_rhs => rw [replaceDotZerosChars]
    by_cases h1 : b = true ∧ c = '0'
    · rw [if_pos h1, if_pos h1, ih true]
    · rw [if_neg h1, if_neg h1]
      by_cases h2 : c = '.' ∧ a.head? = some '0'
      · rw [if_pos ⟨h2.1, hhead.mpr h2.2⟩, if_pos h2, ih true]
        rfl
      · rw [if_neg (fun hh => h2 ⟨hh.1, hhead.mp hh.2⟩), if_neg h2, ih false]
        rfl

theorem replaceDotZerosChars_unchanged :
    ∀ cs : List Char, indexOfChars ['.', '0'] cs = none → replaceDotZerosChars false cs = cs := by
  intro cs
  induction cs with
  | nil => intro _; rfl
  | cons c cs ih =>
    intro h
    rw [indexOfChars] at h
    split at h
    · cases h
    · rename_i hpre
      have hrest : indexOfChars ['.', '0'] cs = none := by
        cases hi : indexOfChars ['.', '0'] cs with
        | none => rfl
        | some i => rw [hi] at h; cases h
      rw [replaceDotZerosChars]
      have h1 : ¬ (false = true ∧ c = '0') := fun hh => absurd hh.1 (by decide)
      have h2 : ¬ (c = '.' ∧ cs.head? = some '0') := by
        intro hh
        apply hpre
        cases cs with
        | nil => cases hh.2
        | cons d cs =>
          have hd : d = '0' := by
            have := hh.2
            simpa using this
          rw [hh.1, hd]
          simp [List.isPrefixOf]
      rw [if_neg h1, if_neg h2, ih hrest]

/-- What `checkAquilaVersion` hands to the semver check: the host version and
the module's range, each through `replaceDotZeros`. -/
theorem checkAquilaVersion_handed (env : Env) (range packageAquila v : String) (w : World)
    (hrange : range ≠ "")
    (hread : fileAt w.files (pathResolve env.appRoot ["package.json"]) =
      some (FileData.text packageAquila))
    (hparse : env.parseHostVersion packageAquila = some v) :
    (checkAquilaVersion env (some range) w).1 =
      if env.satisfies (replaceDotZeros v) (replaceDotZeros range) = true then .ok ()
      else .error (raise .ModuleAquilaVersionNotSatisfied) := by
  have hr : readFile (pathResolve env.appRoot ["package.json"]) w = (.ok packageAquila, w) := by
    unfold readFile
    rw [hread]
  unfold checkAquilaVersion
  dsimp only
  rw [if_neg hrange, bind_of_ok _ _ _ packageAquila (by rw [hr]), hr]
  have hp : parsed (env.parseHostVersion packageAquila) w = (.ok v, w) := by
    rw [hparse]; rfl
  rw [bind_of_ok _ _ _ v (by rw [hp]), hp]
  by_cases hs : env.satisfies (replaceDotZeros v) (replaceDotZeros range) = true
  · rw [if_pos hs, if_pos hs]; rfl
  · rw [if_neg hs, if_neg hs]; rfl

/-- C13 (refuted on the code): the segment `.0` of `1.0.5` is not trailing, yet
the string handed to the semver check is `1..5`; and `2.4.0` becomes `2.4.`,
not `2.4`: the replacement keeps the `.` in front of the zeros it deletes.  A
semver check that accepts exactly `1.0.5` refuses the host version `1.0.5`. -/
theorem replaceDotZeros_inner_segment :
    replaceDotZeros "1.0.5" = "1..5" ∧ replaceDotZeros "2.4.0" = "2.4." ∧
    (checkAquilaVersion { sampleEnv with satisfies := fun version _ => decide (version = "1.0.5") }
      (some ">=1.0.5")
      { modules := [], files := [("/app/package.json", FileData.text "1.0.5")], locked := [],
        commands := [] }).1 = .error (raise .ModuleAquilaVersionNotSatisfied) := by
  decide

/-- The host version `v` read from `package.json` reaches the semver check as
`replaceDotZeros v`.  A version in which no `.` is followed by `0` is handed
over unchanged; and where a `.` is followed by zeros and then by another
digit, these leading zeros are dropped and the text before and behind is
treated on its own (`1.05.2` becomes `1.5.2`). -/
theorem checkAquilaVersion_version_text (env : Env) :
    (∀ (range packageAquila v : String) (w : World), range ≠ "" →
      fileAt w.files (pathResolve env.appRoot ["package.json"]) =
        some (FileData.text packageAquila) →
      env.parseHostVersion packageAquila = some v →
      (checkAquilaVersion env (some range) w).1 =
        if env.satisfies (replaceDotZeros v) (replaceDotZeros range) = true then .ok ()
        else .error (raise .ModuleAquilaVersionNotSatisfied)) ∧
    (∀ v : String, jsIndexOf v ".0" = none → replaceDotZeros v = v) ∧
    (∀ (a rest : String) (n : Nat) (d : Char), d.isDigit = true → d ≠ '0' →
      replaceDotZeros (a ++ "." ++ String.mk (List.replicate (n + 1) '0') ++
          String.mk (d :: rest.toList)) =
        replaceDotZeros a ++ "." ++ replaceDotZeros (String.mk (d :: rest.toList))) := by
  refine ⟨?_, ?_, ?_⟩
  · intro range packageAquila v w hrange hread hparse
    exact checkAquilaVersion_handed env range packageAquila v w hrange hread hparse
  · intro v h
    unfold replaceDotZeros
    rw [replaceDotZerosChars_unchanged v.toList h]
    cases v
    rfl
  · intro a rest n d _ hz
    unfold replaceDotZeros
    have hhead : (d :: rest.toList).head? ≠ some '0' := by
      intro hh
      apply hz
      simpa using hh
    have hseg := replaceDotZerosChars_segment n (d :: rest.toList) hhead a.toList false
    apply String.ext
    simp only [String.toList, String.data_append] at hseg ⊢
    simpa using hseg

/-- The host version `1.05.2` is handed over as `1.5.2`, and `1.2.3` as it
is. -/
theorem checkAquilaVersion_version_text_witness :
    (checkAquilaVersion { sampleEnv with satisfies := fun version _ => decide (version = "1.5.2") }
      (some ">=1.5")
      { modules := [], files := [("/app/package.json", FileData.text "1.05.2")], locked := [],
        commands := [] }).1 = .ok () ∧
    replaceDotZeros "1.2.3" = "1.2.3" ∧
    replaceDotZeros "1.05.2" = "1.5.2" :=
  ⟨((checkAquilaVersion_version_text
      { sampleEnv with satisfies := fun version _ => decide (version = "1.5.2") }).1
      ">=1.5" "1.05.2" "1.05.2"
      { modules := [], files := [("/app/package.json", FileData.text "1.05.2")], locked := [],
        commands := [] } (by decide) (by decide) (by decide)).trans (by decide),
    (checkAquilaVersion_version_text sampleEnv).2.1 "1.2.3" (by decide),
    ((checkAquilaVersion_version_text sampleEnv).2.2 "1" ".2" 0 '5' (by decide) (by decide)).trans
      (by decide)⟩

/-! ### C16 -/

/-- The names read from a `toBeRemoved[scope]` whose values are strings. -/
theorem namesToRemove_strings (entries : List (String × String)) :
    namesToRemove (entries.map fun e => (e.1, PlanValue.str e.2)) =
      .ok (entries.map fun e => dependencyName e.2) := by
  induction entries with
  | nil => rfl
  | cons e rest ih =>
    rw [List.map_cons, namesToRemove, ih]
    rfl

/-- A value of `toBeRemoved[scope]` that is an array stops the scope with a
`TypeError` before any command. -/
theorem adjustScope_array_value (env : Env) (toBeChanged toBeRemoved : Scoped PlanValue)
    (scope : Scope) (name : String) (values : List String) (rest : List (String × PlanValue))
    (w : World) (h : toBeRemoved.scope scope = (name, PlanValue.list values) :: rest) :
    adjustScope env toBeChanged toBeRemoved scope w = (.error (raise .TypeError), w) := by
  unfold adjustScope
  rw [h]
  rfl

/-- With values that are `name@range` strings and nothing to change, a scope
gets one `yarn remove` command with the package names when it has an entry, and
no command when it has none. -/
theorem adjustScope_string_values (env : Env) (toBeRemoved : Scoped PlanValue) (scope : Scope)
    (entries : List (String × String)) (w : World)
    (h : toBeRemoved.scope scope = entries.map fun e => (e.1, PlanValue.str e.2)) :
    (adjustScope env ⟨[], []⟩ toBeRemoved scope w).2.commands =
      if entries = [] then w.commands
      else w.commands ++
        [("yarn remove " ++ joinWith " " (entries.map fun e => dependencyName e.2),
          installPath env scope)] := by
  have hnone : (Scoped.scope (⟨[], []⟩ : Scoped PlanValue) scope) = [] := by
    cases scope <;> rfl
  unfold adjustScope
  rw [h, namesToRemove_strings, hnone]
  cases entries with
  | nil => rfl
  | cons e rest =>
    rw [if_neg (by simp)]
    simp only [liftExcept, M.bind, List.map_cons, List.length_cons, gt_iff_lt,
      Nat.zero_lt_succ, if_true, List.map_nil, List.length_nil, Nat.lt_irrefl, if_false, execCmd]
    cases env.commandResult _ _ <;> rfl

/-- C16 (refuted on the code): module `b` is the only requester of
`moment@^2.0`; the planner returns `toBeRemoved.api = {moment: ["moment@^2.0"]}`.
Handed that value, `deactivateModule` throws a `TypeError` (`split` is read
from an array) after the record was switched off, and issues no command.  With
the string `"moment@^2.0"` for value the command `yarn remove moment` is
issued at `./`. -/
theorem deactivateModule_array_values :
    (checkDependenciesAtUninstallation (sampleUninstall [("moment", ["moment@^2.0"])] [] [])
        [sampleModule 1 "b" true (some ⟨some ["moment@^2.0"], none⟩)] 1).toOption.map
      (fun plan => plan.toBeRemoved.api) = some [("moment", ["moment@^2.0"])] ∧
    (deactivateModule sampleEnv 1 ⟨[], []⟩
      ⟨[("moment", PlanValue.list ["moment@^2.0"])], []⟩ (installedWorld true [])).1 =
      .error ⟨ErrorKind.TypeError, some [installedRecord false []]⟩ ∧
    (deactivateModule sampleEnv 1 ⟨[], []⟩
      ⟨[("moment", PlanValue.list ["moment@^2.0"])], []⟩ (installedWorld true [])).2.commands = [] ∧
    (deactivateModule sampleEnv 1 ⟨[], []⟩
      ⟨[("moment", PlanValue.str "moment@^2.0")], []⟩ (installedWorld true [])).2.commands =
      [("yarn remove moment", "./")] := by
  decide

/-! ### C14 -/

theorem mem_objKeys_objSet {α : Type} (obj : List (String × α)) (n k : String) (v : α) :
    k ∈ objKeys (objSet obj n v) ↔ k = n ∨ k ∈ objKeys obj := by
  induction obj with
  | nil => simp [objSet, objKeys]
  | cons e rest ih =>
    obtain ⟨m, x⟩ := e
    unfold objSet
    by_cases hm : m = n
    · rw [if_pos hm]
      simp only [objKeys, List.map_cons, List.mem_cons]
      constructor
      · intro h
        rcases h with h | h
        · exact Or.inr (Or.inl h)
        · exact Or.inr (Or.inr h)
      · intro h
        rcases h with h | h | h
        · exact Or.inl (h.trans hm.symm)
        · exact Or.inl h
        · exact Or.inr h
    · rw [if_neg hm]
      simp only [objKeys, List.map_cons, List.mem_cons] at ih ⊢
      rw [ih]
      constructor
      · intro h
        rcases h with h | h | h
        · exact Or.inr (Or.inl h)
        · exact Or.inl h
        · exact Or.inr (Or.inr h)
      · intro h
        rcases h with h | h | h
        · exact Or.inr (Or.inl h)
        · exact Or.inl h
        · exact Or.inr (Or.inr h)

theorem objGet_isSome_iff {α : Type} (obj : List (String × α)) (k : String) :
    (objGet obj k).isSome = true ↔ k ∈ objKeys obj := by
  induction obj with
  | nil => simp [objGet, objKeys]
  | cons e rest ih =>
    obtain ⟨m, x⟩ := e
    rw [objGet_cons]
    simp only [objKeys, List.map_cons, List.mem_cons] at ih ⊢
    by_cases hm : m = k
    · rw [if_pos hm]
      simp [hm]
    · rw [if_neg hm, ih]
      constructor
      · exact Or.inr
      · intro h
        rcases h with h | h
        · exact absurd h.symm hm
        · exact h

theorem objGet_eq_none_iff {α : Type} (obj : List (String × α)) (k : String) :
    objGet obj k = none ↔ k ∉ objKeys obj := by
  rw [← objGet_isSome_iff]
  cases objGet obj k <;> simp

/-- The value read under a name is falsy exactly when the name is no own key
and no inherited name. -/
theorem isTruthyAt_false_iff {α : Type} (obj : List (String × α)) (k : String) :
    isTruthyAt obj k = false ↔ k ∉ objKeys obj ∧ k ∉ objectPrototypeNames := by
  unfold isTruthyAt
  rw [Bool.or_eq_false_iff, ← objGet_eq_none_iff]
  cases objGet obj k <;> simp

/-- The keys `pinValue` leaves: the ones it found, and the name of the pinned
package when `result` has it. -/
theorem mem_objKeys_pinValue (value : String) :
    ∀ (entries : List (String × List String)) (changed : List (String × List (Option String)))
      (k : String),
      k ∈ objKeys (pinValue value entries changed) ↔
        k ∈ objKeys changed ∨ (k = dependencyName value ∧ k ∈ objKeys entries) := by
  intro entries
  induction entries with
  | nil =>
    intro changed k
    simp [pinValue, objKeys]
  | cons e rest ih =>
    obtain ⟨index, value2⟩ := e
    intro changed k
    rw [pinValue]
    by_cases h : index = dependencyName value
    · rw [if_pos h, ih, mem_objKeys_objSet]
      simp only [objKeys, List.map_cons, List.mem_cons]
      constructor
      · intro hk
        rcases hk with (hk | hk) | hk
        · exact Or.inr ⟨hk.trans h, Or.inl hk⟩
        · exact Or.inl hk
        · exact Or.inr ⟨hk.1, Or.inr hk.2⟩
      · intro hk
        rcases hk with hk | ⟨hk₁, hk₂⟩
        · exact Or.inl (Or.inr hk)
        · exact Or.inl (Or.inl (hk₁.trans h.symm))
    · rw [if_neg h, ih]
      simp only [objKeys, List.map_cons, List.mem_cons]
      constructor
      · intro hk
        rcases hk with hk | hk
        · exact Or.inl hk
        · exact Or.inr ⟨hk.1, Or.inr hk.2⟩
      · intro hk
        rcases hk with hk | ⟨hk₁, hk₂⟩
        · exact Or.inl hk
        · rcases hk₂ with hk₂ | hk₂
          · exact absurd (hk₂.symm.trans hk₁) h
          · exact Or.inr ⟨hk₁, hk₂⟩

/-- With `result` assigned, the loop over a pinned manifest ends normally, and
its keys are the ones it found and the keys of `result` that a pinned value
names. -/
theorem pinManifest_some (entries : List (String × List String)) :
    ∀ (dependencies : List String) (changed : List (String × List (Option String))),
      ∃ pinned, pinManifest (some entries) dependencies changed = .ok pinned ∧
        ∀ k, k ∈ objKeys pinned ↔
          k ∈ objKeys changed ∨ (k ∈ objKeys entries ∧ ∃ v ∈ dependencies, k = dependencyName v) := by
  intro dependencies
  induction dependencies with
  | nil =>
    intro changed
    exact ⟨changed, rfl, fun k => by simp⟩
  | cons value rest ih =>
    intro changed
    obtain ⟨pinned, hp, hk⟩ := ih (pinValue value entries changed)
    refine ⟨pinned, ?_, ?_⟩
    · rw [pinManifest]
      exact hp
    · intro k
      rw [hk, mem_objKeys_pinValue]
      constructor
      · intro h
        rcases h with (h | ⟨h₁, h₂⟩) | ⟨h₁, v, hv, h₂⟩
        · exact Or.inl h
        · exact Or.inr ⟨h₂, value, List.mem_cons_self _ _, h₁⟩
        · exact Or.inr ⟨h₁, v, List.mem_cons_of_mem _ hv, h₂⟩
      · intro h
        rcases h with h | ⟨h₁, v, hv, h₂⟩
        · exact Or.inl (Or.inl h)
        · rcases List.mem_cons.mp hv with hv | hv
          · exact Or.inl (Or.inr ⟨by rw [h₂, hv], h₁⟩)
          · exact Or.inr ⟨h₁, v, hv, h₂⟩

/-- What `sortEntries` adds to `toBeRemoved[scope]` is a key of `result` that
`toBeChanged[scope]` did not hold. -/
theorem mem_objKeys_sortEntries_removed :
    ∀ (entries : List (String × List String)) (changed : List (String × List (Option String)))
      (removed : List (String × List String)) (k : String),
      k ∈ objKeys (sortEntries entries (changed, removed)).2 →
        k ∈ objKeys removed ∨ (k ∈ objKeys entries ∧ k ∉ objKeys changed) := by
  intro entries
  induction entries with
  | nil =>
    intro changed removed k h
    exact Or.inl h
  | cons e rest ih =>
    obtain ⟨name, values⟩ := e
    intro changed removed k h
    rw [sortEntries] at h
    simp only [objKeys, List.map_cons, List.mem_cons] at ih ⊢
    split at h
    · rcases ih _ _ k h with h' | ⟨h₁, h₂⟩
      · exact Or.inl h'
      · refine Or.inr ⟨Or.inr h₁, ?_⟩
        intro hmem
        exact h₂ ((mem_objKeys_objSet changed name k _).mpr (Or.inr hmem))
    · split at h
      · rename_i hcond
        rcases ih _ _ k h with h' | ⟨h₁, h₂⟩
        · rcases (mem_objKeys_objSet removed name k values).mp h' with h'' | h''
          · refine Or.inr ⟨Or.inl h'', ?_⟩
            rw [h'']
            exact ((isTruthyAt_false_iff changed name).mp hcond.1).1
          · exact Or.inl h''
        · exact Or.inr ⟨Or.inr h₁, h₂⟩
      · rcases ih _ _ k h with h' | ⟨h₁, h₂⟩
        · exact Or.inl h'
        · exact Or.inr ⟨Or.inr h₁, h₂⟩


/-- What a manifest block leaves in `toBeChanged[scope]` when `result` is
assigned and the manifest could be read: nothing when the module declares no
`api` list, else the keys of `result` that a pinned value names. -/
theorem pinScope_some (declaredApi : Option (List String)) (dependencies : List String)
    (entries : List (String × List String)) :
    ∃ pinned, pinScope declaredApi (.ok dependencies) (some entries) = .ok pinned ∧
      ∀ k, k ∈ objKeys pinned ↔
        (declaredApi.isSome = true ∧ k ∈ objKeys entries ∧
          ∃ v ∈ dependencies, k = dependencyName v) := by
  cases declaredApi with
  | none =>
    refine ⟨[], rfl, fun k => ?_⟩
    simp [objKeys]
  | some l =>
    obtain ⟨pinned, hp, hk⟩ := pinManifest_some entries dependencies []
    refine ⟨pinned, hp, fun k => ?_⟩
    rw [hk]
    simp [objKeys]

/-- The `toBeRemoved` of a plan that `planUninstallation` returns. -/
theorem planUninstallation_ok_inv (env : UninstallEnv) (pd : PackageDependencies)
    (result : Option (List (String × List String))) (plan : UninstallationPlan)
    (h : planUninstallation env pd result = .ok plan) :
    ∃ entries pinnedApi pinnedTheme, result = some entries ∧
      pinScope pd.api env.aquilaDependencies result = .ok pinnedApi ∧
      pinScope pd.api env.themeDependencies result = .ok pinnedTheme ∧
      plan.toBeRemoved = ⟨(sortEntries entries (pinnedApi, [])).2,
        (sortEntries entries (pinnedTheme, [])).2⟩ := by
  unfold planUninstallation at h
  split at h
  · cases h
  · rename_i pinnedApi hpa
    split at h
    · cases h
    · rename_i pinnedTheme hpt
      split at h
      · cases h
      · rename_i entries
        split at h
        · cases h
        · split at h
          · cases h
          · cases h
            exact ⟨entries, pinnedApi, pinnedTheme, rfl, hpa, hpt, rfl⟩

/-- What `checkDependenciesAtUninstallation` returns for a module that
declares a scope is a plan of `planUninstallation`. -/
theorem checkDependenciesAtUninstallation_ok_inv (env : UninstallEnv) (modules : List Module)
    (idModule : Nat) (myModule : Module) (pd : PackageDependencies) (plan : UninstallationPlan)
    (hfind : findById modules idModule = some myModule)
    (hpd : myModule.packageDependencies = some pd)
    (hdecl : pd.api.isSome = true ∨ pd.theme.isSome = true)
    (h : checkDependenciesAtUninstallation env modules idModule = .ok plan) :
    ∃ result, planUninstallation env
      { api := pd.api.map env.cleanPackageVersion, theme := pd.theme.map env.cleanPackageVersion }
      result = .ok plan := by
  unfold checkDependenciesAtUninstallation at h
  rw [hfind] at h
  simp only [hpd] at h
  rw [if_pos hdecl] at h
  split at h
  · cases h
  · exact ⟨_, h⟩

/-- A module that declares `api` dependencies: no package that the manifest
read for a scope pins is placed in `toBeRemoved` for that scope. -/
theorem checkDependenciesAtUninstallation_pinned_kept (env : UninstallEnv)
    (modules : List Module) (idModule : Nat) (myModule : Module) (pd : PackageDependencies)
    (plan : UninstallationPlan) (scope : Scope) (dependencies : List String) (value : String)
    (hfind : findById modules idModule = some myModule)
    (hpd : myModule.packageDependencies = some pd)
    (hapi : pd.api.isSome = true)
    (hpinned : (match scope with
      | .api => env.aquilaDependencies
      | .theme => env.themeDependencies) = .ok dependencies)
    (hvalue : value ∈ dependencies)
    (h : checkDependenciesAtUninstallation env modules idModule = .ok plan) :
    dependencyName value ∉ objKeys (plan.toBeRemoved.scope scope) := by
  obtain ⟨result, hplan⟩ := checkDependenciesAtUninstallation_ok_inv env modules idModule myModule
    pd plan hfind hpd (Or.inl hapi) h
  obtain ⟨entries, pinnedApi, pinnedTheme, hres, hpa, hpt, hrem⟩ :=
    planUninstallation_ok_inv env _ result plan hplan
  have hsome : (pd.api.map env.cleanPackageVersion).isSome = true := by
    cases hp : pd.api with
    | none => rw [hp] at hapi; cases hapi
    | some l => rfl
  rw [hrem]
  intro hmem
  cases scope with
  | api =>
    simp only at hpinned
    rw [hpinned, hres] at hpa
    obtain ⟨pinned, hp, hk⟩ := pinScope_some (pd.api.map env.cleanPackageVersion) dependencies entries
    simp only at hpa
    rw [hp] at hpa
    have heq : pinned = pinnedApi := Except.ok.inj hpa
    rw [← heq] at hmem
    rcases mem_objKeys_sortEntries_removed entries pinned [] _ hmem with h' | ⟨h₁, h₂⟩
    · simp [objKeys] at h'
    · exact h₂ ((hk _).mpr ⟨hsome, h₁, value, hvalue, rfl⟩)
  | theme =>
    simp only at hpinned
    rw [hpinned, hres] at hpt
    obtain ⟨pinned, hp, hk⟩ := pinScope_some (pd.api.map env.cleanPackageVersion) dependencies entries
    simp only at hpt
    rw [hp] at hpt
    have heq : pinned = pinnedTheme := Except.ok.inj hpt
    rw [← heq] at hmem
    rcases mem_objKeys_sortEntries_removed entries pinned [] _ hmem with h' | ⟨h₁, h₂⟩
    · simp [objKeys] at h'
    · exact h₂ ((hk _).mpr ⟨hsome, h₁, value, hvalue, rfl⟩)

/-- C14 (refuted on the code): module `b` declares the theme dependency
`react@^16.0.0` only, and the manifest of the active theme pins
`react@^16.8.0`.  The block that reads the theme manifest runs under the test
on the `api` list (line 361), so it is skipped and `react` is placed in
`toBeRemoved.theme`.  The same module with an (empty) `api` list beside has
`react` kept out of `toBeRemoved.theme`. -/
theorem checkDependenciesAtUninstallation_theme_only_removed :
    (checkDependenciesAtUninstallation
        (sampleUninstall [("react", ["react@^16.0.0"])] [] ["react@^16.8.0"])
        [sampleModule 1 "b" true (some ⟨none, some ["react@^16.0.0"]⟩)] 1).toOption.map
      (fun plan => plan.toBeRemoved.theme) = some [("react", ["react@^16.0.0"])] ∧
    (checkDependenciesAtUninstallation
        (sampleUninstall [("react", ["react@^16.0.0"])] [] ["react@^16.8.0"])
        [sampleModule 1 "b" true (some ⟨some [], some ["react@^16.0.0"]⟩)] 1).toOption.map
      (fun plan => (plan.toBeRemoved.theme, plan.toBeChanged.theme)) =
      some ([], [("react", [some "react@^16.0.0", some "react@^16.8.0"])]) := by
  decide

/-! ### C15 -/

/-- With `result` assigned and the four probes answering, `planUninstallation`
returns a plan whose `toBeRemoved` is what `sortEntries` leaves. -/
theorem planUninstallation_ok (env : UninstallEnv) (pd : PackageDependencies)
    (entries : List (String × List String)) (dependenciesApi dependenciesTheme : List String)
    (installedApi installedTheme : List (String × String))
    (haq : env.aquilaDependencies = .ok dependenciesApi)
    (hth : env.themeDependencies = .ok dependenciesTheme)
    (hia : env.installedApi = .ok installedApi) (hit : env.installedTheme = .ok installedTheme) :
    ∃ plan pinnedApi pinnedTheme, planUninstallation env pd (some entries) = .ok plan ∧
      pinScope pd.api (.ok dependenciesApi) (some entries) = .ok pinnedApi ∧
      pinScope pd.api (.ok dependenciesTheme) (some entries) = .ok pinnedTheme ∧
      plan.toBeRemoved = ⟨(sortEntries entries (pinnedApi, [])).2,
        (sortEntries entries (pinnedTheme, [])).2⟩ := by
  obtain ⟨pinnedApi, hpa, _⟩ := pinScope_some pd.api dependenciesApi entries
  obtain ⟨pinnedTheme, hpt, _⟩ := pinScope_some pd.api dependenciesTheme entries
  have hsa : ∃ a, installedScope pd.api env.installedApi (objKeys entries) = .ok a := by
    rw [hia]
    unfold installedScope
    cases pd.api <;> exact ⟨_, rfl⟩
  have hst : ∃ a, installedScope pd.theme env.installedTheme (objKeys entries) = .ok a := by
    rw [hit]
    unfold installedScope
    cases pd.theme <;> exact ⟨_, rfl⟩
  obtain ⟨alreadyApi, hsa⟩ := hsa
  obtain ⟨alreadyTheme, hst⟩ := hst
  unfold planUninstallation
  rw [haq, hth, hpa, hpt]
  simp only [hsa, hst]
  exact ⟨_, pinnedApi, pinnedTheme, rfl, rfl, rfl, rfl⟩

/-- C15 (as stated, refuted): module `b` is the only requester of
`lodash@^4.0.0`, declared in the `api` scope, and the host manifest pins
`lodash@^4.17.0`.  The package is not placed in `toBeRemoved.api`: it goes to
`toBeChanged.api` with the pinned value beside the requirement. -/
theorem checkDependenciesAtUninstallation_pinned_not_removed :
    (checkDependenciesAtUninstallation
        (sampleUninstall [("lodash", ["lodash@^4.0.0"])] ["lodash@^4.17.0"] [])
        [sampleModule 1 "b" true (some ⟨some ["lodash@^4.0.0"], none⟩)] 1).toOption.map
      (fun plan => (plan.toBeRemoved.api, plan.toBeChanged.api)) =
      some ([], [("lodash", [some "lodash@^4.0.0", some "lodash@^4.17.0"])]) := by
  decide

/-! ### C17 -/

theorem lazyToBracket_body (tail : List Char) :
    ∀ body : List Char, (∀ c ∈ body, c ≠ ']' ∧ isLineTerminator c = false) →
      lazyToBracket (body ++ ']' :: tail) = some body := by
  intro body
  induction body with
  | nil => intro _; simp [lazyToBracket]
  | cons c cs ih =>
    intro h
    have hc := h c (List.mem_cons_self _ _)
    rw [List.cons_append, lazyToBracket, if_neg hc.1, if_neg (by simp [hc.2]),
      ih (fun d hd => h d (List.mem_cons_of_mem _ hd))]
    rfl

theorem firstBracketMatch_skip (rest : List Char) :
    ∀ before : List Char, '[' ∉ before →
      firstBracketMatch (before ++ rest) = firstBracketMatch rest := by
  intro before
  induction before with
  | nil => intro _; rfl
  | cons c cs ih =>
    intro h
    have hc : c ≠ '[' := fun hc => h (by rw [hc]; exact List.mem_cons_self _ _)
    rw [List.cons_append, firstBracketMatch, if_neg hc]
    exact ih (fun hm => h (List.mem_cons_of_mem _ hm))

/-- The match of `/\[(.*?)\]/` in a text whose first `[` opens a body without
`]` and without line terminator. -/
theorem firstBracketMatch_list (before body tail : List Char) (hbefore : '[' ∉ before)
    (hbody : ∀ c ∈ body, c ≠ ']' ∧ isLineTerminator c = false) :
    firstBracketMatch (before ++ '[' :: (body ++ ']' :: tail)) = some ('[' :: (body ++ [']'])) := by
  rw [firstBracketMatch_skip _ before hbefore, firstBracketMatch, if_pos rfl,
    lazyToBracket_body tail body hbody]

theorem lastIndexOfChar_append_self (c : Char) :
    ∀ l : List Char, lastIndexOfChar c (l ++ [c]) = some l.length := by
  intro l
  induction l with
  | nil => simp [lastIndexOfChar]
  | cons d ds ih =>
    rw [List.cons_append, lastIndexOfChar, ih]
    rfl

theorem sliceToLastBracket_closed (l : List Char) : sliceToLastBracket (l ++ [']']) = l := by
  unfold sliceToLastBracket
  rw [lastIndexOfChar_append_self]
  simp

theorem indexOfChars_zero (pat : List Char) :
    ∀ s : List Char, indexOfChars pat s = some 0 → pat.isPrefixOf s = true := by
  intro s h
  cases s with
  | nil =>
    rw [indexOfChars] at h
    by_cases hp : pat = []
    · rw [hp]; rfl
    · rw [if_neg hp] at h; cases h
  | cons c cs =>
    rw [indexOfChars] at h
    by_cases hp : pat.isPrefixOf (c :: cs) = true
    · exact hp
    · rw [if_neg hp] at h
      cases hi : indexOfChars pat cs with
      | none => rw [hi] at h; cases h
      | some i => rw [hi] at h; cases h

theorem indexOfChars_of_isPrefixOf (pat : List Char) :
    ∀ s : List Char, pat.isPrefixOf s = true → indexOfChars pat s = some 0 := by
  intro s h
  cases s with
  | nil =>
    cases pat with
    | nil => rfl
    | cons p ps => cases h
  | cons c cs =>
    rw [indexOfChars, if_pos h]

theorem indexOfChars_infix (pat after : List Char) :
    ∀ before : List Char, indexOfChars pat (before ++ (pat ++ after)) ≠ none := by
  intro before
  induction before with
  | nil =>
    rw [List.nil_append, indexOfChars_of_isPrefixOf pat _
      (List.isPrefixOf_iff_prefix.mpr (List.prefix_append _ _))]
    simp
  | cons c cs ih =>
    rw [List.cons_append, indexOfChars]
    by_cases hp : pat.isPrefixOf (c :: (cs ++ (pat ++ after))) = true
    · rw [if_pos hp]; simp
    · rw [if_neg hp]
      cases hi : indexOfChars pat (cs ++ (pat ++ after)) with
      | none => exact absurd hi ih
      | some i => simp

/-- A text that starts another text without reaching behind a character it
does not hold starts the part before that character. -/
theorem prefix_of_not_mem (pat front rest : List Char) (c : Char) (hc : c ∉ pat)
    (h : pat <+: front ++ c :: rest) : pat <+: front := by
  rcases List.prefix_or_prefix_of_prefix h (List.prefix_append front (c :: rest)) with h' | h'
  · exact h'
  · obtain ⟨t, ht⟩ := h'
    cases t with
    | nil => rw [List.append_nil] at ht; rw [← ht]
    | cons d t =>
      exfalso
      obtain ⟨u, hu⟩ := h
      rw [← ht, List.append_assoc] at hu
      have := List.append_cancel_left hu
      rw [List.cons_append] at this
      have hd : d = c := (List.cons.inj this).1
      apply hc
      rw [← ht, ← hd]
      simp


/-- The manifest text after the entry of a component was appended. -/
theorem withEntry_list (body tail entry : String)
    (hbody : ∀ c ∈ body.toList, c ≠ ']' ∧ isLineTerminator c = false) :
    withEntry ("export default [" ++ body ++ "]" ++ tail) entry =
      some ("export default [" ++ body ++ " " ++ entry ++ "]") := by
  have hlist : ("export default [" ++ body ++ "]" ++ tail).toList =
      "export default ".toList ++ '[' :: (body.toList ++ ']' :: tail.toList) := by
    simp only [String.toList, String.data_append]
    simp
  unfold withEntry
  rw [hlist, firstBracketMatch_list _ _ _ (by decide) hbody]
  have hslice : sliceToLastBracket ('[' :: (body.toList ++ [']'])) = '[' :: body.toList := by
    rw [← List.cons_append]
    exact sliceToLastBracket_closed _
  simp only [hslice]
  rfl

/-- First injection: a manifest that does not hold the derived name gets the
entry appended to its list. -/
theorem injectionStep_first (body tail file type : String)
    (hbody : ∀ c ∈ body.toList, c ≠ ']' ∧ isLineTerminator c = false)
    (hname : jsIndexOf ("export default [" ++ body ++ "]" ++ tail) (fileNameWithoutModule file) =
      none) :
    injectionStep ("export default [" ++ body ++ "]" ++ tail) file type =
      some ("export default [" ++ body ++ " " ++
        jsxModuleToImport file (fileNameWithoutModule file) type ++ "]") := by
  unfold injectionStep
  have hneeds : needsEntry ("export default [" ++ body ++ "]" ++ tail)
      (fileNameWithoutModule file) = true := by
    unfold needsEntry
    rw [hname]
  rw [if_pos hneeds]
  exact withEntry_list body tail _ hbody

/-- A derived name without a space that does not occur in the manifest does
not start the manifest with its entry appended, and occurs in it. -/
theorem jsIndexOf_injected (body tail file type : String)
    (hname : jsIndexOf ("export default [" ++ body ++ "]" ++ tail) (fileNameWithoutModule file) =
      none)
    (hspace : ' ' ∉ (fileNameWithoutModule file).toList) :
    ∃ i, jsIndexOf ("export default [" ++ body ++ " " ++
        jsxModuleToImport file (fileNameWithoutModule file) type ++ "]")
      (fileNameWithoutModule file) = some (i + 1) := by
  have hocc : jsIndexOf ("export default [" ++ body ++ " " ++
        jsxModuleToImport file (fileNameWithoutModule file) type ++ "]")
      (fileNameWithoutModule file) ≠ none := by
    have hform : ("export default [" ++ body ++ " " ++
        jsxModuleToImport file (fileNameWithoutModule file) type ++ "]").toList =
        ("export default [" ++ body ++ " " ++ "\x7b jsx: require('./" ++ file ++
            "'), code: 'aq-").toList ++
          ((fileNameWithoutModule file).toList ++ ("', " ++ type ++ " \x7d," ++ "]").toList) := by
      simp only [jsxModuleToImport, String.toList, String.data_append, List.append_assoc]
    unfold jsIndexOf
    rw [hform]
    exact indexOfChars_infix _ _ _
  have hzero : jsIndexOf ("export default [" ++ body ++ " " ++
        jsxModuleToImport file (fileNameWithoutModule file) type ++ "]")
      (fileNameWithoutModule file) ≠ some 0 := by
    intro h0
    have hstart := List.isPrefixOf_iff_prefix.mp (indexOfChars_zero _ _ h0)
    have hform : ("export default [" ++ body ++ " " ++
        jsxModuleToImport file (fileNameWithoutModule file) type ++ "]").toList =
        "export".toList ++ ' ' :: ("default [" ++ body ++ " " ++
          jsxModuleToImport file (fileNameWithoutModule file) type ++ "]").toList := by
      simp only [String.toList, String.data_append]
      simp
    rw [hform] at hstart
    have hshort := prefix_of_not_mem _ _ _ _ hspace hstart
    have hform' : ("export default [" ++ body ++ "]" ++ tail).toList =
        "export".toList ++ (" default [" ++ body ++ "]" ++ tail).toList := by
      simp only [String.toList, String.data_append]
      simp
    have hin : (fileNameWithoutModule file).toList <+:
        ("export default [" ++ body ++ "]" ++ tail).toList := by
      rw [hform']
      exact hshort.trans (List.prefix_append _ _)
    have := indexOfChars_of_isPrefixOf _ _ (List.isPrefixOf_iff_prefix.mpr hin)
    unfold jsIndexOf at hname
    rw [hname] at this
    cases this
  cases hi : jsIndexOf ("export default [" ++ body ++ " " ++
        jsxModuleToImport file (fileNameWithoutModule file) type ++ "]")
      (fileNameWithoutModule file) with
  | none => exact absurd hi hocc
  | some i =>
    cases i with
    | zero => exact absurd hi hzero
    | succ j => exact ⟨j, rfl⟩

/-- C17 (as stated, refuted): for the component `ModuleX.js` the derived name
`x` occurs in the manifest `export default []` (inside `export`), so the
injection step appends nothing: after one step, and after two, the manifest is
as it was and does not hold the entry of the component. -/
theorem injectionStep_name_in_keyword :
    isComponentFile "ModuleX.js" = true ∧
    injectionStep "export default []" "ModuleX.js" "" = some "export default []" ∧
    jsIndexOf "export default []" (jsxModuleToImport "ModuleX.js" "x" "") = none := by
  decide

/-- C17 (amended): for a component file with an ASCII name and a manifest
`export default [body]` (body without `]` and line terminator, whatever
follows the list) in which the derived name of the component does not occur,
the name holding no space, the injection step gives
`export default [body <entry>]`, the list with the entry of the component
appended once, and a second step leaves that text as it is. -/
theorem injectionStep_twice (body tail file type : String)
    (hascii : isAsciiText file = true)
    (hbody : ∀ c ∈ body.toList, c ≠ ']' ∧ isLineTerminator c = false)
    (hname : jsIndexOf ("export default [" ++ body ++ "]" ++ tail) (fileNameWithoutModule file) =
      none)
    (hspace : ' ' ∉ (fileNameWithoutModule file).toList) :
    injectionStep ("export default [" ++ body ++ "]" ++ tail) file type =
      some ("export default [" ++ body ++ " " ++
        jsxModuleToImport file (fileNameWithoutModule file) type ++ "]") ∧
    injectionStep ("export default [" ++ body ++ " " ++
        jsxModuleToImport file (fileNameWithoutModule file) type ++ "]") file type =
      some ("export default [" ++ body ++ " " ++
        jsxModuleToImport file (fileNameWithoutModule file) type ++ "]") := by
  have _ := hascii
  refine ⟨injectionStep_first body tail file type hbody hname, ?_⟩
  obtain ⟨i, hi⟩ := jsIndexOf_injected body tail file type hname hspace
  unfold injectionStep needsEntry
  rw [hi]
  simp

/-- C17 (amended) witness: `ModuleFoo.js` and the manifest
`export default [];`. -/
theorem injectionStep_twice_witness :
    injectionStep "export default [];" "ModuleFoo.js" "" =
      some "export default [ \x7b jsx: require('./ModuleFoo.js'), code: 'aq-foo',  \x7d,]" ∧
    injectionStep "export default [ \x7b jsx: require('./ModuleFoo.js'), code: 'aq-foo',  \x7d,]"
        "ModuleFoo.js" "" =
      some "export default [ \x7b jsx: require('./ModuleFoo.js'), code: 'aq-foo',  \x7d,]" :=
  injectionStep_twice "" ";" "ModuleFoo.js" "" (by decide) (by decide) (by decide) (by decide)

/-! ### C18 -/

/-- C18 (as stated, refuted): the manifest holds the entry of `ModuleFoobar.js`
only, so no entry has the code `aq-foo`; yet the injection step for
`ModuleFoo.js` appends nothing, the derived name `foo` being found inside the
code `aq-foobar` of the other component. -/
theorem injectionStep_blocked_by_other :
    jsIndexOf "export default [ \x7b jsx: require('./ModuleFoobar.js'), code: 'aq-foobar',  \x7d,]"
      "'aq-foo'" = none ∧
    fileNameWithoutModule "ModuleFoo.js" = "foo" ∧
    injectionStep "export default [ \x7b jsx: require('./ModuleFoobar.js'), code: 'aq-foobar',  \x7d,]"
        "ModuleFoo.js" "" =
      some "export default [ \x7b jsx: require('./ModuleFoobar.js'), code: 'aq-foobar',  \x7d,]" := by
  decide

/-- The manifest with an entry appended to its list is another text than the
manifest. -/
theorem withEntry_ne (body tail entry : String) :
    "export default [" ++ body ++ " " ++ entry ++ "]" ≠ "export default [" ++ body ++ "]" ++ tail := by
  intro h
  have hl := congrArg String.toList h
  simp only [String.toList, String.data_append, List.append_assoc] at hl
  have hc := List.append_cancel_left (List.append_cancel_left hl)
  simp at hc

/-- C18 (amended): the injection step looks for the derived name of the
component (a file with an ASCII name) in the whole manifest text.  Whatever the
manifest, when the name occurs behind the first character of the text, as part
of anything, nothing is appended and the text stays as it is.  For a manifest
`export default [body]` (body without `]` and line terminator, whatever
follows), the entry is appended to the list exactly when the name does not
occur behind the first character of the text, and the text is left as it is
exactly when it does. -/
theorem injectionStep_by_name (file type : String) (hascii : isAsciiText file = true) :
    (∀ (manifest : String) (i : Nat),
      jsIndexOf manifest (fileNameWithoutModule file) = some (i + 1) →
      injectionStep manifest file type = some manifest) ∧
    (∀ body tail : String, (∀ c ∈ body.toList, c ≠ ']' ∧ isLineTerminator c = false) →
      (injectionStep ("export default [" ++ body ++ "]" ++ tail) file type =
          some ("export default [" ++ body ++ " " ++
            jsxModuleToImport file (fileNameWithoutModule file) type ++ "]") ↔
        ¬ ∃ i, jsIndexOf ("export default [" ++ body ++ "]" ++ tail)
          (fileNameWithoutModule file) = some (i + 1)) ∧
      (injectionStep ("export default [" ++ body ++ "]" ++ tail) file type =
          some ("export default [" ++ body ++ "]" ++ tail) ↔
        ∃ i, jsIndexOf ("export default [" ++ body ++ "]" ++ tail)
          (fileNameWithoutModule file) = some (i + 1))) := by
  have _ := hascii
  have hkept : ∀ (manifest : String) (i : Nat),
      jsIndexOf manifest (fileNameWithoutModule file) = some (i + 1) →
      injectionStep manifest file type = some manifest := by
    intro manifest i h
    unfold injectionStep needsEntry
    rw [h]
    simp
  refine ⟨hkept, ?_⟩
  intro body tail hbody
  have happended : (¬ ∃ i, jsIndexOf ("export default [" ++ body ++ "]" ++ tail)
        (fileNameWithoutModule file) = some (i + 1)) →
      injectionStep ("export default [" ++ body ++ "]" ++ tail) file type =
        some ("export default [" ++ body ++ " " ++
          jsxModuleToImport file (fileNameWithoutModule file) type ++ "]") := by
    intro hno
    have hneeds : needsEntry ("export default [" ++ body ++ "]" ++ tail)
        (fileNameWithoutModule file) = true := by
      unfold needsEntry
      cases hi : jsIndexOf ("export default [" ++ body ++ "]" ++ tail)
          (fileNameWithoutModule file) with
      | none => rfl
      | some i =>
        cases i with
        | zero => rfl
        | succ j => exact absurd ⟨j, hi⟩ hno
    unfold injectionStep
    rw [if_pos hneeds]
    exact withEntry_list body tail _ hbody
  constructor
  · constructor
    · intro h hocc
      obtain ⟨i, hi⟩ := hocc
      rw [hkept _ i hi] at h
      exact withEntry_ne body tail _ (Option.some.inj h).symm
    · exact happended
  · constructor
    · intro h
      by_contra hno
      rw [happended hno] at h
      exact withEntry_ne body tail _ (Option.some.inj h)
    · rintro ⟨i, hi⟩
      exact hkept _ i hi

/-- C18 (amended) witness: beside the entry of `ModuleFoobar.js`, the entry of
`ModuleCart.js` is appended and the one of `ModuleFoo.js` is not. -/
theorem injectionStep_by_name_witness :
    injectionStep "export default [ \x7b jsx: require('./ModuleFoobar.js'), code: 'aq-foobar',  \x7d,]"
        "ModuleCart.js" "" =
      some ("export default [" ++
        " \x7b jsx: require('./ModuleFoobar.js'), code: 'aq-foobar',  \x7d," ++ " " ++
        jsxModuleToImport "ModuleCart.js" (fileNameWithoutModule "ModuleCart.js") "" ++ "]") ∧
    injectionStep "export default [ \x7b jsx: require('./ModuleFoobar.js'), code: 'aq-foobar',  \x7d,]"
        "ModuleFoo.js" "" =
      some "export default [ \x7b jsx: require('./ModuleFoobar.js'), code: 'aq-foobar',  \x7d,]" :=
  ⟨(((injectionStep_by_name "ModuleCart.js" "" (by decide)).2
      " \x7b jsx: require('./ModuleFoobar.js'), code: 'aq-foobar',  \x7d," "" (by decide)).1).mpr
      (by
        rintro ⟨i, hi⟩
        have hnone : jsIndexOf ("export default [" ++
            " \x7b jsx: require('./ModuleFoobar.js'), code: 'aq-foobar',  \x7d," ++ "]" ++ "")
            (fileNameWithoutModule "ModuleCart.js") = none := by decide
        rw [hnone] at hi
        cases hi),
    (injectionStep_by_name "ModuleFoo.js" "" (by decide)).1
      "export default [ \x7b jsx: require('./ModuleFoobar.js'), code: 'aq-foobar',  \x7d,]"
      63 (by decide)⟩

/-! ### C19 -/

theorem pathExists_of_fileAt (files : List (String × FileData)) (key : String) (d : FileData)
    (h : fileAt files key = some d) : pathExists files key = true := by
  unfold pathExists
  rw [List.any_eq_true]
  exact ⟨(key, d), mem_of_objGet files key d h, by simp⟩

theorem replaceFirstChars_absent (pat rep : List Char) :
    ∀ s : List Char, indexOfChars pat s = none → replaceFirstChars pat rep s = s := by
  intro s
  induction s with
  | nil =>
    intro h
    rw [indexOfChars] at h
    rw [replaceFirstChars]
    by_cases hp : pat = []
    · rw [if_pos hp] at h; cases h
    · rw [if_neg hp]
  | cons c cs ih =>
    intro h
    rw [indexOfChars] at h
    rw [replaceFirstChars]
    by_cases hp : pat.isPrefixOf (c :: cs) = true
    · rw [if_pos hp] at h; cases h
    · rw [if_neg hp] at h
      rw [if_neg hp]
      cases hi : indexOfChars pat cs with
      | none => rw [ih hi]
      | some i => rw [hi] at h; cases h

/-- A write on a path that is neither write-protected nor a directory leaves
the text at the path. -/
theorem writeFile_text (key content : String) (w : World) (hlock : key ∉ w.locked)
    (hdir : isDirectory w.files key = false) :
    (writeFile key content w).1 = .ok () ∧
    fileAt (writeFile key content w).2.files key = some (FileData.text content) := by
  unfold writeFile
  rw [if_neg (by simp [hlock, hdir])]
  exact ⟨rfl, objGet_objSet_self _ _ _⟩

/-- What `removeFromListModule` leaves in a manifest whose first bracket pair
is `exp`: the text `export default ` followed by `exp` without its whitespace
and without the first occurrence of the entry without its whitespace. -/
theorem removeFromListModule_written (env : Env) (file currentTheme code type : String)
    (w : World) (result : String) (exp : List Char)
    (hfile : fileAt w.files
      (pathResolve env.appRoot ["themes", currentTheme, "modules/list_modules.js"]) =
        some (FileData.text result))
    (hmatch : firstBracketMatch result.toList = some exp)
    (hlock : pathResolve env.appRoot ["themes", currentTheme, "modules/list_modules.js"] ∉
      w.locked)
    (hdir : isDirectory w.files
      (pathResolve env.appRoot ["themes", currentTheme, "modules/list_modules.js"]) = false) :
    fileAt (removeFromListModule env file currentTheme code type w).2.files
      (pathResolve env.appRoot ["themes", currentTheme, "modules/list_modules.js"]) =
      some (FileData.text ("export default " ++
        jsReplace (removeSpaces (String.mk exp))
          (removeSpaces (jsxModuleToImport file code type)) "")) := by
  have hexists : existsSync
      (pathResolve env.appRoot ["themes", currentTheme, "modules/list_modules.js"]) w =
      (.ok true, w) := by
    unfold existsSync
    rw [pathExists_of_fileAt _ _ _ hfile]
  have hread : readFile
      (pathResolve env.appRoot ["themes", currentTheme, "modules/list_modules.js"]) w =
      (.ok result, w) := by
    unfold readFile
    rw [hfile]
  have hwrite := writeFile_text
    (pathResolve env.appRoot ["themes", currentTheme, "modules/list_modules.js"])
    ("export default " ++ jsReplace (removeSpaces (String.mk exp))
      (removeSpaces (jsxModuleToImport file code type)) "") w hlock hdir
  unfold removeFromListModule logged tryCatchM
  rw [bind_of_ok _ _ _ true (by rw [hexists]), hexists]
  simp only [Bool.true_eq_false, if_false]
  rw [bind_of_ok _ _ _ result (by rw [hread]), hread]
  simp only [hmatch, removeImport]
  cases hw : writeFile
      (pathResolve env.appRoot ["themes", currentTheme, "modules/list_modules.js"])
      ("export default " ++ jsReplace (removeSpaces (String.mk exp))
        (removeSpaces (jsxModuleToImport file code type)) "") w with
  | mk r w' =>
    rw [hw] at hwrite
    cases r with
    | error e => exact absurd hwrite.1 (by simp)
    | ok u => exact hwrite.2

/-- C19 (as stated, refuted): the manifest `export default [];` does not hold
the entry of `ModuleFoo.js`; `removeFromListModule` returns normally and
rewrites the file, which loses what follows the list. -/
theorem removeFromListModule_rewrites :
    jsIndexOf "export default [];" (jsxModuleToImport "ModuleFoo.js" "foo" "") = none ∧
    (removeFromListModule sampleEnv "ModuleFoo.js" "default_theme" "foo" ""
      (manifestWorld "export default [];")).1 = .ok () ∧
    (removeFromListModule sampleEnv "ModuleFoo.js" "default_theme" "foo" ""
      (manifestWorld "export default [];")).2.files =
      [("/app/themes/default_theme/modules/list_modules.js", FileData.text "export default []")] := by
  decide

/-- C19 (amended): `removeFromListModule` never throws.  When the manifest is
missing, or holds no bracket pair on one line, the state is left as it is.
When the manifest holds a bracket pair and the entry of the component, spaces
removed, does not occur in the list, spaces removed, the file is rewritten as
`export default ` followed by the list without its whitespace: the entries are
the ones it held, the whitespace and the text around the list are lost. -/
theorem removeFromListModule_absent_entry (env : Env) (file currentTheme code type : String)
    (w : World) :
    (removeFromListModule env file currentTheme code type w).1 = .ok () ∧
    (pathExists w.files
        (pathResolve env.appRoot ["themes", currentTheme, "modules/list_modules.js"]) = false →
      (removeFromListModule env file currentTheme code type w).2 = w) ∧
    (∀ result : String,
      fileAt w.files
        (pathResolve env.appRoot ["themes", currentTheme, "modules/list_modules.js"]) =
          some (FileData.text result) →
      firstBracketMatch result.toList = none →
      (removeFromListModule env file currentTheme code type w).2 = w) ∧
    (∀ (result : String) (exp : List Char),
      fileAt w.files
        (pathResolve env.appRoot ["themes", currentTheme, "modules/list_modules.js"]) =
          some (FileData.text result) →
      firstBracketMatch result.toList = some exp →
      jsIndexOf (removeSpaces (String.mk exp))
        (removeSpaces (jsxModuleToImport file code type)) = none →
      pathResolve env.appRoot ["themes", currentTheme, "modules/list_modules.js"] ∉ w.locked →
      isDirectory w.files
        (pathResolve env.appRoot ["themes", currentTheme, "modules/list_modules.js"]) = false →
      fileAt (removeFromListModule env file currentTheme code type w).2.files
        (pathResolve env.appRoot ["themes", currentTheme, "modules/list_modules.js"]) =
        some (FileData.text ("export default " ++ removeSpaces (String.mk exp)))) := by
  refine ⟨logged_fst _ w, ?_, ?_, ?_⟩
  · intro hmissing
    unfold removeFromListModule logged tryCatchM M.bind existsSync
    simp only [hmissing, if_true]
    rfl
  · intro result hfile hnone
    have hexists : existsSync
        (pathResolve env.appRoot ["themes", currentTheme, "modules/list_modules.js"]) w =
        (.ok true, w) := by
      unfold existsSync
      rw [pathExists_of_fileAt _ _ _ hfile]
    have hread : readFile
        (pathResolve env.appRoot ["themes", currentTheme, "modules/list_modules.js"]) w =
        (.ok result, w) := by
      unfold readFile
      rw [hfile]
    unfold removeFromListModule logged tryCatchM
    rw [bind_of_ok _ _ _ true (by rw [hexists]), hexists]
    simp only [Bool.true_eq_false, if_false]
    rw [bind_of_ok _ _ _ result (by rw [hread]), hread]
    simp only [hnone]
    rfl
  · intro result exp hfile hmatch habsent hlock hdir
    rw [removeFromListModule_written env file currentTheme code type w result exp hfile hmatch
      hlock hdir]
    have hsame : jsReplace (removeSpaces (String.mk exp))
        (removeSpaces (jsxModuleToImport file code type)) "" = removeSpaces (String.mk exp) := by
      unfold jsReplace
      unfold jsIndexOf at habsent
      rw [replaceFirstChars_absent _ _ _ habsent]
      rfl
    rw [hsame]

/-- C19 (amended) witness: a manifest with the entry of `ModuleBar.js`, spaced
out and followed by a line break, from which `ModuleFoo.js` is removed. -/
theorem removeFromListModule_absent_entry_witness :
    fileAt (removeFromListModule sampleEnv "ModuleFoo.js" "default_theme" "foo" ""
      (manifestWorld
        "export default [ \x7b jsx: require('./ModuleBar.js'), code: 'aq-bar',  \x7d,]\n")).2.files
      (pathResolve sampleEnv.appRoot ["themes", "default_theme", "modules/list_modules.js"]) =
      some (FileData.text ("export default " ++ removeSpaces (String.mk
        "[ \x7b jsx: require('./ModuleBar.js'), code: 'aq-bar',  \x7d,]".toList))) :=
  (removeFromListModule_absent_entry sampleEnv "ModuleFoo.js" "default_theme" "foo" ""
    (manifestWorld
      "export default [ \x7b jsx: require('./ModuleBar.js'), code: 'aq-bar',  \x7d,]\n")).2.2.2
    "export default [ \x7b jsx: require('./ModuleBar.js'), code: 'aq-bar',  \x7d,]\n"
    "[ \x7b jsx: require('./ModuleBar.js'), code: 'aq-bar',  \x7d,]".toList
    (by decide) (by decide) (by decide) (by decide) (by decide)

/-! ### C20 -/

theorem removeSpaces_append (a b : String) :
    removeSpaces (a ++ b) = removeSpaces a ++ removeSpaces b := by
  unfold removeSpaces
  apply String.ext
  simp only [String.toList, String.data_append, List.filter_append]

/-- The text left when the entry that was appended last is the first
occurrence of the entry in the list, whitespace removed. -/
theorem jsReplace_appended (list entry : String)
    (hfirst : jsIndexOf (removeSpaces (list ++ " " ++ entry ++ "]")) (removeSpaces entry) =
      some (removeSpaces list).length) :
    jsReplace (removeSpaces (list ++ " " ++ entry ++ "]")) (removeSpaces entry) "" =
      removeSpaces (list ++ "]") := by
  unfold jsIndexOf at hfirst
  unfold jsReplace
  rw [replaceFirstChars_of_index _ _ _ _ hfirst]
  have hsp : removeSpaces " " = "" := by decide
  have hform : removeSpaces (list ++ " " ++ entry ++ "]") =
      removeSpaces list ++ (removeSpaces entry ++ removeSpaces "]") := by
    rw [removeSpaces_append, removeSpaces_append, removeSpaces_append, hsp, String.append_empty,
      String.append_assoc]
  rw [hform, removeSpaces_append]
  apply String.ext
  have hlen : (removeSpaces list).length = (removeSpaces list).data.length := rfl
  have hlen' : (removeSpaces entry).toList.length = (removeSpaces entry).data.length := rfl
  simp only [String.toList, String.data_append, hlen, List.take_left', List.drop_append,
    List.drop_length, List.append_nil, List.nil_append]
  simp


/-- C20 (as stated, refuted): the type tag `type: 'a]b'`.  The entry of
`ModuleFoo.js` is appended to `export default []`; the removal with the same
tag matches the list up to the `]` inside the tag, does not find the entry in
it, and leaves a file that is not `export default []`. -/
theorem inject_then_remove_bracket_tag :
    jsIndexOf "export default []" (fileNameWithoutModule "ModuleFoo.js") = none ∧
    injectionStep "export default []" "ModuleFoo.js" "type: 'a]b'" =
      some "export default [ \x7b jsx: require('./ModuleFoo.js'), code: 'aq-foo', type: 'a]b' \x7d,]" ∧
    (removeFromListModule sampleEnv "ModuleFoo.js" "default_theme" "foo" "type: 'a]b'"
      (manifestWorld
        "export default [ \x7b jsx: require('./ModuleFoo.js'), code: 'aq-foo', type: 'a]b' \x7d,]")).2.files =
      [("/app/themes/default_theme/modules/list_modules.js",
        FileData.text "export default [\x7bjsx:require('./ModuleFoo.js'),code:'aq-foo',type:'a]")] := by
  decide

/-- C20 (amended): for a component file with an ASCII name, a manifest
`export default [body]` (body without `]` and line terminator) in which the
derived name of the component does not occur, and an entry (file name and type
tag) without `]` and line terminator whose text, whitespace removed, occurs in
the list with the entry appended, whitespace removed, no earlier than where it
was appended: the injection step
gives `export default [body <entry>]`, and `removeFromListModule` with the
derived name and the same tag, on a manifest file holding that text, leaves
`export default ` followed by `[body]` without its whitespace. -/
theorem inject_then_remove (env : Env) (file currentTheme type body : String) (w : World)
    (hascii : isAsciiText file = true)
    (hbody : ∀ c ∈ body.toList, c ≠ ']' ∧ isLineTerminator c = false)
    (hentry : ∀ c ∈ (jsxModuleToImport file (fileNameWithoutModule file) type).toList,
      c ≠ ']' ∧ isLineTerminator c = false)
    (hname : jsIndexOf ("export default [" ++ body ++ "]") (fileNameWithoutModule file) = none)
    (hfirst : jsIndexOf
      (removeSpaces ("[" ++ body ++ " " ++
        jsxModuleToImport file (fileNameWithoutModule file) type ++ "]"))
      (removeSpaces (jsxModuleToImport file (fileNameWithoutModule file) type)) =
        some (removeSpaces ("[" ++ body)).length) :
    injectionStep ("export default [" ++ body ++ "]") file type =
      some ("export default [" ++ body ++ " " ++
        jsxModuleToImport file (fileNameWithoutModule file) type ++ "]") ∧
    (fileAt w.files
        (pathResolve env.appRoot ["themes", currentTheme, "modules/list_modules.js"]) =
        some (FileData.text ("export default [" ++ body ++ " " ++
          jsxModuleToImport file (fileNameWithoutModule file) type ++ "]")) →
      pathResolve env.appRoot ["themes", currentTheme, "modules/list_modules.js"] ∉ w.locked →
      isDirectory w.files
        (pathResolve env.appRoot ["themes", currentTheme, "modules/list_modules.js"]) = false →
      fileAt (removeFromListModule env file currentTheme (fileNameWithoutModule file) type
          w).2.files
        (pathResolve env.appRoot ["themes", currentTheme, "modules/list_modules.js"]) =
        some (FileData.text ("export default " ++ removeSpaces ("[" ++ body ++ "]")))) := by
  have _ := hascii
  constructor
  · have h := injectionStep_first body "" file type hbody
      (by rw [String.append_empty]; exact hname)
    rw [String.append_empty] at h
    exact h
  · intro hfile hlock hdir
    have hlist : ("export default [" ++ body ++ " " ++
        jsxModuleToImport file (fileNameWithoutModule file) type ++ "]").toList =
        "export default ".toList ++ '[' :: ((body ++ " " ++
          jsxModuleToImport file (fileNameWithoutModule file) type).toList ++ ']' :: []) := by
      simp only [String.toList, String.data_append]
      simp
    have hinner : ∀ c ∈ (body ++ " " ++
        jsxModuleToImport file (fileNameWithoutModule file) type).toList,
        c ≠ ']' ∧ isLineTerminator c = false := by
      intro c hc
      simp only [String.toList, String.data_append, List.mem_append] at hc
      rcases hc with (hc | hc) | hc
      · exact hbody c hc
      · have : c = ' ' := by simpa using hc
        rw [this]
        decide
      · exact hentry c hc
    have hmatch : firstBracketMatch ("export default [" ++ body ++ " " ++
        jsxModuleToImport file (fileNameWithoutModule file) type ++ "]").toList =
        some ('[' :: ((body ++ " " ++
          jsxModuleToImport file (fileNameWithoutModule file) type).toList ++ [']'])) := by
      rw [hlist]
      exact firstBracketMatch_list _ _ _ (by decide) hinner
    rw [removeFromListModule_written env file currentTheme (fileNameWithoutModule file) type w _ _
      hfile hmatch hlock hdir]
    have hexp : String.mk ('[' :: ((body ++ " " ++
        jsxModuleToImport file (fileNameWithoutModule file) type).toList ++ [']'])) =
        "[" ++ body ++ " " ++ jsxModuleToImport file (fileNameWithoutModule file) type ++ "]" := by
      apply String.ext
      simp only [String.toList, String.data_append]
      simp
    rw [hexp, jsReplace_appended ("[" ++ body) _ hfirst]

/-- C20 (amended) witness: `ModuleFoo.js` with the tag `type: 'x'` beside the
entry of `ModuleBar.js`. -/
theorem inject_then_remove_witness :
    injectionStep "export default [ \x7b jsx: require('./ModuleBar.js'), code: 'aq-bar',  \x7d,]"
        "ModuleFoo.js" "type: 'x'" =
      some ("export default [" ++ " \x7b jsx: require('./ModuleBar.js'), code: 'aq-bar',  \x7d," ++
        " " ++ jsxModuleToImport "ModuleFoo.js" (fileNameWithoutModule "ModuleFoo.js") "type: 'x'" ++
        "]") ∧
    fileAt (removeFromListModule sampleEnv "ModuleFoo.js" "default_theme"
        (fileNameWithoutModule "ModuleFoo.js") "type: 'x'"
        (manifestWorld ("export default [" ++
          " \x7b jsx: require('./ModuleBar.js'), code: 'aq-bar',  \x7d," ++ " " ++
          jsxModuleToImport "ModuleFoo.js" (fileNameWithoutModule "ModuleFoo.js") "type: 'x'" ++
          "]"))).2.files
      (pathResolve sampleEnv.appRoot ["themes", "default_theme", "modules/list_modules.js"]) =
      some (FileData.text ("export default " ++ removeSpaces ("[" ++
        " \x7b jsx: require('./ModuleBar.js'), code: 'aq-bar',  \x7d," ++ "]"))) :=
  ⟨(inject_then_remove sampleEnv "ModuleFoo.js" "default_theme" "type: 'x'"
      " \x7b jsx: require('./ModuleBar.js'), code: 'aq-bar',  \x7d,"
      (manifestWorld ("export default [" ++
        " \x7b jsx: require('./ModuleBar.js'), code: 'aq-bar',  \x7d," ++ " " ++
        jsxModuleToImport "ModuleFoo.js" (fileNameWithoutModule "ModuleFoo.js") "type: 'x'" ++
        "]"))
      (by decide) (by decide) (by decide) (by decide) (by decide)).1,
    (inject_then_remove sampleEnv "ModuleFoo.js" "default_theme" "type: 'x'"
      " \x7b jsx: require('./ModuleBar.js'), code: 'aq-bar',  \x7d,"
      (manifestWorld ("export default [" ++
        " \x7b jsx: require('./ModuleBar.js'), code: 'aq-bar',  \x7d," ++ " " ++
        jsxModuleToImport "ModuleFoo.js" (fileNameWithoutModule "ModuleFoo.js") "type: 'x'" ++
        "]"))
      (by decide) (by decide) (by decide) (by decide) (by decide)).2 (by decide) (by decide)
      (by decide)⟩

/-! ### The injection step inside `injectFile` -/

/-- The copy of a file leaves what every other path holds. -/
theorem copyFile_other (source target k : String) (w : World) (hne : target ≠ k) :
    fileAt (copyFile source target w).2.files k = fileAt w.files k := by
  unfold copyFile
  split
  · rfl
  · rfl
  · split
    · rfl
    · exact objGet_objSet_other _ _ _ _ hne

/-- The manifest file after the body of the loop of `setFrontModuleInTheme`
ran for a component file: the text `injectionStep` gives. -/
theorem injectFile_manifest (env : Env) (savePath pathModule currentTheme file : String)
    (info result text : String) (descriptor : Info) (w : World)
    (hfile : isComponentFile file = true)
    (hinfo : fileAt w.files (pathResolve env.appRoot [savePath, "info.json"]) =
      some (FileData.text info))
    (hparse : env.parseInfo info = some descriptor)
    (hmanifest : fileAt w.files (pathResolve env.appRoot
      ["themes/" ++ currentTheme ++ "/modules/list_modules.js"]) = some (FileData.text result))
    (hstep : injectionStep result file (typeTag descriptor.type) = some text)
    (hlock : pathResolve env.appRoot ["themes/" ++ currentTheme ++ "/modules/list_modules.js"] ∉
      w.locked)
    (hdir : isDirectory w.files (pathResolve env.appRoot
      ["themes/" ++ currentTheme ++ "/modules/list_modules.js"]) = false)
    (hother : pathResolve env.appRoot ["./themes/" ++ currentTheme ++ "/modules/" ++ file] ≠
      pathResolve env.appRoot ["themes/" ++ currentTheme ++ "/modules/list_modules.js"]) :
    fileAt (injectFile env savePath pathModule currentTheme file w).2.files
      (pathResolve env.appRoot ["themes/" ++ currentTheme ++ "/modules/list_modules.js"]) =
      some (FileData.text text) := by
  have hread₁ : readFile (pathResolve env.appRoot [savePath, "info.json"]) w = (.ok info, w) := by
    unfold readFile
    rw [hinfo]
  have hparsed : parsed (env.parseInfo info) w = (.ok descriptor, w) := by
    rw [hparse]; rfl
  have hread₂ : readFile (pathResolve env.appRoot
      ["themes/" ++ currentTheme ++ "/modules/list_modules.js"]) w = (.ok result, w) := by
    unfold readFile
    rw [hmanifest]
  unfold injectFile
  rw [if_neg (by simp [hfile]), bind_of_ok _ _ _ info (by rw [hread₁]), hread₁,
    bind_of_ok _ _ _ descriptor (by rw [hparsed]), hparsed,
    bind_of_ok _ _ _ result (by rw [hread₂]), hread₂]
  unfold injectionStep at hstep
  by_cases hneeds : needsEntry result (fileNameWithoutModule file) = true
  · rw [if_pos hneeds] at hstep
    simp only [if_pos hneeds, hstep]
    have hwrite := writeFile_text (pathResolve env.appRoot
      ["themes/" ++ currentTheme ++ "/modules/list_modules.js"]) text w hlock hdir
    rw [bind_of_ok _ _ _ () hwrite.1]
    simp only [M.bind, modifyModules]
    rw [copyFile_other _ _ _ _ hother]
    exact hwrite.2
  · rw [if_neg hneeds] at hstep
    cases hstep
    simp only [if_neg hneeds]
    simp only [M.bind, M.pure, modifyModules]
    rw [copyFile_other _ _ _ _ hother]
    exact hmanifest

/-! ### C22 -/

theorem splitChars_no_sep (sep : Char) :
    ∀ l : List Char, sep ∉ l → splitChars sep l = [l] := by
  intro l
  induction l with
  | nil => intro _; rfl
  | cons c cs ih =>
    intro h
    have hc : c ≠ sep := fun hc => h (by rw [hc]; exact List.mem_cons_self _ _)
    rw [splitChars, if_neg hc, ih (fun hm => h (List.mem_cons_of_mem _ hm))]

theorem splitChars_ne_nil (sep : Char) : ∀ l : List Char, splitChars sep l ≠ [] := by
  intro l
  induction l with
  | nil => simp [splitChars]
  | cons c cs ih =>
    rw [splitChars]
    by_cases hc : c = sep
    · rw [if_pos hc]; simp
    · rw [if_neg hc]
      cases h : splitChars sep cs with
      | nil => exact absurd h ih
      | cons p ps => simp

theorem splitChars_append (sep : Char) (rest : List Char) :
    ∀ l : List Char, sep ∉ l → splitChars sep (l ++ sep :: rest) = l :: splitChars sep rest := by
  intro l
  induction l with
  | nil => intro _; rw [List.nil_append, splitChars, if_pos rfl]
  | cons c cs ih =>
    intro h
    have hc : c ≠ sep := fun hc => h (by rw [hc]; exact List.mem_cons_self _ _)
    rw [List.cons_append, splitChars, if_neg hc, ih (fun hm => h (List.mem_cons_of_mem _ hm))]

theorem lastIndexOfChar_none (c : Char) :
    ∀ l : List Char, c ∉ l → lastIndexOfChar c l = none := by
  intro l
  induction l with
  | nil => intro _; rfl
  | cons d ds ih =>
    intro h
    have hd : d ≠ c := fun hd => h (by rw [hd]; exact List.mem_cons_self _ _)
    rw [lastIndexOfChar, ih (fun hm => h (List.mem_cons_of_mem _ hm))]
    simp [hd]

theorem lastIndexOfChar_append (c : Char) (rest : List Char) (hrest : c ∉ rest) :
    ∀ l : List Char, lastIndexOfChar c (l ++ c :: rest) = some l.length := by
  intro l
  induction l with
  | nil =>
    rw [List.nil_append, lastIndexOfChar, lastIndexOfChar_none c rest hrest]
    simp
  | cons d ds ih =>
    rw [List.cons_append, lastIndexOfChar, ih]
    rfl

/-- The name extracted from `name@range` for a name without `@`. -/
theorem dependencyName_unscoped (name range : String) (hne : name ≠ "")
    (hname : '@' ∉ name.toList) (hrange : '@' ∉ range.toList) :
    dependencyName (name ++ "@" ++ range) = name := by
  have hlist : (name ++ "@" ++ range).toList = name.toList ++ '@' :: range.toList := by
    simp only [String.toList, String.data_append]
    simp
  unfold dependencyName jsSplitAt
  rw [hlist, splitChars_append '@' _ _ hname, splitChars_no_sep '@' _ hrange]
  simp only [List.map_cons, List.map_nil]
  have hmk : String.mk name.toList = name := rfl
  rw [hmk, if_neg hne]

/-- The name extracted from `@rest@range`: the `@` is put back in front of the
piece behind it. -/
theorem dependencyName_scoped (rest range : String)
    (hrest : '@' ∉ rest.toList) (hrange : '@' ∉ range.toList) :
    dependencyName ("@" ++ rest ++ "@" ++ range) = "@" ++ rest := by
  have hlist : ("@" ++ rest ++ "@" ++ range).toList =
      [] ++ '@' :: (rest.toList ++ '@' :: range.toList) := by
    simp only [String.toList, String.data_append]
    simp
  unfold dependencyName jsSplitAt
  rw [hlist, splitChars_append '@' _ [] (by simp), splitChars_append '@' _ _ hrest,
    splitChars_no_sep '@' _ hrange]
  simp only [List.map_cons, List.map_nil]
  have hmk : String.mk rest.toList = rest := rfl
  rw [hmk]
  rfl

/-- C22: from a dependency string `name@range` whose range holds no `@`, the
planner and `deactivateModule` extract `name`, for a non-empty name without `@`
and for a scoped name `@scope/pkg`; the `@` between name and range is the last
one of the string. -/
theorem dependencyName_of_value (name range : String) (hrange : '@' ∉ range.toList)
    (hname : (name ≠ "" ∧ '@' ∉ name.toList) ∨
      ∃ scope pkg : String, name = "@" ++ scope ++ "/" ++ pkg ∧ '@' ∉ scope.toList ∧
        '@' ∉ pkg.toList) :
    dependencyName (name ++ "@" ++ range) = name ∧
    lastIndexOfChar '@' (name ++ "@" ++ range).toList = some name.length ∧
    namesToRemove [(name, PlanValue.str (name ++ "@" ++ range))] = .ok [name] := by
  have hfirst : dependencyName (name ++ "@" ++ range) = name := by
    rcases hname with ⟨hne, hfree⟩ | ⟨scope, pkg, hform, hscope, hpkg⟩
    · exact dependencyName_unscoped name range hne hfree hrange
    · have hrest : '@' ∉ (scope ++ "/" ++ pkg).toList := by
        simp only [String.toList, String.data_append, List.mem_append]
        intro h
        rcases h with (h | h) | h
        · exact hscope h
        · simp at h
        · exact hpkg h
      have h := dependencyName_scoped (scope ++ "/" ++ pkg) range hrest hrange
      have hassoc : "@" ++ (scope ++ "/" ++ pkg) = "@" ++ scope ++ "/" ++ pkg := by
        simp only [String.append_assoc]
      rw [hassoc] at h
      rw [hform]
      exact h
  refine ⟨hfirst, ?_, ?_⟩
  · have hlist : (name ++ "@" ++ range).toList = name.toList ++ '@' :: range.toList := by
      simp only [String.toList, String.data_append]
      simp
    rw [hlist, lastIndexOfChar_append '@' _ hrange]
    rfl
  · simp only [namesToRemove, hfirst]

/-- C22 witness: `lodash@^4.17.0` and `@babel/core@^7.0.0`. -/
theorem dependencyName_of_value_witness :
    dependencyName "lodash@^4.17.0" = "lodash" ∧
    dependencyName "@babel/core@^7.0.0" = "@babel/core" :=
  ⟨(dependencyName_of_value "lodash" "^4.17.0" (by decide) (Or.inl ⟨by decide, by decide⟩)).1,
    (dependencyName_of_value "@babel/core" "^7.0.0" (by decide)
      (Or.inr ⟨"babel", "core", by decide, by decide, by decide⟩)).1⟩

/-! ### C24 -/

/-- C24: for an id under which the registry holds no record, `deactivateModule`
throws `ModuleNotFound` with the module list attached as `datas.modules`, and
the state (registry, file system, command log) is the one before the call: no
hook has run and nothing was written, deleted or issued. -/
theorem deactivateModule_unknown_id (env : Env) (idModule : Nat)
    (toBeChanged toBeRemoved : Scoped PlanValue) (w : World)
    (h : findById w.modules idModule = none) :
    deactivateModule env idModule toBeChanged toBeRemoved w =
      (.error ⟨ErrorKind.ModuleNotFound, some w.modules⟩, w) := by
  simp only [deactivateModule, tryCatchM, M.bind, findByIdM, h, throwM, attachModules, raise]
  rfl

/-- C24 witness: the registry holds record 1 only and record 2 is asked
for. -/
theorem deactivateModule_unknown_id_witness :
    deactivateModule sampleEnv 2 ⟨[], []⟩ ⟨[("lodash", PlanValue.str "lodash@^4.0.0")], []⟩
        (installedWorld true ["/app/backoffice/app/foo"]) =
      (.error ⟨ErrorKind.ModuleNotFound, some [installedRecord true ["/app/backoffice/app/foo"]]⟩,
        installedWorld true ["/app/backoffice/app/foo"]) :=
  deactivateModule_unknown_id sampleEnv 2 ⟨[], []⟩
    ⟨[("lodash", PlanValue.str "lodash@^4.0.0")], []⟩
    (installedWorld true ["/app/backoffice/app/foo"]) (by decide)

/-! ### C29 -/

/-- The entry `getEntry` returns is an entry of the archive with the name asked
for. -/
theorem getEntry_some (entries : List ZipEntry) (name : String) (e : ZipEntry)
    (h : getEntry entries name = some e) : e ∈ entries ∧ e.entryName = name := by
  unfold getEntry at h
  have hmem := List.mem_of_find?_eq_some h
  have hp := List.find?_some h
  exact ⟨List.mem_reverse.mp hmem, by simpa using hp⟩

theorem jsStartsWith_append (a b : String) : jsStartsWith (a ++ b) a = true := by
  unfold jsStartsWith
  rw [List.isPrefixOf_iff_prefix]
  simp only [String.toList, String.data_append]
  exact List.prefix_append _ _

/-- An archive that holds the entry `<folder>info.json` holds an entry whose
name starts with `<folder>`. -/
theorem mainFolderFound_of_info (entries : List ZipEntry) (folder : String) (e : ZipEntry)
    (h : getEntry entries (folder ++ "info.json") = some e) :
    mainFolderFound entries folder = true := by
  obtain ⟨hmem, hname⟩ := getEntry_some entries _ e h
  unfold mainFolderFound
  rw [List.any_eq_true]
  refine ⟨e, hmem, ?_⟩
  rw [hname, jsStartsWith_append]
  simp

/-- What an operation may throw: every thrown value satisfies `P`. -/
theorem triple_kind_of_error {α : Type} (f : M α) (P : Thrown → Prop)
    (h : ∀ w e, (f w).1 = .error e → P e) :
    Triple (fun _ => True) f (fun _ _ => True) (fun e _ => P e) := by
  intro w _
  cases hfw : f w with
  | mk r w' =>
    cases r with
    | ok a => trivial
    | error e => exact h w e (by rw [hfw])

theorem existsSync_no_error (key : String) (w : World) (e : Thrown) :
    (existsSync key w).1 ≠ .error e := by
  unfold existsSync
  simp

theorem mkdir_error (key : String) (w : World) (e : Thrown) (h : (mkdir key w).1 = .error e) :
    e = raise (.fsError key) := by
  unfold mkdir at h
  split at h
  · cases h; rfl
  · cases h

theorem copyFile_error (source target : String) (w : World) (e : Thrown)
    (h : (copyFile source target w).1 = .error e) : ∃ p, e = raise (.fsError p) := by
  unfold copyFile at h
  split at h
  · cases h; exact ⟨_, rfl⟩
  · cases h; exact ⟨_, rfl⟩
  · split at h
    · cases h; exact ⟨_, rfl⟩
    · cases h

theorem unlink_error (key : String) (w : World) (e : Thrown) (h : (unlink key w).1 = .error e) :
    e = raise (.fsError key) := by
  unfold unlink at h
  split at h
  · cases h; rfl
  · cases h; rfl
  · split at h
    · cases h; rfl
    · cases h

theorem readFile_error (key : String) (w : World) (e : Thrown)
    (h : (readFile key w).1 = .error e) : e = raise (.fsError key) := by
  unfold readFile at h
  split at h
  · cases h
  · cases h; rfl

theorem parsed_error {α : Type} (r : Option α) (w : World) (e : Thrown)
    (h : (parsed r w).1 = .error e) : e = raise (.external "JSON") := by
  unfold parsed at h
  cases r with
  | none => cases h; rfl
  | some a => cases h

theorem openZip_error (key : String) (w : World) (e : Thrown)
    (h : (openZip key w).1 = .error e) : e = raise (.external "AdmZip") := by
  unfold openZip at h
  split at h
  · cases h
  · cases h; rfl

theorem extractAll_error (cwd target : String) (entries : List ZipEntry) (w : World) (e : Thrown)
    (h : (extractAll cwd target entries w).1 = .error e) : e = raise .undefinedValue := by
  unfold extractAll at h
  split at h
  · cases h
  · cases h; rfl


theorem triple_moveUpload_kind (env : Env) (originalname filepath : String) :
    Triple (fun _ => True) (moveUpload env originalname filepath) (fun _ _ => True)
      (fun e _ => e.kind ≠ ErrorKind.ModuleMainFolder) := by
  unfold moveUpload
  refine triple_bind (triple_kind_of_error _ _ fun w e h => absurd h (existsSync_no_error _ w e))
    fun folderPresent => ?_
  refine triple_bind (Q := fun _ _ => True) ?_ fun _ => ?_
  · by_cases hp : folderPresent = true
    · rw [if_pos hp]
      exact triple_kind_of_error _ _ fun w e h => by cases h
    · rw [if_neg hp]
      exact triple_kind_of_error _ _ fun w e h => by
        rw [mkdir_error _ w e h]; simp [raise]
  · refine triple_bind (Q := fun _ _ => True)
      (triple_kind_of_error _ _ fun w e h => by
        obtain ⟨p, hp⟩ := copyFile_error _ _ w e h
        rw [hp]; simp [raise]) fun _ => ?_
    exact triple_kind_of_error _ _ fun w e h => by
      rw [unlink_error _ w e h]; simp [raise]

theorem triple_checkAquilaVersion_kind (env : Env) (moduleAquilaVersion : Option String) :
    Triple (fun _ => True) (checkAquilaVersion env moduleAquilaVersion) (fun _ _ => True)
      (fun e _ => e.kind ≠ ErrorKind.ModuleMainFolder) := by
  unfold checkAquilaVersion
  cases moduleAquilaVersion with
  | none => exact triple_kind_of_error _ _ fun w e h => by cases h
  | some range =>
    simp only
    by_cases hr : range = ""
    · rw [if_pos hr]
      exact triple_kind_of_error _ _ fun w e h => by cases h
    · rw [if_neg hr]
      refine triple_bind (Q := fun _ _ => True)
        (triple_kind_of_error _ _ fun w e h => by
          rw [readFile_error _ w e h]; simp [raise]) fun packageAquila => ?_
      refine triple_bind (Q := fun _ _ => True)
        (triple_kind_of_error _ _ fun w e h => by
          rw [parsed_error _ w e h]; simp [raise]) fun aquilaVersion => ?_
      by_cases hs : env.satisfies (replaceDotZeros aquilaVersion) (replaceDotZeros range) = true
      · rw [if_pos hs]
        exact triple_kind_of_error _ _ fun w e h => by cases h
      · rw [if_neg hs]
        exact triple_kind_of_error _ _ fun w e h => by
          cases h; simp [raise]

/-- The validations never end with `ModuleMainFolder`: the scan of lines
110-118 runs only after the entry `<folder>info.json` was found, and that
entry starts with `<folder>`. -/
theorem triple_validateArchive_kind (env : Env) (originalname zipFilePath : String) :
    Triple (fun _ => True) (validateArchive env originalname zipFilePath) (fun _ _ => True)
      (fun e _ => e.kind ≠ ErrorKind.ModuleMainFolder) := by
  unfold validateArchive
  refine triple_bind (Q := fun _ _ => True)
    (triple_kind_of_error _ _ fun w e h => by
      rw [openZip_error _ w e h]; simp [raise]) fun entries => ?_
  cases hentry : getEntry entries (jsReplace originalname ".zip" "/" ++ "info.json") with
  | none =>
    exact triple_kind_of_error _ _ fun w e h => by
      cases h; simp [raise]
  | some infojson =>
    simp only
    refine triple_bind (Q := fun _ _ => True)
      (triple_kind_of_error _ _ fun w e h => by
        rw [parsed_error _ w e h]; simp [raise]) fun declared => ?_
    by_cases hname : some (jsReplace originalname ".zip" "") ≠ declared.name
    · rw [if_pos hname]
      exact triple_kind_of_error _ _ fun w e h => by
        cases h; simp [raise]
    · rw [if_neg hname]
      refine triple_bind (Q := fun _ _ => True)
        (triple_checkAquilaVersion_kind env declared.aquilaVersion) fun _ => ?_
      rw [if_neg (by rw [mainFolderFound_of_info entries _ infojson hentry]; simp)]
      exact triple_kind_of_error _ _ fun w e h => by cases h

theorem triple_extractAndRegister_kind (env : Env) (entries : List ZipEntry)
    (extractZipFilePath : String) :
    Triple (fun _ => True) (extractAndRegister env entries extractZipFilePath) (fun _ _ => True)
      (fun e _ => e.kind ≠ ErrorKind.ModuleMainFolder) := by
  unfold extractAndRegister
  refine triple_bind (Q := fun _ _ => True)
    (triple_kind_of_error _ _ fun w e h => by
      rw [extractAll_error _ _ _ w e h]; simp [raise]) fun _ => ?_
  refine triple_bind (Q := fun _ _ => True)
    (triple_kind_of_error _ _ fun w e h => absurd h (existsSync_no_error _ w e))
    fun infoPresent => ?_
  by_cases hp : infoPresent = false
  · rw [if_pos hp]
    exact triple_kind_of_error _ _ fun w e h => by
      cases h; simp [raise]
  · rw [if_neg hp]
    refine triple_bind (Q := fun _ _ => True)
      (triple_kind_of_error _ _ fun w e h => by
        rw [readFile_error _ w e h]; simp [raise]) fun infoFile => ?_
    refine triple_bind (Q := fun _ _ => True)
      (triple_kind_of_error _ _ fun w e h => by
        rw [parsed_error _ w e h]; simp [raise]) fun info => ?_
    cases hname : info.name with
    | none =>
      exact triple_kind_of_error _ _ fun w e h => by
        cases h; simp [raise]
    | some name =>
      simp only
      exact triple_kind_of_error _ _ fun w e h => by
        obtain ⟨_, written, hw, _⟩ := upsertModule_spec info name extractZipFilePath w
        rw [hw] at h
        cases h

/-- C29: an archive in which `getEntry` finds `<folder>info.json` has an entry
whose name starts with `<folder>`, so the scan of lines 110-118 always sets
`found`; and whatever the upload and the state of the host, the value
`initModule` throws is never `ModuleMainFolder`. -/
theorem initModule_never_main_folder (env : Env) (originalname filepath : String) (w : World) :
    (∀ (entries : List ZipEntry) (e : ZipEntry),
      getEntry entries (jsReplace originalname ".zip" "/" ++ "info.json") = some e →
      mainFolderFound entries (jsReplace originalname ".zip" "/") = true) ∧
    ∀ e, (initModule env originalname filepath w).1 = .error e →
      e.kind ≠ ErrorKind.ModuleMainFolder := by
  refine ⟨fun entries e h => mainFolderFound_of_info entries _ e h, ?_⟩
  have htriple : Triple (fun _ => True) (initModule env originalname filepath) (fun _ _ => True)
      (fun e _ => e.kind ≠ ErrorKind.ModuleMainFolder) := by
    by_cases hzip : hasZipExtension originalname = true
    · rw [initModule_of_zip env originalname filepath hzip]
      refine triple_bind (Q := fun _ _ => True) (triple_moveUpload_kind env _ _) fun _ => ?_
      refine triple_tryCatch (F := fun e _ => e.kind ≠ ErrorKind.ModuleMainFolder) ?_ fun e => ?_
      · refine triple_bind (Q := fun _ _ => True) (triple_validateArchive_kind env _ _)
          fun entries => ?_
        exact triple_extractAndRegister_kind env entries _
      · intro w₁ he
        have h := cleanupAndRethrow_fst env originalname e w₁
        cases hres : cleanupAndRethrow env originalname e w₁ with
        | mk r w' =>
          rw [hres] at h
          simp only at h
          subst h
          exact he
    · unfold initModule
      rw [if_pos (by simpa using hzip)]
      exact triple_kind_of_error _ _ fun w e h => by
        cases h; simp [raise]
  intro e he
  have h := htriple w trivial
  cases hres : initModule env originalname filepath w with
  | mk r w' =>
    rw [hres] at h he
    simp only at he
    subst he
    exact h

/-- C29 witness: the archive of `foo.zip` holds `foo/info.json` and no entry
`foo/`; the scan finds the main folder. -/
theorem initModule_never_main_folder_witness :
    mainFolderFound [⟨"other/", ""⟩, ⟨"foo/info.json", "foo"⟩] (jsReplace "foo.zip" ".zip" "/") =
      true :=
  (initModule_never_main_folder sampleEnv "foo.zip" "uploads/tmp"
    (uploadWorld [⟨"other/", ""⟩, ⟨"foo/info.json", "foo"⟩])).1
    [⟨"other/", ""⟩, ⟨"foo/info.json", "foo"⟩] ⟨"foo/info.json", "foo"⟩ (by decide)

/-! ### C27 -/

/-- With `result` left unassigned, `planUninstallation` never returns a plan:
the loop of line 378 (or, before it, a loop over a pinned manifest) reads
`Object.entries` of `undefined`. -/
theorem planUninstallation_unassigned (env : UninstallEnv) (pd : PackageDependencies)
    (plan : UninstallationPlan) : planUninstallation env pd none ≠ .ok plan := by
  intro h
  obtain ⟨entries, _, _, hres, _⟩ := planUninstallation_ok_inv env pd none plan h
  cases hres

/-- A module whose lists are present and empty once cleaned: the planner does
not return. -/
theorem checkDependenciesAtUninstallation_empty_lists (env : UninstallEnv)
    (modules : List Module) (idModule : Nat) (myModule : Module) (pd : PackageDependencies)
    (plan : UninstallationPlan)
    (hfind : findById modules idModule = some myModule)
    (hpd : myModule.packageDependencies = some pd)
    (hsome : pd.api.isSome = true ∨ pd.theme.isSome = true)
    (hapi : declaresSome (pd.api.map env.cleanPackageVersion) = false)
    (htheme : declaresSome (pd.theme.map env.cleanPackageVersion) = false) :
    checkDependenciesAtUninstallation env modules idModule ≠ .ok plan := by
  intro h
  unfold checkDependenciesAtUninstallation at h
  rw [hfind] at h
  simp only [hpd] at h
  rw [if_pos hsome] at h
  split at h
  · cases h
  · rw [if_neg (by simp [hapi, htheme])] at h
    exact planUninstallation_unassigned env _ plan h

/-- C27 (refuted on the code): module `b` has `packageDependencies = {api: [],
theme: []}`; `result` stays unassigned and
`checkDependenciesAtUninstallation` throws a `TypeError` instead of returning
an empty plan.  So it does with an `api` list alone, or a `theme` list alone,
that is empty. -/
theorem checkDependenciesAtUninstallation_empty_lists_throw :
    checkDependenciesAtUninstallation (sampleUninstall [] [] [])
      [sampleModule 1 "b" true (some ⟨some [], some []⟩)] 1 = .error (raise .TypeError) ∧
    checkDependenciesAtUninstallation (sampleUninstall [] [] [])
      [sampleModule 1 "b" true (some ⟨some [], none⟩)] 1 = .error (raise .TypeError) ∧
    checkDependenciesAtUninstallation (sampleUninstall [] [] [])
      [sampleModule 1 "b" true (some ⟨none, some []⟩)] 1 = .error (raise .TypeError) ∧
    checkDependenciesAtUninstallation (sampleUninstall [] [] [])
      [sampleModule 1 "b" true none] 1 = .ok emptyUninstallationPlan := by
  decide

/-! ### C28 -/

/-- C28 (refuted on the code): `lodash` is required as `lodash@^4.0.0` and as
`lodash@4.17.21`, and `lodash@4.17.21` is what is installed.
`toBeChanged.api.lodash` has two values, one of them the installed string
`alreadyInstalled.api.lodash`; the test of line 417 reads
`alreadyInstalled[iterator]` (no scope), which is `undefined` for `lodash`, so
the installed value stays in the list and `needUpgrade` is true.  For a package
named `api` the same situation is reconciled. -/
theorem checkDependenciesAtUninstallation_installed_kept :
    (checkDependenciesAtUninstallation
        (sampleUninstallInstalled [("lodash", ["lodash@^4.0.0", "lodash@4.17.21"])]
          [("lodash", "4.17.21")])
        [sampleModule 1 "b" true (some ⟨some ["lodash@^4.0.0"], none⟩)] 1).toOption.map
      (fun plan => plan.alreadyInstalled.api) = some [("lodash", "lodash@4.17.21")] ∧
    (checkDependenciesAtUninstallation
        (sampleUninstallInstalled [("lodash", ["lodash@^4.0.0", "lodash@4.17.21"])]
          [("lodash", "4.17.21")])
        [sampleModule 1 "b" true (some ⟨some ["lodash@^4.0.0"], none⟩)] 1).toOption.map
      (fun plan => plan.toBeChanged.api) =
      some [("lodash", [some "lodash@^4.0.0", some "lodash@4.17.21"])] ∧
    (checkDependenciesAtUninstallation
        (sampleUninstallInstalled [("lodash", ["lodash@^4.0.0", "lodash@4.17.21"])]
          [("lodash", "4.17.21")])
        [sampleModule 1 "b" true (some ⟨some ["lodash@^4.0.0"], none⟩)] 1).toOption.map
      (fun plan => plan.needUpgrade) = some true ∧
    (checkDependenciesAtUninstallation
        (sampleUninstallInstalled [("api", ["api@^4.0.0", "api@4.17.21"])] [("api", "4.17.21")])
        [sampleModule 1 "b" true (some ⟨some ["api@^4.0.0"], none⟩)] 1).toOption.map
      (fun plan => plan.toBeChanged.api) = some [("api", [some "api@^4.0.0"])] :=
  ⟨by decide, by decide, by decide, by decide⟩

/-! ### C25 -/

theorem map_set_elems (obj : List (String × List String)) :
    (obj.map fun e => (e.1, DepValue.set e.2)).map (fun e => (e.1, e.2.elems)) = obj := by
  rw [List.map_map]
  have : ((fun e : String × DepValue => (e.1, e.2.elems)) ∘
      fun e : String × List String => (e.1, DepValue.set e.2)) = id := by
    funext x
    rfl
  rw [this, List.map_id]

/-- The strings of the plan values of a scope are the merged requirement
sets. -/
theorem normalizeScope_elems (already : List (String × String)) :
    ∀ obj : List (String × List String),
      (normalizeScope already obj).1.map (fun e => (e.1, e.2.elems)) = obj := by
  intro obj
  induction obj with
  | nil => rfl
  | cons e rest ih =>
    obtain ⟨n, v⟩ := e
    unfold normalizeScope
    split
    · rw [List.map_cons, map_set_elems]
      rfl
    · rw [List.map_cons, ih]
      rfl

/-- A test on the strings of the plan values is a test on the merged
requirement sets. -/
theorem exists_long_of_elems (values : List (String × DepValue))
    (obj : List (String × List String))
    (h : values.map (fun e => (e.1, e.2.elems)) = obj) :
    (∃ e ∈ values, e.2.elems.length > 1) ↔ ∃ e ∈ obj, e.2.length > 1 := by
  subst h
  constructor
  · rintro ⟨e, he, hlen⟩
    exact ⟨(e.1, e.2.elems), List.mem_map.mpr ⟨e, he, rfl⟩, hlen⟩
  · rintro ⟨e, he, hlen⟩
    obtain ⟨x, hx, hxe⟩ := List.mem_map.mp he
    subst hxe
    exact ⟨x, hx, hlen⟩

/-- With no installed value recorded as the empty string, the loop over a scope
stops with the flag set exactly when a merged set holds more than one
string. -/
theorem normalizeScope_flag_iff (already : List (String × String))
    (hne : ∀ name, objGet already name ≠ some "") :
    ∀ obj : List (String × List String),
      (normalizeScope already obj).2 = true ↔ ∃ e ∈ obj, e.2.length > 1 := by
  intro obj
  constructor
  · intro h
    induction obj with
    | nil => cases h
    | cons e rest ih =>
      obtain ⟨n, v⟩ := e
      unfold normalizeScope at h
      split at h
      · rename_i hcond
        rcases hcond with hcond | hcond
        · exact absurd hcond (hne n)
        · exact ⟨(n, v), List.mem_cons_self _ _, hcond⟩
      · obtain ⟨e, he, hlen⟩ := ih h
        exact ⟨e, List.mem_cons_of_mem _ he, hlen⟩
  · rintro ⟨e, he, hlen⟩
    exact normalizeScope_flag_of_long already obj e.1 e.2 he hlen

/-- What the merge of a scope records as installed is never the empty
string. -/
theorem mergeScope_already_ne_empty (declared : Option (List String))
    (installed : Except Thrown (List (String × String))) (pinned : Except Thrown (List String))
    (required : List (String × List String))
    (r : List (String × String) × List (String × List String))
    (h : mergeScope declared installed pinned required = .ok r) (name : String) :
    objGet r.1 name ≠ some "" := by
  unfold mergeScope at h
  cases declared with
  | none =>
    cases h
    simp [objGet]
  | some l =>
    simp only at h
    cases installed with
    | error e => cases h
    | ok installedDependencies =>
      cases pinned with
      | error e => cases h
      | ok dependencies =>
        simp only at h
        cases h
        exact mergeInstalled_already_ne_empty installedDependencies [] required name
          (by simp [objGet])

/-- The flag of the normalised plan, when nothing installed is recorded as the
empty string. -/
theorem normalizePlan_needUpgrade_iff (already : Scoped String)
    (changedApi changedTheme : List (String × List String))
    (hne : ∀ scope name, objGet (already.scope scope) name ≠ some "") :
    (normalizePlan already changedApi changedTheme).needUpgrade = true ↔
      ∃ scope : Scope, ∃ e ∈ (normalizePlan already changedApi changedTheme).toBeChanged.scope scope,
        e.2.elems.length > 1 := by
  have hapi := normalizeScope_flag_iff already.api (hne Scope.api) changedApi
  have htheme := normalizeScope_flag_iff already.theme (hne Scope.theme) changedTheme
  have happend := exists_long_of_elems _ _ (normalizeScope_elems already.api changedApi)
  have hthemeNorm := exists_long_of_elems _ _ (normalizeScope_elems already.theme changedTheme)
  have hthemeSet := exists_long_of_elems _ _ (map_set_elems changedTheme)
  by_cases hflag : (normalizeScope already.api changedApi).2 = true
  · simp only [normalizePlan, hflag, if_true, true_iff]
    exact ⟨Scope.api, happend.mpr (hapi.mp hflag)⟩
  · simp only [normalizePlan, hflag]
    simp only [Bool.false_eq_true, if_false]
    constructor
    · intro h
      exact ⟨Scope.theme, hthemeNorm.mpr (htheme.mp h)⟩
    · rintro ⟨scope, hex⟩
      cases scope with
      | api => exact absurd (hapi.mpr (happend.mp hex)) hflag
      | theme => exact htheme.mpr (hthemeNorm.mp hex)


theorem setAdd_nodup (s : List String) (x : String) (h : s.Nodup) : (setAdd s x).Nodup := by
  unfold setAdd
  split
  · exact h
  · rename_i hx
    rw [List.nodup_append]
    refine ⟨h, List.nodup_singleton x, ?_⟩
    intro a ha hb
    have : a = x := by simpa using hb
    exact hx (this ▸ ha)

theorem addToKey_nodup (obj : List (String × List String)) (k x : String)
    (h : ∀ e ∈ obj, e.2.Nodup) : ∀ e ∈ addToKey obj k x, e.2.Nodup := by
  intro e he
  unfold addToKey at he
  obtain ⟨d, hd, hde⟩ := List.mem_map.mp he
  subst hde
  split
  · exact setAdd_nodup _ _ (h d hd)
  · exact h d hd

theorem mergeInstalled_nodup (installed : List (String × String)) :
    ∀ (already : List (String × String)) (changed : List (String × List String)),
      (∀ e ∈ changed, e.2.Nodup) →
      ∀ e ∈ (mergeInstalled installed already changed).2, e.2.Nodup := by
  induction installed with
  | nil => intro already changed h; exact h
  | cons x rest ih =>
    obtain ⟨index, value⟩ := x
    intro already changed h
    unfold mergeInstalled
    split
    · exact ih _ _ (addToKey_nodup changed _ _ h)
    · exact ih _ _ h

theorem mergeManifest_nodup (dependencies : List String) :
    ∀ changed : List (String × List String), (∀ e ∈ changed, e.2.Nodup) →
      ∀ e ∈ mergeManifest dependencies changed, e.2.Nodup := by
  induction dependencies with
  | nil => intro changed h; exact h
  | cons value rest ih =>
    intro changed h
    unfold mergeManifest
    exact ih _ (addToKey_nodup changed _ _ h)

theorem mergeScope_nodup (declared : Option (List String))
    (installed : Except Thrown (List (String × String))) (pinned : Except Thrown (List String))
    (required : List (String × List String))
    (r : List (String × String) × List (String × List String))
    (h : mergeScope declared installed pinned required = .ok r)
    (hreq : ∀ e ∈ required, e.2.Nodup) : ∀ e ∈ r.2, e.2.Nodup := by
  unfold mergeScope at h
  cases declared with
  | none =>
    cases h
    exact hreq
  | some l =>
    simp only at h
    cases installed with
    | error e => cases h
    | ok installedDependencies =>
      cases pinned with
      | error e => cases h
      | ok dependencies =>
        simp only at h
        cases h
        exact mergeManifest_nodup dependencies _
          (mergeInstalled_nodup installedDependencies [] required hreq)

/-- The strings of the values of the normalised plan are the merged sets. -/
theorem normalizePlan_elems (already : Scoped String)
    (changedApi changedTheme : List (String × List String)) (scope : Scope) :
    ((normalizePlan already changedApi changedTheme).toBeChanged.scope scope).map
        (fun e => (e.1, e.2.elems)) =
      match scope with
      | .api => changedApi
      | .theme => changedTheme := by
  by_cases hflag : (normalizeScope already.api changedApi).2 = true
  · cases scope with
    | api =>
      simp only [normalizePlan, hflag, if_true, Scoped.scope]
      exact normalizeScope_elems _ _
    | theme =>
      simp only [normalizePlan, hflag, if_true, Scoped.scope]
      exact map_set_elems _
  · cases scope with
    | api =>
      simp only [normalizePlan, hflag, Bool.false_eq_true, if_false, Scoped.scope]
      exact normalizeScope_elems _ _
    | theme =>
      simp only [normalizePlan, hflag, Bool.false_eq_true, if_false, Scoped.scope]
      exact normalizeScope_elems _ _

/-- A plan `checkDependenciesAtInstallation` returns is the empty plan, or the
normalised plan of two merged scopes of a map `compareDependencies`
returned. -/
theorem checkDependenciesAtInstallation_ok_inv (env : PlannerEnv) (modules : List Module)
    (idModule : Nat) (plan : InstallationPlan)
    (h : checkDependenciesAtInstallation env modules idModule = .ok plan) :
    plan = emptyPlan ∨
    ∃ (pd : PackageDependencies) (candidate : Module) (modulesActivated : List Module)
      (api theme : List (String × String) × List (String × List String)),
      mergeScope pd.api env.installedApi env.aquilaDependencies
        (env.compareDependencies candidate modulesActivated).api = .ok api ∧
      mergeScope pd.theme env.installedTheme env.themeDependencies
        (env.compareDependencies candidate modulesActivated).theme = .ok theme ∧
      plan = normalizePlan ⟨api.1, theme.1⟩ api.2 theme.2 := by
  unfold checkDependenciesAtInstallation at h
  split at h
  · cases h
  · split at h
    · cases h
      exact Or.inl rfl
    · rename_i myModule _ pd _
      split at h
      · split at h
        · cases h
        · rename_i modulesActivated _
          right
          simp only at h
          unfold planInstallation at h
          split at h
          · cases h
          · rename_i api hapi
            split at h
            · cases h
            · rename_i theme htheme
              cases h
              exact ⟨_, _, modulesActivated, api, theme, hapi, htheme, rfl⟩
      · cases h
        exact Or.inl rfl

/-- C25: in a plan `checkDependenciesAtInstallation` returns, `needUpgrade` is
true exactly when some package of `toBeChanged.api` or `toBeChanged.theme`
holds more than one string (the installed snapshot and the manifest entries
being merged in); no value of `alreadyInstalled` is the empty string, so the
test `alreadyInstalled[scope][name] === ''` never holds; and when the sets
`compareDependencies` returns hold no string twice, neither do the lists of the
plan, so that more than one string is more than one distinct string. -/
theorem checkDependenciesAtInstallation_needUpgrade_iff (env : PlannerEnv)
    (modules : List Module) (idModule : Nat) (plan : InstallationPlan)
    (hplan : checkDependenciesAtInstallation env modules idModule = .ok plan) :
    (plan.needUpgrade = true ↔
      ∃ scope : Scope, ∃ e ∈ plan.toBeChanged.scope scope, e.2.elems.length > 1) ∧
    (∀ (scope : Scope) (name : String),
      objGet (plan.alreadyInstalled.scope scope) name ≠ some "") ∧
    ((∀ (m : Module) (l : List Module) (scope : Scope),
        ∀ e ∈ (env.compareDependencies m l).scope scope, e.2.Nodup) →
      (∀ scope : Scope, ∀ e ∈ plan.toBeChanged.scope scope, e.2.elems.Nodup) ∧
      (plan.needUpgrade = true ↔
        ∃ scope : Scope, ∃ e ∈ plan.toBeChanged.scope scope,
          ∃ a ∈ e.2.elems, ∃ b ∈ e.2.elems, a ≠ b)) := by
  have hdistinct : ∀ p : InstallationPlan,
      (∀ scope : Scope, ∀ e ∈ p.toBeChanged.scope scope, e.2.elems.Nodup) →
      ((∃ scope : Scope, ∃ e ∈ p.toBeChanged.scope scope, e.2.elems.length > 1) ↔
        ∃ scope : Scope, ∃ e ∈ p.toBeChanged.scope scope,
          ∃ a ∈ e.2.elems, ∃ b ∈ e.2.elems, a ≠ b) := by
    intro p hnodup
    constructor
    · rintro ⟨scope, e, he, hlen⟩
      refine ⟨scope, e, he, ?_⟩
      have hn := hnodup scope e he
      match hl : e.2.elems, hlen, hn with
      | a :: b :: rest, _, hn =>
        refine ⟨a, by simp, b, by simp, ?_⟩
        intro hab
        rw [hab] at hn
        simp at hn
    · rintro ⟨scope, e, he, a, ha, b, hb, hab⟩
      exact ⟨scope, e, he, length_gt_one_of_two_distinct _ a b ha hb hab⟩
  rcases checkDependenciesAtInstallation_ok_inv env modules idModule plan hplan with
    hempty | ⟨pd, candidate, modulesActivated, api, theme, hapi, htheme, hnorm⟩
  · subst hempty
    have hnone : ¬ ∃ scope : Scope, ∃ e ∈ emptyPlan.toBeChanged.scope scope,
        e.2.elems.length > 1 := by
      rintro ⟨scope, e, he, _⟩
      cases scope <;> simp [emptyPlan, Scoped.scope] at he
    have hnodup : ∀ scope : Scope, ∀ e ∈ emptyPlan.toBeChanged.scope scope, e.2.elems.Nodup := by
      intro scope e he
      cases scope <;> simp [emptyPlan, Scoped.scope] at he
    refine ⟨⟨fun h => by simp [emptyPlan] at h, fun h => absurd h hnone⟩, ?_, fun _ =>
      ⟨hnodup, ⟨fun h => by simp [emptyPlan] at h,
        fun h => absurd ((hdistinct emptyPlan hnodup).mpr h) hnone⟩⟩⟩
    intro scope name
    cases scope <;> simp [emptyPlan, Scoped.scope, objGet]
  · have hne : ∀ (scope : Scope) (name : String),
        objGet ((⟨api.1, theme.1⟩ : Scoped String).scope scope) name ≠ some "" := by
      intro scope name
      cases scope with
      | api => exact mergeScope_already_ne_empty _ _ _ _ api hapi name
      | theme => exact mergeScope_already_ne_empty _ _ _ _ theme htheme name
    have hiff := normalizePlan_needUpgrade_iff ⟨api.1, theme.1⟩ api.2 theme.2 hne
    subst hnorm
    refine ⟨hiff, ?_, ?_⟩
    · intro scope name
      rw [alreadyInstalled_normalizePlan]
      exact hne scope name
    · intro hsets
      have hnodup : ∀ scope : Scope,
          ∀ e ∈ (normalizePlan ⟨api.1, theme.1⟩ api.2 theme.2).toBeChanged.scope scope,
            e.2.elems.Nodup := by
        intro scope e he
        have hel := normalizePlan_elems ⟨api.1, theme.1⟩ api.2 theme.2 scope
        have hmem : (e.1, e.2.elems) ∈
            ((normalizePlan ⟨api.1, theme.1⟩ api.2 theme.2).toBeChanged.scope scope).map
              (fun e => (e.1, e.2.elems)) := List.mem_map.mpr ⟨e, he, rfl⟩
        rw [hel] at hmem
        cases scope with
        | api =>
          exact mergeScope_nodup _ _ _ _ api hapi
            (hsets candidate modulesActivated Scope.api) _ hmem
        | theme =>
          exact mergeScope_nodup _ _ _ _ theme htheme
            (hsets candidate modulesActivated Scope.theme) _ hmem
      exact ⟨hnodup, hiff.trans (hdistinct _ hnodup)⟩

/-- C25 witness: the candidate requires `lodash@^3.0.0`, an active module
requires `lodash@^4.0.0` and `moment@^2.0`. -/
theorem checkDependenciesAtInstallation_needUpgrade_iff_witness :
    ((checkDependenciesAtInstallation
        (samplePlanner ⟨[("lodash", ["lodash@^3.0.0", "lodash@^4.0.0"]),
          ("moment", ["moment@^2.0"])], []⟩ [] [])
        (lodashModules "lodash@^3.0.0") 1).toOption.map fun plan => plan.needUpgrade) =
      some true ∧
    ((normalizePlan ⟨[], []⟩ [("lodash", ["lodash@^3.0.0", "lodash@^4.0.0"]),
        ("moment", ["moment@^2.0"])] []).needUpgrade = true ↔
      ∃ scope : Scope, ∃ e ∈ (normalizePlan ⟨[], []⟩
          [("lodash", ["lodash@^3.0.0", "lodash@^4.0.0"]), ("moment", ["moment@^2.0"])]
          []).toBeChanged.scope scope, e.2.elems.length > 1) :=
  ⟨by decide,
    (checkDependenciesAtInstallation_needUpgrade_iff
      (samplePlanner ⟨[("lodash", ["lodash@^3.0.0", "lodash@^4.0.0"]),
        ("moment", ["moment@^2.0"])], []⟩ [] [])
      (lodashModules "lodash@^3.0.0") 1
      (normalizePlan ⟨[], []⟩ [("lodash", ["lodash@^3.0.0", "lodash@^4.0.0"]),
        ("moment", ["moment@^2.0"])] []) (by decide)).1⟩

/-! ### C21 -/

/-- A text that starts with the pattern loses it at its start. -/
theorem jsReplace_leading (pat rest : String) (hpat : pat ≠ "") :
    jsReplace (pat ++ rest) pat "" = rest := by
  unfold jsReplace
  have hlist : (pat ++ rest).toList = pat.toList ++ rest.toList := by
    simp only [String.toList, String.data_append]
  rw [hlist]
  cases hp : pat.toList with
  | nil =>
    exfalso
    apply hpat
    apply String.ext
    exact hp
  | cons c cs =>
    rw [List.cons_append, replaceFirstChars]
    have hpre : (c :: cs).isPrefixOf (c :: (cs ++ rest.toList)) = true := by
      rw [← List.cons_append, List.isPrefixOf_iff_prefix]
      exact List.prefix_append _ _
    rw [if_pos hpre]
    apply String.ext
    simp

/-- When the suffix is the first occurrence of the pattern, replacing the
pattern by nothing deletes the suffix. -/
theorem jsReplace_trailing (x pat : String)
    (h : jsIndexOf (x ++ pat) pat = some x.length) : jsReplace (x ++ pat) pat "" = x := by
  unfold jsIndexOf at h
  unfold jsReplace
  rw [replaceFirstChars_of_index _ _ _ _ h]
  apply String.ext
  have hlen : x.length = x.data.length := rfl
  simp only [String.toList, String.data_append, hlen, List.take_left', List.drop_append,
    List.drop_length, List.append_nil]

/-- C21 (refuted on the code): `ModuleA.jsx.js` starts with `Module` and ends
with `.js`; without its leading `Module` and its trailing `.js` it is `A.jsx`,
lower-cased `a.jsx`, yet the derived name is `ax.js`, so the code is
`aq-ax.js`: the `.js` that `replace` deletes is the first one, not the
suffix `endsWith` tested. -/
theorem fileNameWithoutModule_inner_js :
    isComponentFile "ModuleA.jsx.js" = true ∧
    fileNameWithoutModule "ModuleA.jsx.js" = "ax.js" ∧
    jsToLowerCase "A.jsx" = "a.jsx" := by
  decide

/-- For a file name `Module<x>.js` in which the final `.js` is the first
`.js` behind the leading `Module`, the derived name is `<x>`
lower-cased, so the code is `aq-` followed by it; the injection step builds
its entry with the derived name of the file, and the removal of
`addOrRemoveThemeFiles` hands the derived name of the same file to
`removeFromListModule`, which looks for the entry built with it. -/
theorem fileNameWithoutModule_of_component (x : String)
    (hjs : jsIndexOf (x ++ ".js") ".js" = some x.length) :
    fileNameWithoutModule ("Module" ++ x ++ ".js") = jsToLowerCase x ∧
    (∀ result type : String,
      needsEntry result (fileNameWithoutModule ("Module" ++ x ++ ".js")) = true →
      injectionStep result ("Module" ++ x ++ ".js") type =
        withEntry result (jsxModuleToImport ("Module" ++ x ++ ".js") (jsToLowerCase x) type)) ∧
    (∀ (env : Env) (pathThemeComponents type : String),
      isComponentFile ("Module" ++ x ++ ".js") = true →
      addOrRemoveThemeFile env pathThemeComponents true type ("Module" ++ x ++ ".js") =
        M.bind (removeFromListModule env ("Module" ++ x ++ ".js") env.currentTheme
          (jsToLowerCase x) type) fun _ =>
        M.bind (existsSync (pathResolve env.appRoot
          ["themes", env.currentTheme, "modules", "Module" ++ x ++ ".js"])) fun present =>
          if present = true then
            logged (unlink (pathResolve env.appRoot
              ["themes", env.currentTheme, "modules", "Module" ++ x ++ ".js"]))
          else M.pure ()) := by
  have hname : fileNameWithoutModule ("Module" ++ x ++ ".js") = jsToLowerCase x := by
    unfold fileNameWithoutModule
    rw [String.append_assoc, jsReplace_leading "Module" (x ++ ".js") (by decide),
      jsReplace_trailing x ".js" hjs]
  refine ⟨hname, ?_, ?_⟩
  · intro result type hneeds
    unfold injectionStep
    rw [if_pos hneeds, hname]
  · intro env pathThemeComponents type hfile
    unfold addOrRemoveThemeFile
    rw [if_neg (by simp [hfile]), if_pos rfl, hname]

/-- The example of line 711: `ModuleNomComposant.js` gives `nomcomposant`. -/
theorem fileNameWithoutModule_of_component_example :
    fileNameWithoutModule "ModuleNomComposant.js" = "nomcomposant" ∧
    jsxModuleToImport "ModuleNomComposant.js" (fileNameWithoutModule "ModuleNomComposant.js") "" =
      "\x7b jsx: require('./ModuleNomComposant.js'), code: 'aq-nomcomposant',  \x7d," :=
  ⟨((fileNameWithoutModule_of_component "NomComposant" (by decide)).1).trans (by decide),
    by decide⟩

/-! ### C30 -/

/-- The template of an element that does not include the component, after
`initElement`: the component behind the text it held. -/
theorem initElement_fresh (component : String) (elem : TemplateElement)
    (h : jsIndexOf (templateText elem.component_template) component = none) :
    (initElement component elem).component_template =
      some (templateText elem.component_template ++ component) := by
  unfold initElement
  rw [if_pos (Or.inr (by rw [h]; rfl))]

/-- C30 (as stated, refuted): the template `ab` does not contain the component
`aba`; `initComponentTemplate` makes it `ababa`, in which `aba` first occurs at
the start, and `uninitComponentTemplate` leaves `ba`, not `ab`. -/
theorem uninitComponentTemplate_overlap :
    jsIndexOf "ab" "aba" = none ∧
    initComponentTemplate [⟨1, some "ab", []⟩] "aba" = [⟨1, some "ababa", []⟩] ∧
    uninitComponentTemplate (initComponentTemplate [⟨1, some "ab", []⟩] "aba") "aba" "slot" =
      .ok [⟨1, some "ba", []⟩] := by
  decide

/-- C30 (amended): for every element whose template `t` does not contain the
component `c`, and in which `c` does not occur in `t` followed by `c` before the
end of `t`, `uninitComponentTemplate` (for a field other than
`component_template`) undoes `initComponentTemplate`: the template of every
element is again the text `t` it was (a missing template comes back as the
empty text). -/
theorem uninitComponentTemplate_undoes_init (elements : List TemplateElement)
    (component field : String) (hfield : field ≠ "component_template")
    (hfresh : ∀ e ∈ elements, jsIndexOf (templateText e.component_template) component = none)
    (hfirst : ∀ e ∈ elements,
      jsIndexOf (templateText e.component_template ++ component) component =
        some (templateText e.component_template).length) :
    ∃ result, uninitComponentTemplate (initComponentTemplate elements component) component field =
        .ok result ∧
      result.map (fun e => (e._id, e.component_template)) =
        elements.map (fun e => (e._id, some (templateText e.component_template))) := by
  refine ⟨(initComponentTemplate elements component).map (uninitElement component field), ?_, ?_⟩
  · unfold uninitComponentTemplate
    rw [if_neg (fun h => hfield h.1)]
  · unfold initComponentTemplate
    rw [List.map_map, List.map_map]
    apply List.map_congr_left
    intro e he
    simp only [Function.comp, uninitElement]
    have hinit := initElement_fresh component e (hfresh e he)
    have hid : (initElement component e)._id = e._id := by
      unfold initElement
      split <;> rfl
    rw [hid, hinit]
    simp only [templateText, Option.getD_some]
    have h := jsReplace_trailing (e.component_template.getD "") component (hfirst e he)
    rw [h]

/-- C30 (amended) witness: the component `<aq-foo />` on an element without a
template and on one whose template is `<aq-bar />`. -/
theorem uninitComponentTemplate_undoes_init_witness :
    ∃ result, uninitComponentTemplate
        (initComponentTemplate [⟨1, none, []⟩, ⟨2, some "<aq-bar />", [("slot", "x")]⟩]
          "<aq-foo />") "<aq-foo />" "slot" = .ok result ∧
      result.map (fun e => (e._id, e.component_template)) =
        [(1, some ""), (2, some "<aq-bar />")] :=
  uninitComponentTemplate_undoes_init [⟨1, none, []⟩, ⟨2, some "<aq-bar />", [("slot", "x")]⟩]
    "<aq-foo />" "slot" (by decide) (by decide) (by decide)

/-! ### C23 -/

/-- The back-office folder is recorded exactly when its source is accessible,
whatever became of the copy. -/
theorem copyBackoffice_recorded (env : Env) (name : String) (w : World) :
    (copyBackoffice env name w).1 =
      .ok (if pathExists w.files (pathResolve env.appRoot ["modules/" ++ name ++ "/app/"]) = true
        then [pathResolve env.appRoot ["backoffice/app/" ++ name]] else []) := by
  unfold copyBackoffice access existsSync
  simp only [M.bind]
  by_cases h : pathExists w.files (pathResolve env.appRoot ["modules/" ++ name ++ "/app/"]) = true
  · simp only [h, if_true]
    rw [bind_of_ok _ _ _ () (logged_fst _ _)]
    rfl
  · simp only [h]
    rfl

/-- The folder of the back translations is recorded exactly when the module
asks for them and their source exists, whatever became of the copy. -/
theorem copyTranslationBack_recorded (env : Env) (myModule : Module) (w : World) :
    (copyTranslationBack env myModule w).1 =
      .ok (if myModule.loadTranslationBack = true ∧
          pathExists w.files
            (pathResolve env.appRoot ["modules", myModule.name, "translations/back"]) = true
        then [pathResolve env.appRoot ["backoffice/assets/translations/modules", myModule.name]]
        else []) := by
  unfold copyTranslationBack
  by_cases hload : myModule.loadTranslationBack = true
  · rw [if_pos hload]
    unfold existsSync
    simp only [M.bind]
    by_cases h : pathExists w.files
        (pathResolve env.appRoot ["modules", myModule.name, "translations/back"]) = true
    · simp only [h, if_true, hload, and_self]
      rw [bind_of_ok _ _ _ () (logged_fst _ _)]
      rfl
    · simp only [h, hload]
      rfl
  · rw [if_neg hload, if_neg (fun hh => hload hh.1)]
    rfl

/-- The folder of the front translations of a language is recorded exactly
when its source exists, whatever became of the copy. -/
theorem copyTranslationFrontFile_recorded (env : Env) (name file : String) (w : World) :
    (copyTranslationFrontFile env name file w).1 =
      .ok (if pathExists w.files
          (pathResolve env.appRoot ["modules", name, "translations/front", file]) = true
        then [pathResolve env.appRoot
          ["themes", env.currentTheme, "assets/i18n", file, "modules", name]]
        else []) := by
  unfold copyTranslationFrontFile existsSync
  simp only [M.bind]
  by_cases h : pathExists w.files
      (pathResolve env.appRoot ["modules", name, "translations/front", file]) = true
  · simp only [h, if_true]
    rw [bind_of_ok _ _ _ () (logged_fst _ _)]
    rfl
  · simp only [h]
    rfl

/-- What a collecting loop returns is made of what its iterations return. -/
theorem collectM_mem {α β : Type} (body : α → M (List β)) (Q : β → Prop)
    (hbody : ∀ x w r, (body x w).1 = .ok r → ∀ p ∈ r, Q p) :
    ∀ (xs : List α) (w : World) (r : List β), (collectM body xs w).1 = .ok r → ∀ p ∈ r, Q p := by
  intro xs
  induction xs with
  | nil =>
    intro w r h p hp
    cases h
    cases hp
  | cons x xs ih =>
    intro w r h p hp
    unfold collectM at h
    simp only [M.bind] at h
    cases hx : body x w with
    | mk rx wx =>
      rw [hx] at h
      cases rx with
      | error e => cases h
      | ok first =>
        simp only at h
        cases hrest : collectM body xs wx with
        | mk rr wr =>
          rw [hrest] at h
          cases rr with
          | error e => cases h
          | ok others =>
            simp only [M.pure] at h
            cases h
            rcases List.mem_append.mp hp with hp | hp
            · exact hbody x w first (by rw [hx]) p hp
            · exact ih wx others (by rw [hrest]) p hp

/-- Every path recorded for the front translations is the folder of a
language. -/
theorem copyTranslationFront_recorded (env : Env) (myModule : Module) (w : World)
    (front : List String) (h : (copyTranslationFront env myModule w).1 = .ok front) :
    ∀ p ∈ front, ∃ file, p = pathResolve env.appRoot
      ["themes", env.currentTheme, "assets/i18n", file, "modules", myModule.name] := by
  unfold copyTranslationFront at h
  by_cases hload : myModule.loadTranslationFront = true
  · rw [if_pos hload] at h
    simp only [M.bind] at h
    cases hdir : readdir (pathResolve env.appRoot
        ["themes/" ++ env.currentTheme ++ "/assets/i18n/"]) w with
    | mk rd wd =>
      rw [hdir] at h
      cases rd with
      | error e => cases h
      | ok files =>
        simp only at h
        refine collectM_mem (copyTranslationFrontFile env myModule.name) _ ?_ files wd front h
        intro file w₀ r hr p hp
        rw [copyTranslationFrontFile_recorded] at hr
        cases hr
        split at hp
        · exact ⟨file, by simpa using hp⟩
        · cases hp
  · rw [if_neg hload] at h
    cases h
    intro p hp
    cases hp


/-! #### Paths that stay on disk -/

theorem pathExists_iff (files : List (String × FileData)) (key : String) :
    pathExists files key = true ↔
      ∃ k ∈ objKeys files, k = key ∨ isUnder key k = true := by
  unfold pathExists objKeys
  rw [List.any_eq_true]
  constructor
  · rintro ⟨e, he, hk⟩
    exact ⟨e.1, List.mem_map.mpr ⟨e, he, rfl⟩, by simpa using hk⟩
  · rintro ⟨k, hk, hcond⟩
    obtain ⟨e, he, hek⟩ := List.mem_map.mp hk
    subst hek
    exact ⟨e, he, by simpa using hcond⟩

theorem pathExists_objSet (files : List (String × FileData)) (k key : String) (v : FileData)
    (h : pathExists files key = true) : pathExists (objSet files k v) key = true := by
  rw [pathExists_iff] at h ⊢
  obtain ⟨k', hk', hcond⟩ := h
  exact ⟨k', (mem_objKeys_objSet files k k' v).mpr (Or.inr hk'), hcond⟩

theorem pathExists_foldl_objSet (key : String) :
    ∀ (entries files : List (String × FileData)), pathExists files key = true →
      pathExists (entries.foldl (fun fs e => objSet fs e.1 e.2) files) key = true := by
  intro entries
  induction entries with
  | nil => intro files h; exact h
  | cons e rest ih =>
    intro files h
    rw [List.foldl_cons]
    exact ih _ (pathExists_objSet files e.1 key e.2 h)

theorem keepsPath_of_keeps {α : Type} (key : String) (f : M α) (h : Keeps World.files f) :
    KeepsPath key f := by
  intro w hw
  rw [h w]
  exact hw

theorem keepsPath_bind {α γ : Type} (key : String) (f : M α) (g : α → M γ)
    (hf : KeepsPath key f) (hg : ∀ a, KeepsPath key (g a)) : KeepsPath key (M.bind f g) := by
  intro w hw
  have h := hf w hw
  unfold M.bind
  cases hfw : f w with
  | mk r w' =>
    rw [hfw] at h
    cases r with
    | error e => exact h
    | ok a => exact hg a w' h

theorem keepsPath_tryCatch {α : Type} (key : String) (f : M α) (handler : Thrown → M α)
    (hf : KeepsPath key f) (hh : ∀ e, KeepsPath key (handler e)) :
    KeepsPath key (tryCatchM f handler) := by
  intro w hw
  have h := hf w hw
  unfold tryCatchM
  cases hfw : f w with
  | mk r w' =>
    rw [hfw] at h
    cases r with
    | error e => exact hh e w' h
    | ok a => exact h

theorem keepsPath_pure {α : Type} (key : String) (a : α) : KeepsPath key (M.pure a) :=
  fun _ h => h

theorem keepsPath_throw {α : Type} (key : String) (e : Thrown) :
    KeepsPath key (throwM e : M α) :=
  fun _ h => h

theorem keepsPath_logged (key : String) (f : M Unit) (hf : KeepsPath key f) :
    KeepsPath key (logged f) :=
  keepsPath_tryCatch key f _ hf fun _ => keepsPath_pure key ()

theorem keepsPath_ite {α : Type} (key : String) (c : Prop) [Decidable c] (f g : M α)
    (hf : KeepsPath key f) (hg : KeepsPath key g) : KeepsPath key (if c then f else g) := by
  split
  · exact hf
  · exact hg

theorem keepsPath_forEach {α : Type} (key : String) (body : α → M Unit)
    (hbody : ∀ x, KeepsPath key (body x)) : ∀ xs, KeepsPath key (forEachM body xs) := by
  intro xs
  induction xs with
  | nil => exact keepsPath_pure key ()
  | cons x xs ih =>
    unfold forEachM
    exact keepsPath_bind key _ _ (hbody x) fun _ => ih

theorem keepsPath_collect {α β : Type} (key : String) (body : α → M (List β))
    (hbody : ∀ x, KeepsPath key (body x)) : ∀ xs, KeepsPath key (collectM body xs) := by
  intro xs
  induction xs with
  | nil => exact keepsPath_pure key []
  | cons x xs ih =>
    unfold collectM
    exact keepsPath_bind key _ _ (hbody x) fun _ =>
      keepsPath_bind key _ _ ih fun _ => keepsPath_pure key _

theorem keepsPath_writeFile (key target content : String) :
    KeepsPath key (writeFile target content) := by
  intro w hw
  unfold writeFile
  split
  · exact hw
  · exact pathExists_objSet _ _ _ _ hw

theorem keepsPath_copyFile (key source target : String) :
    KeepsPath key (copyFile source target) := by
  intro w hw
  unfold copyFile
  split
  · exact hw
  · exact hw
  · split
    · exact hw
    · exact pathExists_objSet _ _ _ _ hw

theorem keepsPath_copyRecursive (key source target : String) :
    KeepsPath key (copyRecursive source target) := by
  intro w hw
  unfold copyRecursive
  split
  · exact hw
  · split
    · exact hw
    · exact pathExists_foldl_objSet key _ _ hw

theorem keepsPath_modifyModules (key : String) (f : List Module → List Module) :
    KeepsPath key (modifyModules f) :=
  fun _ h => h

theorem keepsPath_injectFile (key : String) (env : Env)
    (savePath pathModule currentTheme file : String) :
    KeepsPath key (injectFile env savePath pathModule currentTheme file) := by
  unfold injectFile
  apply keepsPath_ite
  · exact keepsPath_pure key ()
  · refine keepsPath_bind key _ _ (keepsPath_of_keeps key _ (keeps_readFile _)) fun info => ?_
    refine keepsPath_bind key _ _ (keepsPath_of_keeps key _ (keeps_parsed _ _)) fun descriptor => ?_
    refine keepsPath_bind key _ _ (keepsPath_of_keeps key _ (keeps_readFile _)) fun result => ?_
    refine keepsPath_bind key _ _ ?_ fun _ => ?_
    · apply keepsPath_ite
      · cases withEntry result
            (jsxModuleToImport file (fileNameWithoutModule file) (typeTag descriptor.type)) with
        | none => exact keepsPath_throw key _
        | some text => exact keepsPath_writeFile key _ _
      · exact keepsPath_pure key ()
    · exact keepsPath_bind key _ _ (keepsPath_modifyModules key _) fun _ =>
        keepsPath_copyFile key _ _

theorem keepsPath_setFrontModuleInTheme (key : String) (env : Env) (pathModule theme : String) :
    KeepsPath key (setFrontModuleInTheme env pathModule theme) := by
  unfold setFrontModuleInTheme
  refine keepsPath_bind key _ _ (keepsPath_of_keeps key _ (keeps_access _)) fun present => ?_
  apply keepsPath_ite
  · exact keepsPath_pure key ()
  · refine keepsPath_bind key _ _ (keepsPath_of_keeps key _ (keeps_readdir _)) fun resultDir => ?_
    exact keepsPath_forEach key _ (fun file => keepsPath_injectFile key env _ _ _ file) resultDir

/-- The injection of the theme components deletes nothing. -/
theorem keepsPath_addThemeFiles (key : String) (env : Env) (pathThemeComponents type : String) :
    KeepsPath key (addOrRemoveThemeFiles env pathThemeComponents false type) := by
  unfold addOrRemoveThemeFiles
  refine keepsPath_bind key _ _ (keepsPath_of_keeps key _ (keeps_existsSync _)) fun present => ?_
  apply keepsPath_ite
  · exact keepsPath_pure key ()
  · refine keepsPath_bind key _ _ (keepsPath_of_keeps key _ (keeps_readdir _)) fun files => ?_
    refine keepsPath_bind key _ _ ?_ fun _ => ?_
    · refine keepsPath_forEach key _ (fun file => ?_) files
      unfold addOrRemoveThemeFile
      apply keepsPath_ite
      · exact keepsPath_pure key ()
      · rw [if_neg (by decide)]
        exact keepsPath_setFrontModuleInTheme key env _ _
    · apply keepsPath_ite
      · exact keepsPath_of_keeps key _ (keeps_liftExcept _ _)
      · exact keepsPath_pure key ()

theorem keepsPath_copyTranslationBack (key : String) (env : Env) (myModule : Module) :
    KeepsPath key (copyTranslationBack env myModule) := by
  unfold copyTranslationBack
  apply keepsPath_ite
  · refine keepsPath_bind key _ _ (keepsPath_of_keeps key _ (keeps_existsSync _)) fun present => ?_
    apply keepsPath_ite
    · exact keepsPath_bind key _ _ (keepsPath_logged key _ (keepsPath_copyRecursive key _ _))
        fun _ => keepsPath_pure key _
    · exact keepsPath_pure key _
  · exact keepsPath_pure key _

theorem keepsPath_copyTranslationFront (key : String) (env : Env) (myModule : Module) :
    KeepsPath key (copyTranslationFront env myModule) := by
  unfold copyTranslationFront
  apply keepsPath_ite
  · refine keepsPath_bind key _ _ (keepsPath_of_keeps key _ (keeps_readdir _)) fun files => ?_
    refine keepsPath_collect key _ (fun file => ?_) files
    unfold copyTranslationFrontFile
    refine keepsPath_bind key _ _ (keepsPath_of_keeps key _ (keeps_existsSync _)) fun present => ?_
    apply keepsPath_ite
    · exact keepsPath_bind key _ _ (keepsPath_logged key _ (keepsPath_copyRecursive key _ _))
        fun _ => keepsPath_pure key _
    · exact keepsPath_pure key _
  · exact keepsPath_pure key _

theorem commandsBlind_files : CommandsBlind World.files := fun _ _ => rfl


theorem mem_objKeys_foldl_objSet :
    ∀ (entries files : List (String × FileData)) (k : String),
      (k ∈ objKeys files ∨ k ∈ objKeys entries) →
      k ∈ objKeys (entries.foldl (fun fs e => objSet fs e.1 e.2) files) := by
  intro entries
  induction entries with
  | nil =>
    intro files k h
    rcases h with h | h
    · exact h
    · simp [objKeys] at h
  | cons e rest ih =>
    intro files k h
    rw [List.foldl_cons]
    apply ih
    rcases h with h | h
    · exact Or.inl ((mem_objKeys_objSet files e.1 k e.2).mpr (Or.inr h))
    · simp only [objKeys, List.map_cons, List.mem_cons] at h
      rcases h with h | h
      · exact Or.inl ((mem_objKeys_objSet files e.1 k e.2).mpr (Or.inl h))
      · exact Or.inr h

/-- The key of an entry at the source, or below it, re-rooted at the target is
the target, or below it. -/
theorem rerooted_key (source target k : String)
    (h : k = source ∨ isUnder source k = true) :
    target ++ String.mk (k.toList.drop source.length) = target ∨
      isUnder target (target ++ String.mk (k.toList.drop source.length)) = true := by
  rcases h with h | h
  · left
    subst h
    have hdrop : k.toList.drop k.length = [] := by
      have : k.length = k.toList.length := rfl
      rw [this, List.drop_length]
    rw [hdrop]
    apply String.ext
    simp
  · right
    unfold isUnder jsStartsWith at h ⊢
    rw [List.isPrefixOf_iff_prefix] at h ⊢
    obtain ⟨t, ht⟩ := h
    have hk : k.toList = source.toList ++ ('/' :: t) := by
      rw [← ht]
      simp only [String.toList, String.data_append]
      simp
    have hlen : source.length = source.toList.length := rfl
    rw [hk, hlen, List.drop_left']
    · refine ⟨t, ?_⟩
      simp only [String.toList, String.data_append]
      simp
    · rfl

/-- A recursive copy that succeeds leaves something at its target. -/
theorem copyRecursive_creates (source target : String) (w : World)
    (h : (copyRecursive source target w).1 = .ok ()) :
    pathExists (copyRecursive source target w).2.files target = true := by
  unfold copyRecursive at h ⊢
  split
  · rename_i hmissing
    rw [if_pos hmissing] at h
    cases h
  · rename_i hpresent
    split
    · rename_i hlocked
      rw [if_neg hpresent, if_pos hlocked] at h
      cases h
    · have hsource : pathExists w.files source = true := by simpa using hpresent
      rw [pathExists_iff] at hsource
      obtain ⟨k, hk, hcond⟩ := hsource
      obtain ⟨e, he, hek⟩ := List.mem_map.mp hk
      subst hek
      rw [pathExists_iff]
      refine ⟨target ++ String.mk (e.1.toList.drop source.length), ?_,
        rerooted_key source target e.1 hcond⟩
      apply mem_objKeys_foldl_objSet
      right
      unfold rerooted objKeys subtree
      rw [List.map_map]
      refine List.mem_map.mpr ⟨e, List.mem_filter.mpr ⟨he, by simpa using hcond⟩, rfl⟩

theorem logged_of_ok (f : M Unit) (w : World) (h : (f w).1 = .ok ()) :
    (logged f w).2 = (f w).2 := by
  unfold logged tryCatchM
  cases hfw : f w with
  | mk r w' =>
    rw [hfw] at h
    simp only at h
    subst h
    rfl


theorem attachModules_not_ok {α : Type} (err : Thrown) (w : World) (a : α) :
    (attachModules err w : Except Thrown α × World).1 ≠ .ok a := by
  unfold attachModules
  split <;> simp

/-- A `try` whose handler always throws returns only what its body returns. -/
theorem tryCatch_attach_ok_inv {α : Type} (f : M α) (w w' : World) (a : α)
    (h : tryCatchM f attachModules w = (.ok a, w')) : f w = (.ok a, w') := by
  unfold tryCatchM at h
  cases hfw : f w with
  | mk r w₁ =>
    rw [hfw] at h
    cases r with
    | ok b => exact h
    | error e =>
      simp only at h
      exact absurd (by rw [h]) (attachModules_not_ok e w₁ a)

/-- C23 (as stated, refuted): module `foo` has a back-office folder
`modules/foo/app/` and the destination of its copy is write-protected.  The
copy fails and is logged; `activateModule` returns, the record is active and
its `files` list holds `/app/backoffice/app/foo`, a path at which nothing was
created. -/
theorem activateModule_failed_copy_recorded :
    (activateModule sampleEnv 1 ⟨[], []⟩
        (appWorld ["/app/backoffice/app/foo/index.js"])).1.toOption.map
      (fun l => l.map fun m => (m._id, m.active, m.files)) =
      some [(1, true, ["/app/backoffice/app/foo"])] ∧
    pathExists (activateModule sampleEnv 1 ⟨[], []⟩
        (appWorld ["/app/backoffice/app/foo/index.js"])).2.files "/app/backoffice/app/foo" =
      false ∧
    (copyRecursive "/app/modules/foo/app" "/app/backoffice/app/foo"
        (appWorld ["/app/backoffice/app/foo/index.js"])).1 =
      .error (raise (.fsError "/app/backoffice/app/foo")) := by
  decide

/-- C23 (amended): after a successful `activateModule`, the paths appended to
the `files` list of the module are the destinations of the copies that were
attempted: the back-office folder when `modules/<name>/app/` is accessible, the
folder of the back translations when the module asks for them and their source
exists, and folders of front translations, one per language; each is recorded
whether its copy succeeded or failed.  When the copy of the back-office folder,
or of the back translations, succeeded, its destination is on disk after the
activation. -/
theorem activateModule_records_attempted (env : Env) (idModule : Nat)
    (toBeChanged : Scoped PlanValue) (w w' : World) (l : List Module) (myModule : Module)
    (hfind : findById w.modules idModule = some myModule)
    (hok : activateModule env idModule toBeChanged w = (.ok l, w')) :
    ∃ (w₁ w₂ : World) (front : List String) (m' : Module) (before : List String),
      (copyBackoffice env myModule.name w).2 = w₁ ∧
      (copyTranslationBack env myModule w₁).2 = w₂ ∧
      (copyTranslationFront env myModule w₂).1 = .ok front ∧
      findById w'.modules idModule = some m' ∧ m'.active = true ∧
      m'.files = before ++
        ((if pathExists w.files
            (pathResolve env.appRoot ["modules/" ++ myModule.name ++ "/app/"]) = true
          then [pathResolve env.appRoot ["backoffice/app/" ++ myModule.name]] else []) ++
        (if myModule.loadTranslationBack = true ∧
            pathExists w₁.files
              (pathResolve env.appRoot ["modules", myModule.name, "translations/back"]) = true
          then [pathResolve env.appRoot ["backoffice/assets/translations/modules", myModule.name]]
          else []) ++ front) ∧
      (∀ p ∈ front, ∃ file, p = pathResolve env.appRoot
        ["themes", env.currentTheme, "assets/i18n", file, "modules", myModule.name]) ∧
      (pathExists w.files
          (pathResolve env.appRoot ["modules/" ++ myModule.name ++ "/app/"]) = true →
        (copyRecursive (pathResolve env.appRoot ["modules/" ++ myModule.name ++ "/app/"])
          (pathResolve env.appRoot ["backoffice/app/" ++ myModule.name]) w).1 = .ok () →
        pathExists w'.files (pathResolve env.appRoot ["backoffice/app/" ++ myModule.name]) =
          true) ∧
      (myModule.loadTranslationBack = true →
        pathExists w₁.files
          (pathResolve env.appRoot ["modules", myModule.name, "translations/back"]) = true →
        (copyRecursive (pathResolve env.appRoot ["modules", myModule.name, "translations/back"])
          (pathResolve env.appRoot ["backoffice/assets/translations/modules", myModule.name])
          w₁).1 = .ok () →
        pathExists w'.files
          (pathResolve env.appRoot ["backoffice/assets/translations/modules", myModule.name]) =
          true) := by
  have hid := findById_id _ _ _ hfind
  have hunfold : activateModule env idModule toBeChanged w =
      tryCatchM (M.bind
        (fun w => (env.checkModuleDepencendiesAtInstallation w.modules (some myModule), w))
        fun _ => activateFound env myModule toBeChanged) attachModules w := by
    simp only [activateModule, tryCatchM, M.bind, findByIdM, hfind]
  rw [hunfold] at hok
  have hbody := tryCatch_attach_ok_inv _ w w' l hok
  obtain ⟨_, w₀, hcheck, hfound⟩ := bind_ok_inv _ _ w w' l hbody
  have hw₀ : w = w₀ := congrArg Prod.snd hcheck
  subst hw₀
  unfold activateFound at hfound
  obtain ⟨copied, w₁, h₁, hfound⟩ := bind_ok_inv _ _ _ _ _ hfound
  obtain ⟨back, w₂, h₂, hfound⟩ := bind_ok_inv _ _ _ _ _ hfound
  obtain ⟨front, w₃, h₃, hfound⟩ := bind_ok_inv _ _ _ _ _ hfound
  obtain ⟨_, w₄, h₄, hfound⟩ := bind_ok_inv _ _ _ _ _ hfound
  obtain ⟨_, w₅, h₅, hfound⟩ := bind_ok_inv _ _ _ _ _ hfound
  obtain ⟨_, w₆, h₆, hfound⟩ := bind_ok_inv _ _ _ _ _ hfound
  have hw' : w' = { w₅ with modules := (updateFirst (fun m => m._id = myModule._id)
      (fun m => { m with files := m.files ++ (copied ++ back ++ front), active := true })
      w₅.modules) } := by
    have h6 : w₆ = { w₅ with modules := (updateFirst (fun m => m._id = myModule._id)
        (fun m => { m with files := m.files ++ (copied ++ back ++ front), active := true })
        w₅.modules) } := (congrArg Prod.snd h₆).symm
    have h7 : w' = w₆ := (congrArg Prod.snd hfound).symm
    rw [h7, h6]
  -- the flags of the registry are those of the start
  have hf₁ : flags w₁ = flags w := by
    have := keeps_copyBackoffice filesBlind_flags env myModule.name w
    rw [h₁] at this; exact this
  have hf₂ : flags w₂ = flags w₁ := by
    have := keeps_copyTranslationBack filesBlind_flags env myModule w₁
    rw [h₂] at this; exact this
  have hf₃ : flags w₃ = flags w₂ := by
    have := keeps_copyTranslationFront filesBlind_flags env myModule w₂
    rw [h₃] at this; exact this
  have hf₄ : flags w₄ = flags w₃ := by
    have := keeps_installDependencies commandsBlind_flags env myModule toBeChanged w₃
    rw [h₄] at this; exact this
  have hf₅ : flags w₅ = flags w₄ := by
    have := keeps_addOrRemoveThemeFiles filesBlind_flags pushBlind_flags env
      (pathResolve env.appRoot ["modules", myModule.name, "theme_components"]) false
      (typeTag myModule.type) w₄
    rw [h₅] at this; exact this
  have hflags : flags w₅ = flags w := by rw [hf₅, hf₄, hf₃, hf₂, hf₁]
  obtain ⟨m₅, hm₅, _⟩ := findById_of_flags idModule w.modules w₅.modules hflags myModule hfind
  have hcopied := copyBackoffice_recorded env myModule.name w
  rw [h₁] at hcopied
  have hcopied' := Except.ok.inj hcopied
  have hback := copyTranslationBack_recorded env myModule w₁
  rw [h₂] at hback
  have hback' := Except.ok.inj hback
  -- paths stay on disk from the first copy on
  have hstay : ∀ key, pathExists w₁.files key = true → pathExists w₂.files key = true := by
    intro key hk
    have := keepsPath_copyTranslationBack key env myModule w₁ hk
    rw [h₂] at this; exact this
  have hstay' : ∀ key, pathExists w₂.files key = true → pathExists w'.files key = true := by
    intro key hk
    have k₃ := keepsPath_copyTranslationFront key env myModule w₂ hk
    rw [h₃] at k₃
    have k₄ := keepsPath_of_keeps key _
      (keeps_installDependencies commandsBlind_files env myModule toBeChanged) w₃ k₃
    rw [h₄] at k₄
    have k₅ := keepsPath_addThemeFiles key env
      (pathResolve env.appRoot ["modules", myModule.name, "theme_components"])
      (typeTag myModule.type) w₄ k₄
    rw [h₅] at k₅
    rw [hw']
    exact k₅
  refine ⟨w₁, w₂, front,
    { m₅ with files := m₅.files ++ (copied ++ back ++ front), active := true }, m₅.files,
    by rw [h₁], by rw [h₂], by rw [h₃], ?_, rfl, ?_, ?_, ?_, ?_⟩
  · rw [hw']
    simp only
    rw [← hid] at hm₅ ⊢
    exact findById_updateFirst myModule._id
      (fun m => { m with files := m.files ++ (copied ++ back ++ front), active := true })
      (fun _ => rfl) w₅.modules m₅ hm₅
  · simp only
    rw [hcopied', hback']
  · exact copyTranslationFront_recorded env myModule w₂ front (by rw [h₃])
  · intro hsrc hcopy
    apply hstay'
    apply hstay
    have hstate : w₁ = (copyRecursive
        (pathResolve env.appRoot ["modules/" ++ myModule.name ++ "/app/"])
        (pathResolve env.appRoot ["backoffice/app/" ++ myModule.name]) w).2 := by
      have hrun : (copyBackoffice env myModule.name w).2 = (logged (copyRecursive
          (pathResolve env.appRoot ["modules/" ++ myModule.name ++ "/app/"])
          (pathResolve env.appRoot ["backoffice/app/" ++ myModule.name])) w).2 := by
        unfold copyBackoffice access existsSync
        simp only [M.bind, hsrc, if_true]
        cases logged (copyRecursive
          (pathResolve env.appRoot ["modules/" ++ myModule.name ++ "/app/"])
          (pathResolve env.appRoot ["backoffice/app/" ++ myModule.name])) w with
        | mk r w'' => cases r <;> rfl
      rw [h₁] at hrun
      exact hrun.trans (logged_of_ok _ w hcopy)
    rw [hstate]
    exact copyRecursive_creates _ _ w hcopy
  · intro hload hsrc hcopy
    apply hstay'
    have hstate : w₂ = (copyRecursive
        (pathResolve env.appRoot ["modules", myModule.name, "translations/back"])
        (pathResolve env.appRoot ["backoffice/assets/translations/modules", myModule.name])
        w₁).2 := by
      have hrun : (copyTranslationBack env myModule w₁).2 = (logged (copyRecursive
          (pathResolve env.appRoot ["modules", myModule.name, "translations/back"])
          (pathResolve env.appRoot ["backoffice/assets/translations/modules", myModule.name]))
          w₁).2 := by
        unfold copyTranslationBack existsSync
        simp only [M.bind, hload, hsrc, if_true]
        cases logged (copyRecursive
          (pathResolve env.appRoot ["modules", myModule.name, "translations/back"])
          (pathResolve env.appRoot ["backoffice/assets/translations/modules", myModule.name]))
          w₁ with
        | mk r w'' => cases r <;> rfl
      rw [h₂] at hrun
      exact hrun.trans (logged_of_ok _ w₁ hcopy)
    rw [hstate]
    exact copyRecursive_creates _ _ w₁ hcopy

/-- The amended C23 at a module whose back-office folder is copied without
error: the destination is recorded and is on disk after the activation. -/
theorem activateModule_records_attempted_witness :
    findById (appWorld []).modules 1 = some (installedRecord false []) ∧
    (activateModule sampleEnv 1 ⟨[], []⟩ (appWorld [])).1.toOption.map
      (fun l => l.map fun m => (m._id, m.active, m.files)) =
      some [(1, true, ["/app/backoffice/app/foo"])] ∧
    pathExists (activateModule sampleEnv 1 ⟨[], []⟩ (appWorld [])).2.files
      "/app/backoffice/app/foo" = true := by
  obtain ⟨_, _, _, _, _, _, _, _, _, _, _, _, hdisk, _⟩ :=
    activateModule_records_attempted sampleEnv 1 ⟨[], []⟩ (appWorld [])
      (activateModule sampleEnv 1 ⟨[], []⟩ (appWorld [])).2
      ((activateModule sampleEnv 1 ⟨[], []⟩ (appWorld [])).1.toOption.getD [])
      (installedRecord false []) (by decide) (by decide)
  exact ⟨by decide, by decide, hdisk (by decide) (by decide)⟩

/-! ### Keys of the deactivation plan -/

/-- The reconciliation of lines 415-426 leaves the list of every package whose
name is neither `api` nor `theme` nor a name inherited from `Object.prototype`
as it is. -/
theorem reconcileScope_other (already : List (String × String))
    (changed : List (String × List (Option String))) (name : String)
    (hapi : name ≠ "api") (htheme : name ≠ "theme") (hplain : name ∉ objectPrototypeNames) :
    objGet (reconcileScope already changed) name = objGet changed name := by
  unfold reconcileScope
  induction changed with
  | nil => rfl
  | cons e rest ih =>
    obtain ⟨n, v⟩ := e
    rw [List.map_cons]
    by_cases hc : (n = "api" ∨ n = "theme" ∨ n ∈ objectPrototypeNames) ∧ v.length = 2
    · have hn : n ≠ name := by
        intro hn
        rcases hc.1 with h | h | h
        · exact hapi (hn.symm.trans h)
        · exact htheme (hn.symm.trans h)
        · exact hplain (hn ▸ h)
      rw [if_pos hc]
      split
      · rw [objGet_cons, objGet_cons, if_neg hn, if_neg hn]
        exact ih
      · rw [objGet_cons, objGet_cons, if_neg hn, if_neg hn]
        exact ih
    · rw [if_neg hc, objGet_cons, objGet_cons]
      by_cases hn : n = name
      · rw [if_pos hn, if_pos hn]
      · rw [if_neg hn, if_neg hn]
        exact ih

/-- The reconciliation changes lists, not keys. -/
theorem objKeys_reconcileScope (already : List (String × String))
    (changed : List (String × List (Option String))) :
    objKeys (reconcileScope already changed) = objKeys changed := by
  unfold reconcileScope objKeys
  rw [List.map_map]
  apply List.map_congr_left
  intro e _
  simp only [Function.comp]
  split
  · split <;> rfl
  · rfl

/-- `sortEntries` keeps the keys `toBeChanged[scope]` and `toBeRemoved[scope]`
hold. -/
theorem sortEntries_keeps_keys :
    ∀ (entries : List (String × List String)) (changed : List (String × List (Option String)))
      (removed : List (String × List String)) (k : String),
      (k ∈ objKeys changed → k ∈ objKeys (sortEntries entries (changed, removed)).1) ∧
      (k ∈ objKeys removed → k ∈ objKeys (sortEntries entries (changed, removed)).2) := by
  intro entries
  induction entries with
  | nil => intro changed removed k; exact ⟨fun h => h, fun h => h⟩
  | cons e rest ih =>
    obtain ⟨name, values⟩ := e
    intro changed removed k
    rw [sortEntries]
    split
    · exact ⟨fun h => (ih _ _ k).1 ((mem_objKeys_objSet changed name k _).mpr (Or.inr h)),
        fun h => (ih _ _ k).2 h⟩
    · split
      · exact ⟨fun h => (ih _ _ k).1 h,
          fun h => (ih _ _ k).2 ((mem_objKeys_objSet removed name k _).mpr (Or.inr h))⟩
      · exact ih _ _ k

/-- Every entry of `result` with a list that is not empty, under a name that
`Object.prototype` does not hold, ends as a key of `toBeChanged[scope]` or of
`toBeRemoved[scope]`. -/
theorem sortEntries_covers :
    ∀ (entries : List (String × List String)) (changed : List (String × List (Option String)))
      (removed : List (String × List String)) (e : String × List String),
      e ∈ entries → e.2 ≠ [] → e.1 ∉ objectPrototypeNames →
      e.1 ∈ objKeys (sortEntries entries (changed, removed)).1 ∨
        e.1 ∈ objKeys (sortEntries entries (changed, removed)).2 := by
  intro entries
  induction entries with
  | nil => intro _ _ e he; cases he
  | cons x rest ih =>
    obtain ⟨name, values⟩ := x
    intro changed removed e he hne hplain
    rcases List.mem_cons.mp he with hhead | htail
    · subst hhead
      rw [sortEntries]
      by_cases hnone : isTruthyAt changed name = false
      · by_cases hlong : values.length > 1
        · rw [if_pos ⟨hnone, hlong⟩]
          exact Or.inl ((sortEntries_keeps_keys rest _ _ name).1
            ((mem_objKeys_objSet changed name name _).mpr (Or.inl rfl)))
        · have hone : values.length = 1 := by
            have hpos : 0 < values.length := List.length_pos.mpr hne
            omega
          rw [if_neg (fun hh => hlong hh.2), if_pos ⟨hnone, hone⟩]
          exact Or.inr ((sortEntries_keeps_keys rest _ _ name).2
            ((mem_objKeys_objSet removed name name _).mpr (Or.inl rfl)))
      · have hmem : name ∈ objKeys changed := by
          by_contra hout
          exact hnone ((isTruthyAt_false_iff changed name).mpr ⟨hout, hplain⟩)
        rw [if_neg (fun hh => hnone hh.1), if_neg (fun hh => hnone hh.1)]
        exact Or.inl ((sortEntries_keeps_keys rest _ _ name).1 hmem)
    · rw [sortEntries]
      split
      · exact ih _ _ e htail hne hplain
      · split
        · exact ih _ _ e htail hne hplain
        · exact ih _ _ e htail hne hplain

/-- With the keys of `result` distinct, no key ends in both `toBeChanged[scope]`
and `toBeRemoved[scope]`. -/
theorem sortEntries_disjoint :
    ∀ (entries : List (String × List String)) (changed : List (String × List (Option String)))
      (removed : List (String × List String)),
      (objKeys entries).Nodup →
      (∀ k ∈ objKeys removed, k ∉ objKeys changed ∧ k ∉ objKeys entries) →
      ∀ k ∈ objKeys (sortEntries entries (changed, removed)).2,
        k ∉ objKeys (sortEntries entries (changed, removed)).1 := by
  intro entries
  induction entries with
  | nil =>
    intro changed removed _ hinv k hk
    exact (hinv k hk).1
  | cons e rest ih =>
    obtain ⟨name, values⟩ := e
    intro changed removed hnodup hinv
    have hnodup' : (objKeys rest).Nodup := by
      simp only [objKeys, List.map_cons, List.nodup_cons] at hnodup ⊢
      exact hnodup.2
    have hfresh : name ∉ objKeys rest := by
      simp only [objKeys, List.map_cons, List.nodup_cons] at hnodup ⊢
      exact hnodup.1
    rw [sortEntries]
    split
    · refine ih _ _ hnodup' ?_
      intro k hk
      have h := hinv k hk
      refine ⟨?_, fun hr => h.2 (by simp only [objKeys, List.map_cons]; exact List.mem_cons_of_mem _ hr)⟩
      intro hc
      rcases (mem_objKeys_objSet changed name k _).mp hc with hc | hc
      · exact h.2 (by simp only [objKeys, List.map_cons]; rw [hc]; exact List.mem_cons_self _ _)
      · exact h.1 hc
    · split
      · rename_i hcond
        refine ih _ _ hnodup' ?_
        intro k hk
        rcases (mem_objKeys_objSet removed name k values).mp hk with hk | hk
        · rw [hk]
          refine ⟨?_, hfresh⟩
          exact ((isTruthyAt_false_iff changed name).mp hcond.1).1
        · have h := hinv k hk
          exact ⟨h.1, fun hr => h.2 (by
            simp only [objKeys, List.map_cons]; exact List.mem_cons_of_mem _ hr)⟩
      · refine ih _ _ hnodup' ?_
        intro k hk
        have h := hinv k hk
        exact ⟨h.1, fun hr => h.2 (by
          simp only [objKeys, List.map_cons]; exact List.mem_cons_of_mem _ hr)⟩

/-- Among entries whose lists hold one string each, every key that
`toBeChanged[scope]` does not hold and `Object.prototype` does not name ends in
`toBeRemoved[scope]`, under a list of `result`. -/
theorem sortEntries_singles :
    ∀ (entries : List (String × List String)) (changed : List (String × List (Option String)))
      (removed : List (String × List String)) (k : String),
      (∀ e ∈ entries, e.2.length = 1) → k ∉ objKeys changed → k ∉ objectPrototypeNames →
      (k ∈ objKeys entries ∨ k ∈ objKeys removed) →
      ∃ values, objGet (sortEntries entries (changed, removed)).2 k = some values ∧
        ((k, values) ∈ entries ∨ objGet removed k = some values) := by
  intro entries
  induction entries with
  | nil =>
    intro changed removed k _ _ _ hk
    rcases hk with hk | hk
    · simp [objKeys] at hk
    · have hs := (objGet_isSome_iff removed k).mpr hk
      cases hg : objGet removed k with
      | none => rw [hg] at hs; cases hs
      | some values => exact ⟨values, hg, Or.inr rfl⟩
  | cons e rest ih =>
    obtain ⟨name, values⟩ := e
    intro changed removed k hsingle hchanged hplain hk
    have hlen : values.length = 1 := hsingle (name, values) (List.mem_cons_self _ _)
    have hrest : ∀ e ∈ rest, e.2.length = 1 := fun e he => hsingle e (List.mem_cons_of_mem _ he)
    rw [sortEntries]
    rw [if_neg (by rw [hlen]; simp)]
    by_cases hnone : isTruthyAt changed name = false
    · rw [if_pos ⟨hnone, hlen⟩]
      have hk' : k ∈ objKeys rest ∨ k ∈ objKeys (objSet removed name values) := by
        rcases hk with hk | hk
        · simp only [objKeys, List.map_cons, List.mem_cons] at hk
          rcases hk with hk | hk
          · exact Or.inr ((mem_objKeys_objSet removed name k values).mpr (Or.inl hk))
          · exact Or.inl hk
        · exact Or.inr ((mem_objKeys_objSet removed name k values).mpr (Or.inr hk))
      obtain ⟨found, hget, hfrom⟩ := ih changed (objSet removed name values) k hrest hchanged hplain hk'
      refine ⟨found, hget, ?_⟩
      rcases hfrom with hfrom | hfrom
      · exact Or.inl (List.mem_cons_of_mem _ hfrom)
      · by_cases hn : name = k
        · subst hn
          rw [objGet_objSet_self] at hfrom
          cases hfrom
          exact Or.inl (List.mem_cons_self _ _)
        · rw [objGet_objSet_other removed name k values hn] at hfrom
          exact Or.inr hfrom
    · rw [if_neg (fun hh => hnone hh.1)]
      have hne : k ≠ name := by
        intro hkn
        apply hnone
        rw [isTruthyAt_false_iff, ← hkn]
        exact ⟨hchanged, hplain⟩
      have hk' : k ∈ objKeys rest ∨ k ∈ objKeys removed := by
        rcases hk with hk | hk
        · simp only [objKeys, List.map_cons, List.mem_cons] at hk
          rcases hk with hk | hk
          · exact absurd hk hne
          · exact Or.inl hk
        · exact Or.inr hk
      obtain ⟨found, hget, hfrom⟩ := ih changed removed k hrest hchanged hplain hk'
      refine ⟨found, hget, ?_⟩
      rcases hfrom with hfrom | hfrom
      · exact Or.inl (List.mem_cons_of_mem _ hfrom)
      · exact Or.inr hfrom

/-- With `result` assigned and the four probes answering, the plan
`planUninstallation` returns. -/
theorem planUninstallation_plan (env : UninstallEnv) (pd : PackageDependencies)
    (entries : List (String × List String)) (dependenciesApi dependenciesTheme : List String)
    (installedApi installedTheme : List (String × String))
    (haq : env.aquilaDependencies = .ok dependenciesApi)
    (hth : env.themeDependencies = .ok dependenciesTheme)
    (hia : env.installedApi = .ok installedApi) (hit : env.installedTheme = .ok installedTheme) :
    ∃ plan pinnedApi pinnedTheme alreadyApi alreadyTheme,
      planUninstallation env pd (some entries) = .ok plan ∧
      plan.toBeRemoved = ⟨(sortEntries entries (pinnedApi, [])).2,
        (sortEntries entries (pinnedTheme, [])).2⟩ ∧
      plan.toBeChanged = ⟨reconcileScope alreadyApi (sortEntries entries (pinnedApi, [])).1,
        reconcileScope alreadyTheme (sortEntries entries (pinnedTheme, [])).1⟩ := by
  obtain ⟨pinnedApi, hpa, _⟩ := pinScope_some pd.api dependenciesApi entries
  obtain ⟨pinnedTheme, hpt, _⟩ := pinScope_some pd.api dependenciesTheme entries
  have hsa : ∃ a, installedScope pd.api env.installedApi (objKeys entries) = .ok a := by
    rw [hia]
    unfold installedScope
    cases pd.api <;> exact ⟨_, rfl⟩
  have hst : ∃ a, installedScope pd.theme env.installedTheme (objKeys entries) = .ok a := by
    rw [hit]
    unfold installedScope
    cases pd.theme <;> exact ⟨_, rfl⟩
  obtain ⟨alreadyApi, hsa⟩ := hsa
  obtain ⟨alreadyTheme, hst⟩ := hst
  unfold planUninstallation
  rw [haq, hth, hpa, hpt]
  simp only [hsa, hst]
  exact ⟨_, pinnedApi, pinnedTheme, alreadyApi, alreadyTheme, rfl, rfl, rfl⟩

/-! ### C15, the plan of a module without shared packages -/

/-- With `result` assigned and the four probes answering, the plan
`planUninstallation` returns, from what the two manifest blocks leave in
`toBeChanged`. -/
theorem planUninstallation_pinned (env : UninstallEnv) (pd : PackageDependencies)
    (entries : List (String × List String)) (dependenciesApi dependenciesTheme : List String)
    (installedApi installedTheme : List (String × String))
    (haq : env.aquilaDependencies = .ok dependenciesApi)
    (hth : env.themeDependencies = .ok dependenciesTheme)
    (hia : env.installedApi = .ok installedApi) (hit : env.installedTheme = .ok installedTheme) :
    ∃ plan pinnedApi pinnedTheme alreadyApi alreadyTheme,
      planUninstallation env pd (some entries) = .ok plan ∧
      pinScope pd.api (.ok dependenciesApi) (some entries) = .ok pinnedApi ∧
      pinScope pd.api (.ok dependenciesTheme) (some entries) = .ok pinnedTheme ∧
      plan.toBeRemoved = ⟨(sortEntries entries (pinnedApi, [])).2,
        (sortEntries entries (pinnedTheme, [])).2⟩ ∧
      plan.toBeChanged = ⟨reconcileScope alreadyApi (sortEntries entries (pinnedApi, [])).1,
        reconcileScope alreadyTheme (sortEntries entries (pinnedTheme, [])).1⟩ := by
  obtain ⟨pinnedApi, hpa, _⟩ := pinScope_some pd.api dependenciesApi entries
  obtain ⟨pinnedTheme, hpt, _⟩ := pinScope_some pd.api dependenciesTheme entries
  have hsa : ∃ a, installedScope pd.api env.installedApi (objKeys entries) = .ok a := by
    rw [hia]
    unfold installedScope
    cases pd.api <;> exact ⟨_, rfl⟩
  have hst : ∃ a, installedScope pd.theme env.installedTheme (objKeys entries) = .ok a := by
    rw [hit]
    unfold installedScope
    cases pd.theme <;> exact ⟨_, rfl⟩
  obtain ⟨alreadyApi, hsa⟩ := hsa
  obtain ⟨alreadyTheme, hst⟩ := hst
  unfold planUninstallation
  rw [haq, hth, hpa, hpt]
  simp only [hsa, hst]
  exact ⟨_, pinnedApi, pinnedTheme, alreadyApi, alreadyTheme, rfl, rfl, rfl, rfl, rfl⟩

/-- One scope of the plan of a module without shared packages: among the
entries of `result`, whose lists hold one string each, a package that no pinned
value names ends in `toBeRemoved[scope]` under its list, and a package that the
manifest block stored ends in `toBeChanged[scope]` and not in
`toBeRemoved[scope]`. -/
theorem sortEntries_unshared (already : List (String × String))
    (entries : List (String × List String)) (declaredApi : Option (List String))
    (dependencies : List String) (pinned : List (String × List (Option String)))
    (hpinned : pinScope declaredApi (.ok dependencies) (some entries) = .ok pinned)
    (hsingle : ∀ e ∈ entries, e.2.length = 1) (name : String) (hname : name ∈ objKeys entries)
    (hplain : name ∉ objectPrototypeNames) :
    ((∀ value ∈ dependencies, dependencyName value ≠ name) →
      ∃ values, objGet (sortEntries entries (pinned, [])).2 name = some values ∧
        (name, values) ∈ entries) ∧
    (declaredApi.isSome = true → (∃ value ∈ dependencies, dependencyName value = name) →
      name ∈ objKeys (reconcileScope already (sortEntries entries (pinned, [])).1) ∧
        name ∉ objKeys (sortEntries entries (pinned, [])).2) := by
  obtain ⟨pinned', hp, hk⟩ := pinScope_some declaredApi dependencies entries
  rw [hp] at hpinned
  have heq : pinned' = pinned := Except.ok.inj hpinned
  subst heq
  constructor
  · intro hfree
    have hout : name ∉ objKeys pinned' := by
      rw [hk]
      rintro ⟨_, _, v, hv, hn⟩
      exact hfree v hv hn.symm
    obtain ⟨values, hget, hfrom⟩ := sortEntries_singles entries pinned' [] name hsingle hout hplain
      (Or.inl hname)
    refine ⟨values, hget, ?_⟩
    rcases hfrom with hfrom | hfrom
    · exact hfrom
    · cases hfrom
  · rintro hapi ⟨value, hvalue, hnamed⟩
    have hin : name ∈ objKeys pinned' := (hk name).mpr ⟨hapi, hname, value, hvalue, hnamed.symm⟩
    constructor
    · rw [objKeys_reconcileScope]
      exact (sortEntries_keeps_keys entries pinned' [] name).1 hin
    · intro hmem
      rcases mem_objKeys_sortEntries_removed entries pinned' [] name hmem with h' | ⟨_, h₂⟩
      · simp [objKeys] at h'
      · exact h₂ hin


/-- C15 (amended): for a module with a dependency to declare, when the probes
answer and every list of the requirement map `compareDependencies` returns
holds exactly one string, `checkDependenciesAtUninstallation` returns a plan in
which, for each of the two scopes and every package of the map whose name is
not a name inherited from `Object.prototype`: a package that no value of the
manifest of the scope names is placed in `toBeRemoved[scope]` under its
requirement list; and, the module declaring an `api` list, a package that a
value of the manifest of the scope names is a key of `toBeChanged[scope]` and
not of `toBeRemoved[scope]`. -/
theorem checkDependenciesAtUninstallation_unshared (env : UninstallEnv) (modules : List Module)
    (idModule : Nat) (myModule : Module) (pd : PackageDependencies)
    (modulesActivated : List Module) (dependenciesApi dependenciesTheme : List String)
    (installedApi installedTheme : List (String × String))
    (hfind : findById modules idModule = some myModule)
    (hpd : myModule.packageDependencies = some pd)
    (hdecl : declaresSome (pd.api.map env.cleanPackageVersion) = true ∨
      declaresSome (pd.theme.map env.cleanPackageVersion) = true)
    (hact : cleanActivatedAtUninstallation env.cleanPackageVersion
      (findOtherActive modules idModule) = .ok modulesActivated)
    (haq : env.aquilaDependencies = .ok dependenciesApi)
    (hth : env.themeDependencies = .ok dependenciesTheme)
    (hia : env.installedApi = .ok installedApi) (hit : env.installedTheme = .ok installedTheme)
    (hsingle : ∀ e ∈ env.compareDependencies (cleanCandidate env.cleanPackageVersion myModule pd)
      modulesActivated, e.2.length = 1) :
    ∃ plan, checkDependenciesAtUninstallation env modules idModule = .ok plan ∧
      ∀ (scope : Scope) (name : String),
        name ∈ objKeys (env.compareDependencies
          (cleanCandidate env.cleanPackageVersion myModule pd) modulesActivated) →
        name ∉ objectPrototypeNames →
        ((∀ value ∈ (match scope with
            | .api => dependenciesApi
            | .theme => dependenciesTheme), dependencyName value ≠ name) →
          ∃ values, objGet (plan.toBeRemoved.scope scope) name = some values ∧
            (name, values) ∈ env.compareDependencies
              (cleanCandidate env.cleanPackageVersion myModule pd) modulesActivated) ∧
        (pd.api.isSome = true →
          (∃ value ∈ (match scope with
            | .api => dependenciesApi
            | .theme => dependenciesTheme), dependencyName value = name) →
          name ∈ objKeys (plan.toBeChanged.scope scope) ∧
            name ∉ objKeys (plan.toBeRemoved.scope scope)) := by
  have hsome : pd.api.isSome = true ∨ pd.theme.isSome = true := by
    rcases hdecl with h | h
    · left
      cases hp : pd.api with
      | none => rw [hp] at h; cases h
      | some l => rfl
    · right
      cases hp : pd.theme with
      | none => rw [hp] at h; cases h
      | some l => rfl
  obtain ⟨plan, pinnedApi, pinnedTheme, alreadyApi, alreadyTheme, hplan, hpa, hpt, hrem, hchg⟩ :=
    planUninstallation_pinned env
      { api := pd.api.map env.cleanPackageVersion, theme := pd.theme.map env.cleanPackageVersion }
      (env.compareDependencies (cleanCandidate env.cleanPackageVersion myModule pd)
        modulesActivated)
      dependenciesApi dependenciesTheme installedApi installedTheme haq hth hia hit
  refine ⟨plan, ?_, ?_⟩
  · unfold checkDependenciesAtUninstallation
    rw [hfind]
    simp only [hpd]
    rw [if_pos hsome, hact]
    simp only
    rw [if_pos hdecl]
    exact hplan
  · intro scope name hname hplain
    have hmap : pd.api.isSome = true → (pd.api.map env.cleanPackageVersion).isSome = true := by
      intro h
      cases hp : pd.api with
      | none => rw [hp] at h; cases h
      | some l => rfl
    rw [hrem, hchg]
    cases scope with
    | api =>
      have h := sortEntries_unshared alreadyApi _ _ dependenciesApi pinnedApi hpa hsingle name
        hname hplain
      exact ⟨h.1, fun hapi hnamed => h.2 (hmap hapi) hnamed⟩
    | theme =>
      have h := sortEntries_unshared alreadyTheme _ _ dependenciesTheme pinnedTheme hpt hsingle
        name hname hplain
      exact ⟨h.1, fun hapi hnamed => h.2 (hmap hapi) hnamed⟩

/-- C15 (amended) witness: module `b` is the only requester of `moment@^2.0`
and of `lodash@^4.0.0`, and the host manifest pins `lodash@^4.17.0` only:
`moment` is to be removed, `lodash` is kept in `toBeChanged.api`. -/
theorem checkDependenciesAtUninstallation_unshared_witness :
    ∃ plan, checkDependenciesAtUninstallation
        (sampleUninstall [("moment", ["moment@^2.0"]), ("lodash", ["lodash@^4.0.0"])]
          ["lodash@^4.17.0"] [])
        [sampleModule 1 "b" true (some ⟨some ["moment@^2.0", "lodash@^4.0.0"], none⟩)] 1 =
          .ok plan ∧
      (∃ values, objGet (plan.toBeRemoved.scope Scope.api) "moment" = some values ∧
        ("moment", values) ∈ [("moment", ["moment@^2.0"]), ("lodash", ["lodash@^4.0.0"])]) ∧
      "lodash" ∈ objKeys (plan.toBeChanged.scope Scope.api) ∧
      "lodash" ∉ objKeys (plan.toBeRemoved.scope Scope.api) :=
  (checkDependenciesAtUninstallation_unshared
    (sampleUninstall [("moment", ["moment@^2.0"]), ("lodash", ["lodash@^4.0.0"])]
      ["lodash@^4.17.0"] [])
    [sampleModule 1 "b" true (some ⟨some ["moment@^2.0", "lodash@^4.0.0"], none⟩)] 1
    (sampleModule 1 "b" true (some ⟨some ["moment@^2.0", "lodash@^4.0.0"], none⟩))
    ⟨some ["moment@^2.0", "lodash@^4.0.0"], none⟩ [] ["lodash@^4.17.0"] [] [] []
    (by decide) (by decide) (by decide) (by decide) rfl rfl rfl rfl (by decide)).imp
    fun _ h => ⟨h.1, (h.2 Scope.api "moment" (by decide) (by decide)).1 (by decide),
      (h.2 Scope.api "lodash" (by decide) (by decide)).2 (by decide)
        ⟨"lodash@^4.17.0", by decide, by decide⟩⟩

/-! ### C26 -/

/-- C26 (as stated, refuted): module `b` is the only requester of
`constructor@1.0.0`.  `toBeChanged.api` is an object literal, so
`toBeChanged.api['constructor']` reads the inherited `Object` and both tests of
lines 379 and 383 fail: the package, whose list is not empty, is a key neither
of `toBeChanged[scope]` nor of `toBeRemoved[scope]`, in both scopes.  The same
module requiring `lodash@^4.0.0` has `lodash` in `toBeRemoved` of both
scopes. -/
theorem checkDependenciesAtUninstallation_inherited_name :
    (checkDependenciesAtUninstallation
        (sampleUninstall [("constructor", ["constructor@1.0.0"])] [] [])
        [sampleModule 1 "b" true (some ⟨some ["constructor@1.0.0"], none⟩)] 1).toOption.map
      (fun plan => (plan.toBeRemoved, plan.toBeChanged)) = some (⟨[], []⟩, ⟨[], []⟩) ∧
    (checkDependenciesAtUninstallation
        (sampleUninstall [("lodash", ["lodash@^4.0.0"])] [] [])
        [sampleModule 1 "b" true (some ⟨some ["lodash@^4.0.0"], none⟩)] 1).toOption.map
      (fun plan => (plan.toBeRemoved, plan.toBeChanged)) =
      some (⟨[("lodash", ["lodash@^4.0.0"])], [("lodash", ["lodash@^4.0.0"])]⟩, ⟨[], []⟩) := by
  decide

/-- C26 (amended): for a module with a dependency to declare, when the probes
answer, `checkDependenciesAtUninstallation` returns a plan in which, for each
of the two scopes, no package is a key of both `toBeChanged[scope]` and
`toBeRemoved[scope]`, and every package of the requirement map (an object: its
keys are distinct) whose list is not empty and whose name is not a name
inherited from `Object.prototype` is a key of one of them. -/
theorem checkDependenciesAtUninstallation_partition (env : UninstallEnv) (modules : List Module)
    (idModule : Nat) (myModule : Module) (pd : PackageDependencies)
    (modulesActivated : List Module) (dependenciesApi dependenciesTheme : List String)
    (installedApi installedTheme : List (String × String))
    (hfind : findById modules idModule = some myModule)
    (hpd : myModule.packageDependencies = some pd)
    (hdecl : declaresSome (pd.api.map env.cleanPackageVersion) = true ∨
      declaresSome (pd.theme.map env.cleanPackageVersion) = true)
    (hact : cleanActivatedAtUninstallation env.cleanPackageVersion
      (findOtherActive modules idModule) = .ok modulesActivated)
    (haq : env.aquilaDependencies = .ok dependenciesApi)
    (hth : env.themeDependencies = .ok dependenciesTheme)
    (hia : env.installedApi = .ok installedApi) (hit : env.installedTheme = .ok installedTheme)
    (hkeys : (objKeys (env.compareDependencies
      (cleanCandidate env.cleanPackageVersion myModule pd) modulesActivated)).Nodup) :
    ∃ plan, checkDependenciesAtUninstallation env modules idModule = .ok plan ∧
      ∀ scope : Scope,
        (∀ k, k ∈ objKeys (plan.toBeRemoved.scope scope) →
          k ∉ objKeys (plan.toBeChanged.scope scope)) ∧
        (∀ e ∈ env.compareDependencies (cleanCandidate env.cleanPackageVersion myModule pd)
            modulesActivated, e.2 ≠ [] → e.1 ∉ objectPrototypeNames →
          e.1 ∈ objKeys (plan.toBeChanged.scope scope) ∨
            e.1 ∈ objKeys (plan.toBeRemoved.scope scope)) := by
  have hsome : pd.api.isSome = true ∨ pd.theme.isSome = true := by
    rcases hdecl with h | h
    · left
      cases hp : pd.api with
      | none => rw [hp] at h; cases h
      | some l => rfl
    · right
      cases hp : pd.theme with
      | none => rw [hp] at h; cases h
      | some l => rfl
  obtain ⟨plan, pinnedApi, pinnedTheme, alreadyApi, alreadyTheme, hplan, hrem, hchg⟩ :=
    planUninstallation_plan env
      { api := pd.api.map env.cleanPackageVersion, theme := pd.theme.map env.cleanPackageVersion }
      (env.compareDependencies (cleanCandidate env.cleanPackageVersion myModule pd)
        modulesActivated)
      dependenciesApi dependenciesTheme installedApi installedTheme haq hth hia hit
  refine ⟨plan, ?_, ?_⟩
  · unfold checkDependenciesAtUninstallation
    rw [hfind]
    simp only [hpd]
    rw [if_pos hsome, hact]
    simp only
    rw [if_pos hdecl]
    exact hplan
  · intro scope
    rw [hrem, hchg]
    cases scope with
    | api =>
      simp only [Scoped.scope]
      rw [objKeys_reconcileScope]
      exact ⟨sortEntries_disjoint _ pinnedApi [] hkeys (fun k hk => by simp [objKeys] at hk),
        fun e he hne hplain => sortEntries_covers _ pinnedApi [] e he hne hplain⟩
    | theme =>
      simp only [Scoped.scope]
      rw [objKeys_reconcileScope]
      exact ⟨sortEntries_disjoint _ pinnedTheme [] hkeys (fun k hk => by simp [objKeys] at hk),
        fun e he hne hplain => sortEntries_covers _ pinnedTheme [] e he hne hplain⟩

/-- C26 (amended) witness: `lodash` is pinned by the host, `moment` has one
requester and `react` has two. -/
theorem checkDependenciesAtUninstallation_partition_witness :
    ∃ plan, checkDependenciesAtUninstallation
        (sampleUninstall [("lodash", ["lodash@^4.0.0"]), ("moment", ["moment@^2.0"]),
          ("react", ["react@^16.0.0", "react@^17.0.0"])] ["lodash@^4.17.0"] [])
        [sampleModule 1 "b" true
          (some ⟨some ["lodash@^4.0.0", "moment@^2.0", "react@^16.0.0"], none⟩)] 1 = .ok plan ∧
      ∀ scope : Scope,
        (∀ k, k ∈ objKeys (plan.toBeRemoved.scope scope) →
          k ∉ objKeys (plan.toBeChanged.scope scope)) ∧
        (∀ e ∈ [("lodash", ["lodash@^4.0.0"]), ("moment", ["moment@^2.0"]),
            ("react", ["react@^16.0.0", "react@^17.0.0"])], e.2 ≠ [] →
          e.1 ∉ objectPrototypeNames →
          e.1 ∈ objKeys (plan.toBeChanged.scope scope) ∨
            e.1 ∈ objKeys (plan.toBeRemoved.scope scope)) :=
  checkDependenciesAtUninstallation_partition
    (sampleUninstall [("lodash", ["lodash@^4.0.0"]), ("moment", ["moment@^2.0"]),
      ("react", ["react@^16.0.0", "react@^17.0.0"])] ["lodash@^4.17.0"] [])
    [sampleModule 1 "b" true
      (some ⟨some ["lodash@^4.0.0", "moment@^2.0", "react@^16.0.0"], none⟩)] 1
    (sampleModule 1 "b" true
      (some ⟨some ["lodash@^4.0.0", "moment@^2.0", "react@^16.0.0"], none⟩))
    ⟨some ["lodash@^4.0.0", "moment@^2.0", "react@^16.0.0"], none⟩ [] ["lodash@^4.17.0"] [] [] []
    (by decide) (by decide) (by decide) (by decide) rfl rfl rfl rfl (by decide)

end ModulesService
